import Mathlib

/-!
The grid simulation engine of `src/blocks.c` (sdl-blocks).

A shallow embedding of the engine part of `blocks.c` (game state, spawn, down-tick and
landing, horizontal shifts, colour rotation, compaction, match detection) followed by
theorems about it.

Modelling conventions.

* C `int` values are `Int`; every quantity of the engine stays within a few thousand, and
  signed overflow is undefined in C, so no wrap-around is modelled.
* `int / int` is `Int.tdiv` (truncation towards zero); `ceil((double)a / (double)b)` is the
  mathematical ceiling `ceilDiv`; `ceil` and `round` of an `int` expression are the identity.
* `Block placedBlocks[6][14]` is one object of 84 consecutive `Block`s: the subscript
  expression `placedBlocks[i][j]` designates element `14 * i + j` of it.  The code computes
  subscripts from pixel offsets and (in one walk of `clearAndScore`) lets a row subscript run
  past 13, so the embedding follows the flat address.  An access whose flat address is
  outside `0 .. 83`, or a used read of `occupiedSlots` outside `0 .. 5`, has no defined
  behaviour: the operation then returns `none`.
* `int *color` is a pointer to one of the global colour arrays (or null); it is only ever
  compared for identity, so it is the enumeration `Color`.
* `double` time stamps are rationals (seconds).
* `rand()` is replaced by explicit draws (`Draws`).
-/

namespace Blocks

/-! ## Constants -/

abbrev GRID_BLOCK_HEIGHT : Int := 14
abbrev GRID_BLOCK_WIDTH : Int := 6
abbrev BLOCK_HEIGHT : Int := 50
abbrev BLOCK_WIDTH : Int := 50
abbrev BLOCK_COLUMN_LENGTH : Int := 3
abbrev BLOCKS_TO_MATCH : Nat := 3
abbrev GRID_HEIGHT : Int := GRID_BLOCK_HEIGHT * BLOCK_HEIGHT
abbrev GRID_WIDTH : Int := GRID_BLOCK_WIDTH * BLOCK_WIDTH

/-- Interval of the compaction rate limiter, `blockCompactingInterval = .012`. -/
def blockCompactingInterval : ℚ := 12 / 1000

/-- Interval of the down-move rate limiter, `columnDownInterval = .1`. -/
def columnDownInterval : ℚ := 1 / 10

/-! ## Data model -/

/-- The values an `int *color` takes: the null pointer (`zeroBlock`) or the address of one
of the seven global colour arrays. -/
inductive Color where
  | null | black | red | green | blue | orange | yellow | purple
  deriving DecidableEq, Repr

/-- The C struct `Block`. -/
structure Block where
  occupied : Bool
  x : Int
  y : Int
  color : Color
  deriving DecidableEq, Repr

/-- The block `zeroBlock` leaves behind. -/
def zeroBlock : Block := { occupied := false, x := 0, y := 0, color := Color.null }

/-- The matrix `placedBlocks[x][y]`; only `x < 6`, `y < 14` is ever looked at. -/
abbrev Grid := Nat → Nat → Block

/-- The array `columnBlocks[3]` of the falling column. -/
structure Column where
  b0 : Block
  b1 : Block
  b2 : Block
  deriving DecidableEq, Repr

/-- The global variables of the engine. -/
structure GameState where
  columnBlocks : Column
  lastColumnDownMove : ℚ
  placedBlocks : Grid
  lastCompactBlocksMove : ℚ
  occupiedSlots : Nat → Int
  gameOver : Bool

/-- The results of the four `rand()` calls of one `spawnColumn`: the one of `getRandomX`,
then one per cell for `getRandomColor`. -/
structure Draws where
  rx : Nat
  r0 : Nat
  r1 : Nat
  r2 : Nat

/-! ## Arithmetic helpers -/

/-- The value of `ceil((double)a / (double)b)` for `b > 0`. -/
def ceilDiv (a b : Int) : Int := -((-a) / b)

/-! ## Access to `placedBlocks` and `occupiedSlots` -/

/-- Flat address of `placedBlocks[gx][gy]` inside the 84-element object. -/
def flatIndex (gx gy : Int) : Int := gx * GRID_BLOCK_HEIGHT + gy

/-- Whether `placedBlocks[gx][gy]` lies inside the object. -/
def inObject (gx gy : Int) : Bool :=
  decide (0 ≤ flatIndex gx gy) && decide (flatIndex gx gy < GRID_BLOCK_WIDTH * GRID_BLOCK_HEIGHT)

/-- Column of the cell the subscripts `[gx][gy]` really designate. -/
def cellCol (gx gy : Int) : Nat := (flatIndex gx gy / GRID_BLOCK_HEIGHT).toNat

/-- Row of the cell the subscripts `[gx][gy]` really designate. -/
def cellRow (gx gy : Int) : Nat := (flatIndex gx gy % GRID_BLOCK_HEIGHT).toNat

/-- Overwrite one cell of the matrix. -/
def setCell (g : Grid) (c r : Nat) (b : Block) : Grid :=
  fun c' r' => if c' = c ∧ r' = r then b else g c' r'

/-- Read `placedBlocks[gx][gy]`. -/
def readBlock (g : Grid) (gx gy : Int) : Option Block :=
  if inObject gx gy then some (g (cellCol gx gy) (cellRow gx gy)) else none

/-- Apply `f` to `placedBlocks[gx][gy]` in place. -/
def modifyBlock (g : Grid) (gx gy : Int) (f : Block → Block) : Option Grid :=
  if inObject gx gy then
    some (setCell g (cellCol gx gy) (cellRow gx gy) (f (g (cellCol gx gy) (cellRow gx gy))))
  else none

/-- Assign every field of `placedBlocks[gx][gy]`. -/
def writeBlock (g : Grid) (gx gy : Int) (b : Block) : Option Grid :=
  modifyBlock g gx gy (fun _ => b)

/-- Read `occupiedSlots[i]`. -/
def readSlot (slots : Nat → Int) (i : Int) : Option Int :=
  if 0 ≤ i ∧ i < GRID_BLOCK_WIDTH then some (slots i.toNat) else none

/-- Assign `occupiedSlots[i] = v`. -/
def writeSlot (slots : Nat → Int) (i : Int) (v : Int) : Option (Nat → Int) :=
  if 0 ≤ i ∧ i < GRID_BLOCK_WIDTH then some (fun j => if j = i.toNat then v else slots j) else none

/-! ## `initGameState`, `spawnColumn` -/

/-- The globals after program start and `initGameState()`: grid and column zeroed, every
`occupiedSlots[x]` set to `GRID_BLOCK_HEIGHT`, timers and `gameOver` at their initial 0. -/
def initGameState : GameState :=
  { columnBlocks := { b0 := zeroBlock, b1 := zeroBlock, b2 := zeroBlock }
    lastColumnDownMove := 0
    placedBlocks := fun _ _ => zeroBlock
    lastCompactBlocksMove := 0
    occupiedSlots := fun _ => GRID_BLOCK_HEIGHT
    gameOver := false }

/-- `getRandomColor`, on the value `rand()` returned. -/
def getRandomColor (rnd : Nat) : Color :=
  match rnd % 5 with
  | 0 => Color.red
  | 1 => Color.green
  | 2 => Color.blue
  | 3 => Color.orange
  | 4 => Color.yellow
  | 5 => Color.purple
  | _ => Color.red

/-- `getRandomX`, on the value `rand()` returned. -/
def getRandomX (rnd : Nat) : Int := ((rnd % (GRID_BLOCK_WIDTH - 1).toNat : Nat) : Int)

/-- One iteration `c` of the loop of `spawnColumn`. -/
def spawnBlock (blockX : Int) (c : Int) (rnd : Nat) : Block :=
  { occupied := true, x := blockX, y := (c - 2) * BLOCK_HEIGHT, color := getRandomColor rnd }

/-- `spawnColumn`. -/
def spawnColumn (d : Draws) (s : GameState) : GameState :=
  let blockX := getRandomX d.rx * BLOCK_WIDTH
  { s with columnBlocks :=
      { b0 := spawnBlock blockX 0 d.r0, b1 := spawnBlock blockX 1 d.r1,
        b2 := spawnBlock blockX 2 d.r2 } }

/-! ## `clearAndScore` -/

/-- Number of steps after which a directional walk is cut off.  A walk moves its flat
address by a fixed non-zero amount per step, so within 84 steps it has either stopped or
left the 84-element object; the cut-off is never reached. -/
def walkFuel : Nat := 85

/-- One of the eight directional walks of the `while` loop of `clearAndScore`, started at
`(cx, cy)` with step `(dx, dy)`.  `inb` is the walk's own bounds test on the advanced
position.  The result lists the `x`, `y` fields of the matching blocks, in walk order.
The eight walks of the C loop advance in lock-step but share no variable, and the grid is
not written inside the loop, so each walk is a recursion of its own. -/
def matchWalk (g : Grid) (color : Color) (inb : Int → Int → Bool) (dx dy : Int) :
    Nat → Int → Int → Option (List (Int × Int))
  | 0, _, _ => none
  | fuel + 1, cx, cy =>
    if inb (cx + dx) (cy + dy) then
      match readBlock g (cx + dx) (cy + dy) with
      | none => none
      | some t =>
        if t.occupied && decide (t.color = color) then
          (matchWalk g color inb dx dy fuel (cx + dx) (cy + dy)).map (fun l => (t.x, t.y) :: l)
        else some []
    else some []

/-- The body of a removal loop for one list entry: entries with a negative field (the list
head) are skipped, the others clear the cell their pixel offsets designate. -/
def clearEntry (g : Grid) (e : Int × Int) : Option Grid :=
  if 0 ≤ e.1 ∧ 0 ≤ e.2 then
    modifyBlock g (e.1.tdiv BLOCK_WIDTH) (e.2.tdiv BLOCK_HEIGHT)
      (fun b => { b with occupied := false, color := Color.black })
  else some g

/-- Walk a removal list and clear its entries. -/
def clearEntries : Grid → List (Int × Int) → Option Grid
  | g, [] => some g
  | g, e :: es => (clearEntry g e).bind (fun g' => clearEntries g' es)

/-- One of the four `if(getItemToRemListLength(..) >= BLOCKS_TO_MATCH)` blocks.  `found`
holds the entries the two walks of the axis appended; the list of the C code has one more
element, its head `(-1, -1)`, which counts for the length.  (The C list interleaves the
two walks; only its length and the cells it names matter, every entry being cleared the
same way.) -/
def clearLine (g : Grid) (block : Block) (found : List (Int × Int)) : Option Grid :=
  if BLOCKS_TO_MATCH ≤ ((-1, -1) :: found).length then
    clearEntries g (((-1, -1) :: found) ++ [(block.x, block.y)])
  else some g

/-- The `while` loop of `clearAndScore` for the origin `block`: the eight walks from
`(gridX, gridY)`, each with the bounds test the C code gives it, collected into the four
removal lists (horizontal, vertical, forward diagonal, backward diagonal). -/
def originWalks (g : Grid) (block : Block) :
    Option (List (Int × Int) × List (Int × Int) × List (Int × Int) × List (Int × Int)) :=
  let gridX := block.x.tdiv BLOCK_WIDTH
  let gridY := block.y.tdiv BLOCK_HEIGHT
  let walk := fun (inb : Int → Int → Bool) (dx dy : Int) =>
    matchWalk g block.color inb dx dy walkFuel gridX gridY
  -- bottom left, upper right (forward diagonal)
  (walk (fun cx cy => decide (0 ≤ cx) && decide (cy < GRID_BLOCK_HEIGHT)) (-1) 1).bind fun bl =>
  (walk (fun cx cy => decide (cx < GRID_BLOCK_WIDTH) && decide (0 ≤ cy)) 1 (-1)).bind fun ur =>
  -- lower right, upper left (backward diagonal)
  (walk (fun cx cy => decide (cx < GRID_BLOCK_WIDTH) && decide (cy < GRID_BLOCK_HEIGHT)) 1 1).bind
    fun lr =>
  (walk (fun cx cy => decide (0 ≤ cx) && decide (0 ≤ cy)) (-1) (-1)).bind fun ul =>
  -- horizontal right, horizontal left
  (walk (fun cx _ => decide (cx < GRID_BLOCK_WIDTH)) 1 0).bind fun hr =>
  (walk (fun cx _ => decide (0 ≤ cx)) (-1) 0).bind fun hl =>
  -- up, down (the bound of the downward walk is `GRID_HEIGHT`)
  (walk (fun _ cy => decide (0 ≤ cy)) 0 (-1)).bind fun vu =>
  (walk (fun _ cy => decide (cy < GRID_HEIGHT)) 0 1).map fun vd =>
    (hr ++ hl, vu ++ vd, bl ++ ur, lr ++ ul)

/-- The four removal blocks that follow the `while` loop, in source order: horizontal,
vertical, forward diagonal, backward diagonal. -/
def clearLines (g : Grid) (block : Block)
    (w : List (Int × Int) × List (Int × Int) × List (Int × Int) × List (Int × Int)) :
    Option Grid :=
  (clearLine g block w.1).bind fun g1 =>
  (clearLine g1 block w.2.1).bind fun g2 =>
  (clearLine g2 block w.2.2.1).bind fun g3 =>
  clearLine g3 block w.2.2.2

/-- The body of the double loop of `clearAndScore` for the loop indices `(x, y)`. -/
def scanOrigin (g : Grid) (x y : Nat) : Option Grid :=
  if !(g x y).occupied then some g
  else (originWalks g (g x y)).bind fun w => clearLines g (g x y) w

/-- The inner loop `for(y=0; y < GRID_BLOCK_HEIGHT; y++)` of `clearAndScore`. -/
def scanColumn (g : Grid) (x : Nat) : Option Grid :=
  (List.range 14).foldlM (fun g' y => scanOrigin g' x y) g

/-- `clearAndScore`. -/
def clearAndScore (g : Grid) : Option Grid :=
  (List.range 6).foldlM scanColumn g

/-! ## `compactBlocks` -/

/-- The body of the double loop of `compactBlocks` for the loop indices `(x, y)`.
In the branch that moves the block, the destination `placedBlocks[gridX][gridY]` receives
all four fields of the (aligned) source block and the source cell is then reset, so both
are written as whole blocks. -/
def compactCell (g : Grid) (x y : Nat) : Option Grid :=
  let amnt : Int := 25
  if !(g x y).occupied then some g
  else if (y : Int) + 1 < GRID_BLOCK_HEIGHT then
    if !(g x (y + 1)).occupied then
      let maxY := (g x y).y + amnt
      let nextGridY := ceilDiv maxY BLOCK_HEIGHT - 1
      let gridX := (g x y).x.tdiv BLOCK_WIDTH
      if nextGridY ≥ (y : Int) + 1 then
        let alignedY := (g x y).y.tdiv BLOCK_HEIGHT * BLOCK_HEIGHT
        let gridY := alignedY.tdiv BLOCK_HEIGHT
        (writeBlock g gridX gridY
            { occupied := true, x := (g x y).x, y := alignedY, color := (g x y).color }).map
          fun g' => setCell g' x y
            { occupied := false, x := (x : Int) * BLOCK_WIDTH, y := (y : Int) * BLOCK_HEIGHT,
              color := Color.black }
      else some (setCell g x y { g x y with y := (g x y).y + amnt })
    else some g
  else some g

/-- The inner loop over `y` of the sliding pass of `compactBlocks`. -/
def compactColumn (g : Grid) (x : Nat) : Option Grid :=
  (List.range 14).foldlM (fun g' y => compactCell g' x y) g

/-- The sliding pass of `compactBlocks` (the first double loop). -/
def compactGrid (g : Grid) : Option Grid :=
  (List.range 6).foldlM compactColumn g

/-- The inner loop of the second double loop of `compactBlocks`: the first `y` with
`placedBlocks[x][y].occupied`, where the loop assigns and breaks. -/
def firstOccupied (g : Grid) (x : Nat) : Option Nat :=
  (List.range 14).find? (fun y => (g x y).occupied)

/-- The second double loop of `compactBlocks` ("reset the occupied slot values"): column
`x` gets `y - 1` for its first occupied row `y`; a column without occupied cell is not
assigned. -/
def resetSlots (g : Grid) (slots : Nat → Int) : Nat → Int :=
  fun x =>
    if x < 6 then
      match firstOccupied g x with
      | some y => (y : Int) - 1
      | none => slots x
    else slots x

/-- The part of `compactBlocks` behind its rate limiter, from
`lastCompactBlocksMove = currentTime` on. -/
def compactBlocksFired (currentTime : ℚ) (s : GameState) : Option GameState :=
  (compactGrid s.placedBlocks).map fun g =>
    { s with lastCompactBlocksMove := currentTime, placedBlocks := g,
             occupiedSlots := resetSlots g s.occupiedSlots }

/-- `compactBlocks`. -/
def compactBlocks (currentTime : ℚ) (s : GameState) : Option GameState :=
  if s.gameOver then some s
  else
    let s1 := if s.lastCompactBlocksMove ≤ 0 then { s with lastCompactBlocksMove := currentTime }
              else s
    if currentTime - s1.lastCompactBlocksMove < blockCompactingInterval then some s1
    else compactBlocksFired currentTime s1

/-! ## `moveColumnDown` -/

/-- One iteration of the landing loop of `moveColumnDown` for the falling cell `b`: align
its `y`, copy it into `placedBlocks[gridX][gridY]`, set `occupiedSlots[gridX]`.  Returns the
new grid, the new slots and the aligned falling cell. -/
def landBlock (gridX nextGridY : Int) (g : Grid) (slots : Nat → Int) (b : Block) :
    Option (Grid × (Nat → Int) × Block) :=
  let alignedY := b.y.tdiv BLOCK_HEIGHT * BLOCK_HEIGHT
  let gridY := alignedY.tdiv BLOCK_HEIGHT
  (writeBlock g gridX gridY
      { occupied := true, x := b.x, y := alignedY, color := b.color }).bind fun g' =>
  (writeSlot slots gridX (nextGridY - BLOCK_COLUMN_LENGTH)).map fun slots' =>
    (g', slots', { b with y := alignedY })

/-- The landing loop of `moveColumnDown` over the three falling cells. -/
def landColumn (gridX nextGridY : Int) (g : Grid) (slots : Nat → Int) (col : Column) :
    Option (Grid × (Nat → Int) × Column) :=
  (landBlock gridX nextGridY g slots col.b0).bind fun r0 =>
  (landBlock gridX nextGridY r0.1 r0.2.1 col.b1).bind fun r1 =>
  (landBlock gridX nextGridY r1.1 r1.2.1 col.b2).map fun r2 =>
    (r2.1, r2.2.1, { b0 := r0.2.2, b1 := r1.2.2, b2 := r2.2.2 })

/-- The local `nextGridY` of `moveColumnDown`. -/
def downNextGridY (s : GameState) : Int :=
  ceilDiv (s.columnBlocks.b2.y + 25) BLOCK_HEIGHT - 1

/-- The local `gridX` of `moveColumnDown`. -/
def downGridX (s : GameState) : Int := s.columnBlocks.b2.x.tdiv BLOCK_WIDTH

/-- The landing test `maxY > lowerBound || nextGridY >= maxGridY` of `moveColumnDown`, where
`slot` is the value read from `occupiedSlots[gridX]`. -/
def landingTest (s : GameState) (slot : Int) : Bool :=
  let maxY := s.columnBlocks.b2.y + 25
  let lowerBound := GRID_HEIGHT - BLOCK_HEIGHT
  let maxGridY := if slot ≥ GRID_BLOCK_HEIGHT then GRID_BLOCK_HEIGHT - 1 else slot
  decide (maxY > lowerBound) || decide (downNextGridY s ≥ maxGridY)

/-- The part of `moveColumnDown` behind its rate limiter, from
`lastColumnDownMove = currentTime` on. -/
def moveColumnDownFired (d : Draws) (currentTime : ℚ) (s : GameState) : Option GameState :=
  let amnt : Int := 25
  let nextGridY := downNextGridY s
  let gridX := downGridX s
  (readSlot s.occupiedSlots gridX).bind fun slot =>
  if landingTest s slot then
    (landColumn gridX nextGridY s.placedBlocks s.occupiedSlots s.columnBlocks).bind fun r =>
    (clearAndScore r.1).map fun g =>
      let s' : GameState :=
        { s with lastColumnDownMove := currentTime, columnBlocks := r.2.2, placedBlocks := g,
                 occupiedSlots := r.2.1 }
      if nextGridY - BLOCK_COLUMN_LENGTH ≤ 0 then { s' with gameOver := true }
      else spawnColumn d s'
  else
    some { s with
      lastColumnDownMove := currentTime
      columnBlocks :=
        { b0 := { s.columnBlocks.b0 with y := s.columnBlocks.b0.y + amnt }
          b1 := { s.columnBlocks.b1 with y := s.columnBlocks.b1.y + amnt }
          b2 := { s.columnBlocks.b2 with y := s.columnBlocks.b2.y + amnt } } }

/-- `moveColumnDown`. -/
def moveColumnDown (d : Draws) (currentTime : ℚ) (s : GameState) : Option GameState :=
  if s.gameOver then some s
  else
    let s1 := if s.lastColumnDownMove ≤ 0 then { s with lastColumnDownMove := currentTime }
              else s
    if currentTime - s1.lastColumnDownMove < columnDownInterval then some s1
    else moveColumnDownFired d currentTime s1

/-! ## `moveColumnRight`, `moveColumnLeft`, `shiftColumnColors` -/

/-- One iteration of the loop of `moveColumnRight`, on the cell `b`; `y2` is
`columnBlocks[2].y`.  `occupiedSlots[nGridX]` is only used when `nx` is not clamped. -/
def shiftBlockRight (slots : Nat → Int) (y2 : Int) (b : Block) : Option Block :=
  let nx := b.x + BLOCK_WIDTH
  let nGridX := nx.tdiv BLOCK_WIDTH
  let gridY := y2.tdiv BLOCK_HEIGHT - 1
  if nx > GRID_WIDTH - BLOCK_WIDTH then some { b with x := GRID_WIDTH - BLOCK_WIDTH }
  else (readSlot slots nGridX).map fun maxGridY =>
    if gridY ≥ maxGridY then b else { b with x := nx }

/-- `moveColumnRight`. -/
def moveColumnRight (s : GameState) : Option GameState :=
  if s.gameOver then some s
  else
    let y2 := s.columnBlocks.b2.y
    (shiftBlockRight s.occupiedSlots y2 s.columnBlocks.b0).bind fun c0 =>
    (shiftBlockRight s.occupiedSlots y2 s.columnBlocks.b1).bind fun c1 =>
    (shiftBlockRight s.occupiedSlots y2 s.columnBlocks.b2).map fun c2 =>
      { s with columnBlocks := { b0 := c0, b1 := c1, b2 := c2 } }

/-- One iteration of the loop of `moveColumnLeft`, on the cell `b`; `y2` is
`columnBlocks[2].y`.  `occupiedSlots[nGridX]` is only used when `nx` is not clamped. -/
def shiftBlockLeft (slots : Nat → Int) (y2 : Int) (b : Block) : Option Block :=
  let nx := b.x - BLOCK_WIDTH
  let nGridX := nx.tdiv BLOCK_WIDTH
  let gridY := y2.tdiv BLOCK_HEIGHT - 1
  if nx < 0 then some { b with x := 0 }
  else (readSlot slots nGridX).map fun maxGridY =>
    if gridY ≥ maxGridY then b else { b with x := nx }

/-- `moveColumnLeft`. -/
def moveColumnLeft (s : GameState) : Option GameState :=
  if s.gameOver then some s
  else
    let y2 := s.columnBlocks.b2.y
    (shiftBlockLeft s.occupiedSlots y2 s.columnBlocks.b0).bind fun c0 =>
    (shiftBlockLeft s.occupiedSlots y2 s.columnBlocks.b1).bind fun c1 =>
    (shiftBlockLeft s.occupiedSlots y2 s.columnBlocks.b2).map fun c2 =>
      { s with columnBlocks := { b0 := c0, b1 := c1, b2 := c2 } }

/-- `shiftColumnColors`. -/
def shiftColumnColors (s : GameState) : GameState :=
  if s.gameOver then s
  else
    let color0 := s.columnBlocks.b0.color
    let color1 := s.columnBlocks.b1.color
    let color2 := s.columnBlocks.b2.color
    { s with columnBlocks :=
        { b0 := { s.columnBlocks.b0 with color := color2 }
          b1 := { s.columnBlocks.b1 with color := color0 }
          b2 := { s.columnBlocks.b2 with color := color1 } } }

/-! ## Driver -/

/-- The calls the main loop makes into the engine. -/
inductive Event where
  | left
  | right
  | rotate
  | down (d : Draws) (currentTime : ℚ)
  | compact (currentTime : ℚ)

/-- Dispatch of one event, as in the main loop. -/
def step (e : Event) (s : GameState) : Option GameState :=
  match e with
  | Event.left => moveColumnLeft s
  | Event.right => moveColumnRight s
  | Event.rotate => some (shiftColumnColors s)
  | Event.down d t => moveColumnDown d t s
  | Event.compact t => compactBlocks t s

/-- A sequence of events, in order. -/
def run : List Event → GameState → Option GameState
  | [], s => some s
  | e :: es, s => (step e s).bind (run es)

/-- The down-move rate limiter lets the call at `currentTime` through. -/
def DownFires (currentTime : ℚ) (s : GameState) : Prop :=
  s.gameOver = false ∧ 0 < s.lastColumnDownMove ∧
    columnDownInterval ≤ currentTime - s.lastColumnDownMove

/-- The compaction rate limiter lets the call at `currentTime` through. -/
def CompactFires (currentTime : ℚ) (s : GameState) : Prop :=
  s.gameOver = false ∧ 0 < s.lastCompactBlocksMove ∧
    blockCompactingInterval ≤ currentTime - s.lastCompactBlocksMove

/-- Every occupied cell is in the bottom row or has an occupied cell directly below. -/
def AtRest (g : Grid) : Prop :=
  ∀ c < 6, ∀ r < 14, (g c r).occupied = true → r = 13 ∨ (g c (r + 1)).occupied = true

/-- Test the result of an operation, `false` when there is none. -/
def optCheck {α : Type} (o : Option α) (p : α → Bool) : Bool :=
  match o with
  | some a => p a
  | none => false

/-- A grid with the given occupied cells `(col, row, colour)`, every cell grid-aligned. -/
def gridOf (l : List (Nat × Nat × Color)) : Grid := fun c r =>
  match l.find? (fun e => e.1 == c && e.2.1 == r) with
  | some e => { occupied := true, x := 50 * (c : Int), y := 50 * (r : Int), color := e.2.2 }
  | none => { occupied := false, x := 50 * (c : Int), y := 50 * (r : Int), color := Color.black }

/-- The state after `initGameState` with the given grid and timers already running. -/
def stateOf (g : Grid) : GameState :=
  { initGameState with placedBlocks := g, lastColumnDownMove := 1, lastCompactBlocksMove := 1 }

/-- Down-ticks at the given times, in order. -/
def downTicks (d : Draws) : List ℚ → GameState → Option GameState
  | [], s => some s
  | t :: ts, s => (moveColumnDown d t s).bind (downTicks d ts)

/-- Every call time of the list gets through the down-move rate limiter, `last` being the
time of the previous call that got through. -/
def Permitted (last : ℚ) : List ℚ → Prop
  | [] => True
  | t :: ts => columnDownInterval ≤ t - last ∧ Permitted t ts

/-- A falling column in grid column 2 (`x = 100`), all three cells of colour `col`, after
`j` down-moves from the spawn offsets `(-100, -50, 0)`. -/
def fallingColumn (c0 c1 c2 : Color) (j : Nat) : Column :=
  { b0 := { occupied := true, x := 100, y := -100 + 25 * (j : Int), color := c0 }
    b1 := { occupied := true, x := 100, y := -50 + 25 * (j : Int), color := c1 }
    b2 := { occupied := true, x := 100, y := 25 * (j : Int), color := c2 } }

/-- The state after `initGameState` with the column `fallingColumn c0 c1 c2 j` and the
down-move limiter last fired at `last`. -/
def fallState (c0 c1 c2 : Color) (j : Nat) (last : ℚ) : GameState :=
  { initGameState with columnBlocks := fallingColumn c0 c1 c2 j, lastColumnDownMove := last }

/-- The call times 1.1, 1.2, ..., 3.7. -/
def tenthsTail : List ℚ := List.map (fun k : Nat => 11 / 10 + (k : ℚ) / 10) (List.range 27)

/-- The call times 1.0, 1.1, ..., 3.7: the first call starts the limiter, each of the
following 27 calls gets through. -/
def tenthsSchedule : List ℚ := 1 :: tenthsTail

/-- The start of the end-to-end scenario: the state after `initGameState`, with the falling
column forced to grid column 2 (`x = 100`), offsets `(-100, -50, 0)`, all cells red. -/
def startC4 : GameState :=
  { initGameState with
    columnBlocks :=
      { b0 := { occupied := true, x := 100, y := -100, color := Color.red }
        b1 := { occupied := true, x := 100, y := -50, color := Color.red }
        b2 := { occupied := true, x := 100, y := 0, color := Color.red } } }

/-- The set of occupied cells `(col, row)` of the grid. -/
def occupiedCells (g : Grid) : Finset (Nat × Nat) :=
  (Finset.range 6 ×ˢ Finset.range 14).filter (fun p => (g p.1 p.2).occupied = true)

/-- Number of occupied cells of the grid. -/
def countOccupied (g : Grid) : Nat := (occupiedCells g).card

/-- The falling cell `b` as the landing loop leaves it: `y` aligned with the grid. -/
def alignBlock (b : Block) : Block := { b with y := b.y.tdiv BLOCK_HEIGHT * BLOCK_HEIGHT }

/-- The block the landing loop stores in the grid for the falling cell `b`. -/
def landedBlock (b : Block) : Block :=
  { occupied := true, x := b.x, y := b.y.tdiv BLOCK_HEIGHT * BLOCK_HEIGHT, color := b.color }

/-- The falling column sits in grid column `c` with its bottom cell in grid row `k`
(pixel offset `50 * k` or, half a cell further, `50 * k + 25`), the two cells above it one
and two cell heights higher, all three rows inside the grid. -/
def ColumnAt (s : GameState) (c k : Nat) : Prop :=
  c < 6 ∧ 2 ≤ k ∧ k ≤ 13 ∧ s.columnBlocks.b2.x = 50 * (c : Int) ∧
    (s.columnBlocks.b2.y = 50 * (k : Int) ∨ s.columnBlocks.b2.y = 50 * (k : Int) + 25) ∧
    s.columnBlocks.b1.y = s.columnBlocks.b2.y - 50 ∧
    s.columnBlocks.b0.y = s.columnBlocks.b2.y - 100

/-- The grid the landing loop produces from `g` for a column landing in grid column `c`
with its bottom cell in row `k`. -/
def landedGrid (g : Grid) (col : Column) (c k : Nat) : Grid :=
  setCell (setCell (setCell g c (k - 2) (landedBlock col.b0)) c (k - 1) (landedBlock col.b1))
    c k (landedBlock col.b2)

/-- A state one tick before a landing that ends the game: column 2 is stacked up to row 4
(`occupiedSlots[2] = 3`) and the falling column has its bottom cell in row 3. -/
def stackState : GameState :=
  { initGameState with
    placedBlocks := gridOf [(2, 4, Color.blue), (2, 5, Color.green), (2, 6, Color.blue),
      (2, 7, Color.green), (2, 8, Color.blue), (2, 9, Color.green), (2, 10, Color.blue),
      (2, 11, Color.green), (2, 12, Color.blue), (2, 13, Color.green)]
    occupiedSlots := fun j => if j = 2 then 3 else 14
    columnBlocks :=
      { b0 := { occupied := true, x := 100, y := 50, color := Color.red }
        b1 := { occupied := true, x := 100, y := 100, color := Color.orange }
        b2 := { occupied := true, x := 100, y := 150, color := Color.yellow } }
    lastColumnDownMove := 1 }

/-! ## Compaction passes: helper notions -/

/-- The given number of sliding passes (first double loop of `compactBlocks`), in a row. -/
def compactPasses : Nat → Grid → Option Grid
  | 0, g => some g
  | n + 1, g => (compactGrid g).bind (compactPasses n)

/-- Every placed block is grid-aligned: pixel `x = 50 * col`, pixel `y = 50 * row`. -/
def Aligned (g : Grid) : Prop :=
  ∀ c < 6, ∀ r < 14, (g c r).occupied = true →
    (g c r).x = 50 * (c : Int) ∧ (g c r).y = 50 * (r : Int)

/-- A cell of a column as the sliding pass sees it: free, or a block that has slid `p`
half-steps of 25 pixels out of its row. -/
abbrev Slot := Option Nat

/-- How the sliding pass sees cell `(x, r)` of the grid. -/
def slotOf (g : Grid) (x r : Nat) : Slot :=
  if (g x r).occupied then some (((g x r).y - 50 * (r : Int)) / 25).toNat else none

/-- Column `x` of the grid, top to bottom, as the sliding pass sees it. -/
def columnSlots (g : Grid) (x : Nat) : List Slot := (List.range 14).map (slotOf g x)

/-- The pixel offsets of the occupied cells of column `x` are those of blocks that have
slid 0, 1 or 2 half-steps out of their row. -/
def ColumnOk (g : Grid) (x : Nat) : Prop :=
  ∀ r < 14, (g x r).occupied = true →
    (g x r).x = 50 * (x : Int) ∧ ∃ p : Nat, p ≤ 2 ∧ (g x r).y = 50 * (r : Int) + 25 * (p : Int)

/-- One sliding pass over a column given as its current top cell `cur` and the cells below:
a block over a free cell advances one half-step, and on its third half-step moves into the
cell below, where it is visited again. -/
def passFrom : Slot → List Slot → List Slot
  | cur, [] => [cur]
  | cur, c :: rest =>
    match cur, c with
    | some p, none =>
      if p < 2 then some (p + 1) :: passFrom none rest
      else none :: passFrom (some 0) rest
    | _, _ => cur :: passFrom c rest

/-- One sliding pass over a column, top to bottom. -/
def passSlots : List Slot → List Slot
  | [] => []
  | c :: rest => passFrom c rest

/-- A block that has left its row (`p > 0`) has a free cell below it, no block has slid
more than 2 half-steps, and a block in the last cell has not left its row. -/
def InvSlots : List Slot → Prop
  | [] => True
  | [c] => c = none ∨ c = some 0
  | c :: c2 :: r => (∀ p, c = some p → p ≤ 2 ∧ (0 < p → c2 = none)) ∧ InvSlots (c2 :: r)

/-- No block of the column has a free cell directly below it. -/
def RestSlots : List Slot → Prop
  | [] => True
  | [_] => True
  | c :: c2 :: r => (c ≠ none → c2 ≠ none) ∧ RestSlots (c2 :: r)

/-- The measure of a column (top to bottom): the number of free cells in it, and a bound on
the passes its top block still needs: `-3` when every block of the column is settled,
otherwise the larger of what the top block needs on its own (`2 * holes + 1 - p`) and 3
more than the bound of the column below it. -/
def settleBound : List Slot → Nat × Int
  | [] => (0, -3)
  | none :: rest => ((settleBound rest).1 + 1, (settleBound rest).2)
  | some p :: rest =>
    if (settleBound rest).1 = 0 then (0, -3)
    else ((settleBound rest).1,
      max (2 * ((settleBound rest).1 : Int) + 1 - (p : Int)) ((settleBound rest).2 + 3))

/-- The pixel offsets of every column are those of sliding blocks, and every block that
has left its row has a free cell below it. -/
def GridOk (g : Grid) : Prop :=
  ∀ x < 6, ColumnOk g x ∧ InvSlots (columnSlots g x)

/-- Calls of `compactBlocks` at the given times, in order. -/
def compactTicks : List ℚ → GameState → Option GameState
  | [], s => some s
  | t :: ts, s => (compactBlocks t s).bind (compactTicks ts)

/-- Every call time of the list gets through the compaction rate limiter, `last` being the
time of the previous call that got through. -/
def PermittedCompact (last : ℚ) : List ℚ → Prop
  | [] => True
  | t :: ts => blockCompactingInterval ≤ t - last ∧ PermittedCompact t ts

/-- The call times 2, 3, ..., `n + 1`: `n` calls one second apart. -/
def secondsSchedule (n : Nat) : List ℚ := List.map (fun k : Nat => 2 + (k : ℚ)) (List.range n)

/-! ## Three-cell runs -/

/-- The grid whose only occupied cells are `a`, `b`, `c`, all of colour `col`, all
grid-aligned. -/
def runGrid (col : Color) (a b c : Nat × Nat) : Grid :=
  gridOf [(a.1, a.2, col), (b.1, b.2, col), (c.1, c.2, col)]

/-- The four removal lists when only the list of axis `axis` (0 horizontal, 1 vertical,
2 forward diagonal, 3 backward diagonal) is non-empty. -/
def lineLists (axis : Nat) (l : List (Int × Int)) :
    List (Int × Int) × List (Int × Int) × List (Int × Int) × List (Int × Int) :=
  match axis with
  | 0 => (l, [], [], [])
  | 1 => ([], l, [], [])
  | 2 => ([], [], l, [])
  | _ => ([], [], [], l)

/-- The walks from the origin `a` of the run grid find exactly `b` and `c`, on the list of
axis `axis`. -/
def walksOk (col : Color) (axis : Nat) (a b c : Nat × Nat) : Bool :=
  decide (originWalks (runGrid col a b c) (runGrid col a b c a.1 a.2) =
    some (lineLists axis [(50 * (b.1 : Int), 50 * (b.2 : Int)),
      (50 * (c.1 : Int), 50 * (c.2 : Int))]))

/-- The claim about a three-cell run: `clearAndScore` returns a grid in which `a`, `b`, `c`
are unoccupied and every other cell is as before. -/
def RunCleared (col : Color) (a b c : Nat × Nat) : Prop :=
  ∃ g', clearAndScore (runGrid col a b c) = some g' ∧
    (g' a.1 a.2).occupied = false ∧ (g' b.1 b.2).occupied = false ∧
    (g' c.1 c.2).occupied = false ∧
    ∀ x y, (x, y) ≠ a → (x, y) ≠ b → (x, y) ≠ c → g' x y = runGrid col a b c x y

/-- The grid with cell `p` cleared the way a removal loop clears it. -/
def clearCell (g : Grid) (p : Nat × Nat) : Grid :=
  setCell g p.1 p.2 { g p.1 p.2 with occupied := false, color := Color.black }

/-- Cell `(c, r)` is inside the grid, occupied and of colour `col`. -/
def sameColourAt (g : Grid) (col : Color) (c r : Int) : Bool :=
  decide (0 ≤ c) && decide (c < 6) && decide (0 ≤ r) && decide (r < 14) &&
    (g c.toNat r.toNat).occupied && decide ((g c.toNat r.toNat).color = col)

/-- Cell `(c, r)` lies on a straight line (horizontal, vertical or one of the two
diagonals) of 3 contiguous cells inside the grid that are all occupied and of the colour
of `(c, r)`. -/
def onRunOf3 (g : Grid) (c r : Nat) : Bool :=
  [((1 : Int), (0 : Int)), (0, 1), (1, 1), (1, -1)].any fun d =>
    [(0 : Int), 1, 2].any fun k =>
      [(0 : Int), 1, 2].all fun i =>
        sameColourAt g (g c r).color ((c : Int) + (i - k) * d.1) ((r : Int) + (i - k) * d.2)

/-! ## The falling column: helper notions -/

/-- The three falling cells share one x-offset. -/
def SameX (col : Column) : Prop := col.b0.x = col.b1.x ∧ col.b1.x = col.b2.x

/-- The x-offset of the cell lies in `[0, GRID_WIDTH - BLOCK_WIDTH]`. -/
def XInGrid (b : Block) : Prop := 0 ≤ b.x ∧ b.x ≤ GRID_WIDTH - BLOCK_WIDTH

/-- The x-offset of every falling cell lies in `[0, GRID_WIDTH - BLOCK_WIDTH]`. -/
def ColumnXInGrid (col : Column) : Prop := XInGrid col.b0 ∧ XInGrid col.b1 ∧ XInGrid col.b2

/-- The x-offset of the cell is that of a grid column: a multiple of the cell width. -/
def XAligned (b : Block) : Prop := ∃ c : Nat, b.x = BLOCK_WIDTH * (c : Int)

/-- The x-offset of every falling cell is a multiple of the cell width. -/
def ColumnXAligned (col : Column) : Prop := XAligned col.b0 ∧ XAligned col.b1 ∧ XAligned col.b2

/-- The x-offset of `b'` is that of `b`, or that of `b` plus `delta`. -/
def XMoved (delta : Int) (b b' : Block) : Prop := b'.x = b.x ∨ b'.x = b.x + delta

/-- Every cell of `col'` has the x-offset of the same cell of `col`, or that plus `delta`. -/
def ColumnMoved (delta : Int) (col col' : Column) : Prop :=
  XMoved delta col.b0 col'.b0 ∧ XMoved delta col.b1 col'.b1 ∧ XMoved delta col.b2 col'.b2

/-- A state with the given falling column, all else as after `initGameState`. -/
def columnState (col : Column) : GameState := { initGameState with columnBlocks := col }

/-- Three cells at offsets `(x, y - 100)`, `(x, y - 50)`, `(x, y)`, coloured `c0`, `c1`, `c2`. -/
def columnOf (x y : Int) (c0 c1 c2 : Color) : Column :=
  { b0 := { occupied := true, x := x, y := y - 100, color := c0 }
    b1 := { occupied := true, x := x, y := y - 50, color := c1 }
    b2 := { occupied := true, x := x, y := y, color := c2 } }

/-- A state in which column 3 holds one block, at row 5, with `occupiedSlots[3] = 4`, and
the falling column `col`; all else as after `initGameState`. -/
def besideState (col : Column) : GameState :=
  { initGameState with
    placedBlocks := gridOf [(3, 5, Color.orange)]
    occupiedSlots := fun j => if j = 3 then 4 else 14
    columnBlocks := col }

/-! ## The subscripts a walk of `clearAndScore` reads -/

/-- The subscripts `(cx, cy)` at which a directional walk of `clearAndScore` evaluates
`placedBlocks[cx][cy]`, in walk order: the walk of `matchWalk`, recording each position
that passes the walk's bounds test. -/
def walkReads (g : Grid) (color : Color) (inb : Int → Int → Bool) (dx dy : Int) :
    Nat → Int → Int → List (Int × Int)
  | 0, _, _ => []
  | fuel + 1, cx, cy =>
    if inb (cx + dx) (cy + dy) then
      (cx + dx, cy + dy) ::
        match readBlock g (cx + dx) (cy + dy) with
        | none => []
        | some t =>
          if t.occupied && decide (t.color = color) then
            walkReads g color inb dx dy fuel (cx + dx) (cy + dy)
          else []
    else []

/-- The subscripts read by the downward walk ("move to the bottom", bound
`vdGridY < GRID_HEIGHT`) for the origin `block`. -/
def downReads (g : Grid) (block : Block) : List (Int × Int) :=
  walkReads g block.color (fun _ cy => decide (cy < GRID_HEIGHT)) 0 1 walkFuel
    (block.x.tdiv BLOCK_WIDTH) (block.y.tdiv BLOCK_HEIGHT)

/-- The subscripts `(col, row)` of a cell of the grid: `0 <= col < 6`, `0 <= row < 14`. -/
def InGrid (p : Int × Int) : Prop :=
  0 ≤ p.1 ∧ p.1 < GRID_BLOCK_WIDTH ∧ 0 ≤ p.2 ∧ p.2 < GRID_BLOCK_HEIGHT

/-- A red horizontal run `(0,5)`, `(1,5)`, `(2,5)` sharing its end cell with a red vertical
run `(2,5)`, `(2,6)`, `(2,7)`; every cell grid-aligned. -/
def crossGrid : Grid :=
  gridOf [(0, 5, Color.red), (1, 5, Color.red), (2, 5, Color.red), (2, 6, Color.red),
    (2, 7, Color.red)]

/-! ## Landing: the row subscript, runs of fired down-ticks -/

/-- The row subscript `gridY` that the landing loop of `moveColumnDown` computes for the
falling cell `b` (from its aligned `y`) and uses in `placedBlocks[gridX][gridY]`. -/
def landGridY (b : Block) : Int := (b.y.tdiv BLOCK_HEIGHT * BLOCK_HEIGHT).tdiv BLOCK_HEIGHT

/-- Down-ticks at the given times when each call gets through the rate limiter: the part
of `moveColumnDown` behind the limiter, call after call, until the game is over. -/
def firedTicks (d : Draws) : List ℚ → GameState → Option GameState
  | [], s => some s
  | t :: ts, s =>
    if s.gameOver then some s else (moveColumnDownFired d t s).bind (firedTicks d ts)

/-- The call times 1.1, 1.2, ...: `n` calls a tenth of a second apart. -/
def tenths (n : Nat) : List ℚ := List.map (fun k : Nat => 11 / 10 + (k : ℚ) / 10) (List.range n)

/-- The program after `initGameState(); spawnColumn();` and the first call of
`moveColumnDown`, at time 1, which starts the rate limiter. -/
def startState (d : Draws) : GameState :=
  { spawnColumn d initGameState with lastColumnDownMove := 1 }

/-- The calls of the main loop that `startState` and `tenths` stand for: a down-tick at
time 1, then `n` down-ticks a tenth of a second apart, all with the draws `d`. -/
def downEvents (d : Draws) (n : Nat) : List Event :=
  Event.down d 1 :: (tenths n).map (Event.down d)

/-! ## Match detection on two grids -/

/-- The two grids agree at every index on occupancy and colour. -/
def SameCells (g1 g2 : Grid) : Prop :=
  ∀ c < 6, ∀ r < 14,
    (g1 c r).occupied = (g2 c r).occupied ∧ (g1 c r).color = (g2 c r).color

/-- Every occupied cell has pixel `x = 50 * col` and pixel `y = 50 * row + 25 * p` for some
`p <= n`: a block that has slid at most `n` half-steps out of its row. -/
def OffsetsUpTo (n : Nat) (g : Grid) : Prop :=
  ∀ c < 6, ∀ r < 14, (g c r).occupied = true →
    (g c r).x = 50 * (c : Int) ∧
      ∃ p : Nat, p ≤ n ∧ (g c r).y = 50 * (r : Int) + 25 * (p : Int)

/-- Either both operations have no result, or both have one and the results are related. -/
def OptRel {α : Type} (R : α → α → Prop) (o1 o2 : Option α) : Prop :=
  (o1 = none ∧ o2 = none) ∨ ∃ a b, o1 = some a ∧ o2 = some b ∧ R a b

/-- The removal-list entry `e` (pixel offsets) designates the cell `(c, r)`. -/
def EntryAt (e : Int × Int) (c r : Nat) : Prop :=
  0 ≤ e.1 ∧ 0 ≤ e.2 ∧ e.1.tdiv BLOCK_WIDTH = (c : Int) ∧ e.2.tdiv BLOCK_HEIGHT = (r : Int)

/-- Two removal-list entries designate the same cell of the grid. -/
def SameEntry (e1 e2 : Int × Int) : Prop :=
  ∃ c < 6, ∃ r < 14, EntryAt e1 c r ∧ EntryAt e2 c r

/-- The two grids agree on occupancy and colour, and in both every occupied cell has
slid at most one half-step, so that its pixel offsets designate its own index. -/
def PixelRel (g1 g2 : Grid) : Prop := SameCells g1 g2 ∧ OffsetsUpTo 1 g1 ∧ OffsetsUpTo 1 g2

/-- A red horizontal run `(0,5)`, `(1,5)`, `(2,5)`, every cell grid-aligned. -/
def rowGrid : Grid := gridOf [(0, 5, Color.red), (1, 5, Color.red), (2, 5, Color.red)]

/-- The grid `rowGrid` with the block of cell `(0,5)` at pixel `y`. -/
def slidGrid (y : Int) : Grid :=
  setCell rowGrid 0 5 { occupied := true, x := 0, y := y, color := Color.red }

/-! ## The last grid column -/

/-- The cell is in one of the grid columns 0 to `GRID_BLOCK_WIDTH - 2` = 4: its x-offset
is non-negative and left of the last column's, `GRID_WIDTH - BLOCK_WIDTH` = 250. -/
def LeftOfLast (b : Block) : Prop := 0 ≤ b.x ∧ b.x < GRID_WIDTH - BLOCK_WIDTH

/-- Every falling cell is in one of the grid columns 0 to 4. -/
def ColumnLeftOfLast (col : Column) : Prop :=
  LeftOfLast col.b0 ∧ LeftOfLast col.b1 ∧ LeftOfLast col.b2

/-! ## The blocks of a grid column -/

/-- The occupied cells of column `x` among the rows `y, ..., y + n - 1`, top to bottom,
each as its row and colour. -/
def blocksFrom (g : Grid) (x y n : Nat) : List (Nat × Color) :=
  (List.range' y n).filterMap fun r =>
    if (g x r).occupied then some (r, (g x r).color) else none

/-- The occupied cells of column `x`, top to bottom, each as its row and colour. -/
def columnBlocksOf (g : Grid) (x : Nat) : List (Nat × Color) := blocksFrom g x 0 14

/-- The block `b` after a pass is the block `a` before it: same colour, in the same row
or one row further down. -/
def Slid (a b : Nat × Color) : Prop := b.2 = a.2 ∧ (b.1 = a.1 ∨ b.1 = a.1 + 1)

/-! ## Lines of three, grids with cells cleared -/

/-- The cells `(c, r)`, `(c + dx, r + dy)`, `(c + 2 dx, r + 2 dy)` are cells of the grid,
occupied and of colour `col`: a straight line of 3 adjacent cells of one colour. -/
def Line3 (g : Grid) (col : Color) (c r dx dy : Int) : Prop :=
  sameColourAt g col c r = true ∧ sameColourAt g col (c + dx) (r + dy) = true ∧
    sameColourAt g col (c + dx + dx) (r + dy + dy) = true

/-- No straight line of 3 adjacent cells along any of the four axes (horizontal, vertical,
the two diagonals) consists of occupied cells of one colour. -/
def NoLine3 (g : Grid) : Prop :=
  ∀ (col : Color) (c r : Int),
    ¬ Line3 g col c r 1 0 ∧ ¬ Line3 g col c r 0 1 ∧ ¬ Line3 g col c r 1 1 ∧
      ¬ Line3 g col c r 1 (-1)

/-- The grid `g'` is `g` with some cells cleared: every cell occupied in `g'` is as in `g`. -/
def ClearedFrom (g g' : Grid) : Prop := ∀ c r, (g' c r).occupied = true → g' c r = g c r

/-- The scan of the origin `(x, y)` clears nothing: the cell is free, or its eight walks
have a result and each of the four removal lists, with its head, is shorter than
`BLOCKS_TO_MATCH`. -/
def Quiet (g : Grid) (x y : Nat) : Prop :=
  (g x y).occupied = true →
    ∃ w, originWalks g (g x y) = some w ∧
      ((-1, -1) :: w.1).length < BLOCKS_TO_MATCH ∧
      ((-1, -1) :: w.2.1).length < BLOCKS_TO_MATCH ∧
      ((-1, -1) :: w.2.2.1).length < BLOCKS_TO_MATCH ∧
      ((-1, -1) :: w.2.2.2).length < BLOCKS_TO_MATCH
/-! ## Theorems -/

theorem foldlM_fixed {α β : Type} (f : β → α → Option β) (b : β) (l : List α)
    (h : ∀ a ∈ l, f b a = some b) : l.foldlM f b = some b := by
  induction l with
  | nil => rfl
  | cons a l ih =>
    rw [List.foldlM_cons, h a (List.mem_cons_self a l)]
    exact ih (fun a' ha' => h a' (List.mem_cons_of_mem a ha'))

theorem moveColumnDown_fires (d : Draws) (t : ℚ) (s : GameState) (h : DownFires t s) :
    moveColumnDown d t s = moveColumnDownFired d t s := by
  obtain ⟨h1, h2, h3⟩ := h
  unfold moveColumnDown
  simp only [h1, Bool.false_eq_true, if_false, not_le.mpr h2]
  rw [if_neg (not_lt.mpr h3)]

theorem compactBlocks_fires (t : ℚ) (s : GameState) (h : CompactFires t s) :
    compactBlocks t s = compactBlocksFired t s := by
  obtain ⟨h1, h2, h3⟩ := h
  unfold compactBlocks
  simp only [h1, Bool.false_eq_true, if_false, not_le.mpr h2]
  rw [if_neg (not_lt.mpr h3)]

theorem stateOf_compactFires (g : Grid) : CompactFires 2 (stateOf g) := by
  refine ⟨rfl, ?_, ?_⟩
  · show (0 : ℚ) < 1
    norm_num
  · show blockCompactingInterval ≤ 2 - 1
    unfold blockCompactingInterval
    norm_num

theorem stateOf_downFires (g : Grid) : DownFires 2 (stateOf g) := by
  refine ⟨rfl, ?_, ?_⟩
  · show (0 : ℚ) < 1
    norm_num
  · show columnDownInterval ≤ 2 - 1
    unfold columnDownInterval
    norm_num

/-- C9. Game over is terminal: in a state with `gameOver` set, `moveColumnLeft`,
`moveColumnRight`, `shiftColumnColors`, `moveColumnDown` and `compactBlocks` (at any time,
with any random draws) return the state unchanged, and so does every sequence of such
calls; in particular `gameOver` stays set. -/
theorem gameOver_terminal (s : GameState) (h : s.gameOver = true) :
    moveColumnLeft s = some s ∧ moveColumnRight s = some s ∧ shiftColumnColors s = s ∧
      (∀ d t, moveColumnDown d t s = some s) ∧ (∀ t, compactBlocks t s = some s) ∧
      ∀ es, run es s = some s := by
  have hl : moveColumnLeft s = some s := by simp [moveColumnLeft, h]
  have hr : moveColumnRight s = some s := by simp [moveColumnRight, h]
  have hc : shiftColumnColors s = s := by simp [shiftColumnColors, h]
  have hd : ∀ d t, moveColumnDown d t s = some s := fun d t => by simp [moveColumnDown, h]
  have hp : ∀ t, compactBlocks t s = some s := fun t => by simp [compactBlocks, h]
  refine ⟨hl, hr, hc, hd, hp, ?_⟩
  intro es
  induction es with
  | nil => rfl
  | cons e es ih =>
    have he : step e s = some s := by
      cases e with
      | left => exact hl
      | right => exact hr
      | rotate => simp [step, hc]
      | down d t => exact hd d t
      | compact t => exact hp t
    simp [run, he, ih]

theorem gameOver_terminal_witness :
    ({ initGameState with gameOver := true } : GameState).gameOver = true ∧
      (moveColumnLeft { initGameState with gameOver := true } =
          some { initGameState with gameOver := true } ∧
        moveColumnRight { initGameState with gameOver := true } =
          some { initGameState with gameOver := true } ∧
        shiftColumnColors { initGameState with gameOver := true } =
          { initGameState with gameOver := true } ∧
        (∀ d t, moveColumnDown d t { initGameState with gameOver := true } =
          some { initGameState with gameOver := true }) ∧
        (∀ t, compactBlocks t { initGameState with gameOver := true } =
          some { initGameState with gameOver := true }) ∧
        ∀ es, run es { initGameState with gameOver := true } =
          some { initGameState with gameOver := true }) :=
  ⟨rfl, gameOver_terminal { initGameState with gameOver := true } rfl⟩

theorem compactCell_atRest (g : Grid) (h : AtRest g) (x y : Nat) (hx : x < 6) (hy : y < 14) :
    compactCell g x y = some g := by
  unfold compactCell
  by_cases ho : (g x y).occupied = true
  · rcases h x hx y hy ho with h13 | hb
    · subst h13
      simp [ho]
    · simp [ho, hb]
  · simp [ho]

theorem compactGrid_atRest (g : Grid) (h : AtRest g) : compactGrid g = some g := by
  unfold compactGrid
  apply foldlM_fixed
  intro x hx
  unfold compactColumn
  apply foldlM_fixed
  intro y hy
  exact compactCell_atRest g h x y (List.mem_range.mp hx) (List.mem_range.mp hy)

/-- C7. Compaction is the identity at rest: on a grid in which every occupied cell is in
row 13 or has an occupied cell directly below it, `compactBlocks` (whether or not its rate
limiter lets it through) returns a state whose placed-block grid is the same, cell for
cell (occupancy, colour and pixel position). -/
theorem compactBlocks_atRest (t : ℚ) (s : GameState) (h : AtRest s.placedBlocks) :
    ∃ s', compactBlocks t s = some s' ∧ s'.placedBlocks = s.placedBlocks := by
  have hg : compactGrid s.placedBlocks = some s.placedBlocks := compactGrid_atRest _ h
  unfold compactBlocks
  by_cases hgo : s.gameOver = true
  · exact ⟨s, by simp [hgo], rfl⟩
  · simp only [hgo, if_false]
    split_ifs
    all_goals first | exact ⟨_, rfl, rfl⟩ | simp [compactBlocksFired, hg]

theorem atRest_example : AtRest (gridOf [(0, 12, Color.red), (0, 13, Color.green)]) := by
  unfold AtRest
  decide

theorem compactBlocks_atRest_witness :
    AtRest (stateOf (gridOf [(0, 12, Color.red), (0, 13, Color.green)])).placedBlocks ∧
      ∃ s', compactBlocks 2 (stateOf (gridOf [(0, 12, Color.red), (0, 13, Color.green)])) =
          some s' ∧
        s'.placedBlocks = (stateOf (gridOf [(0, 12, Color.red), (0, 13, Color.green)])).placedBlocks :=
  ⟨atRest_example, compactBlocks_atRest 2 _ atRest_example⟩

theorem firstOccupied_eq (g : Grid) (c r : Nat) (hr : r < 14)
    (ho : (g c r).occupied = true) (hmin : ∀ j < r, (g c j).occupied = false) :
    firstOccupied g c = some r := by
  unfold firstOccupied
  rw [List.find?_range_eq_some]
  refine ⟨ho, List.mem_range.mpr hr, ?_⟩
  intro j hj
  simp [hmin j hj]

theorem resetSlots_eq (g : Grid) (slots : Nat → Int) (c r : Nat) (hc : c < 6) (hr : r < 14)
    (ho : (g c r).occupied = true) (hmin : ∀ j < r, (g c j).occupied = false) :
    resetSlots g slots c = (r : Int) - 1 := by
  unfold resetSlots
  rw [if_pos hc, firstOccupied_eq g c r hr ho hmin]

/-- C6 (as the code has it). After a compaction pass that fires, for every column `c` that
has an occupied cell, `occupiedSlots[c]` equals the smallest row index of an occupied cell
of column `c` minus 1 (the lowest free row above the stack), whatever value it held before
the pass. -/
theorem compactBlocks_resets_slots (t : ℚ) (s s' : GameState) (hf : CompactFires t s)
    (hs : compactBlocks t s = some s') (c r : Nat) (hc : c < 6) (hr : r < 14)
    (ho : (s'.placedBlocks c r).occupied = true)
    (hmin : ∀ j < r, (s'.placedBlocks c j).occupied = false) :
    s'.occupiedSlots c = (r : Int) - 1 := by
  rw [compactBlocks_fires t s hf] at hs
  unfold compactBlocksFired at hs
  rw [Option.map_eq_some'] at hs
  obtain ⟨g, _, hg⟩ := hs
  subst hg
  exact resetSlots_eq g s.occupiedSlots c r hc hr ho hmin

theorem atRest_single : AtRest (gridOf [(0, 13, Color.red)]) := by
  unfold AtRest
  decide

theorem compactBlocks_single :
    compactBlocks 2 (stateOf (gridOf [(0, 13, Color.red)])) =
      some { stateOf (gridOf [(0, 13, Color.red)]) with
        lastCompactBlocksMove := 2
        occupiedSlots := resetSlots (gridOf [(0, 13, Color.red)]) (fun _ => GRID_BLOCK_HEIGHT) } := by
  rw [compactBlocks_fires _ _ (stateOf_compactFires _)]
  unfold compactBlocksFired
  have hg : compactGrid (stateOf (gridOf [(0, 13, Color.red)])).placedBlocks =
      some (gridOf [(0, 13, Color.red)]) := compactGrid_atRest _ atRest_single
  rw [hg]
  rfl

theorem compactBlocks_resets_slots_witness :
    CompactFires 2 (stateOf (gridOf [(0, 13, Color.red)])) ∧
      ∃ s', compactBlocks 2 (stateOf (gridOf [(0, 13, Color.red)])) = some s' ∧
        (s'.placedBlocks 0 13).occupied = true ∧ s'.occupiedSlots 0 = ((13 : Nat) : Int) - 1 :=
  ⟨stateOf_compactFires _, _, compactBlocks_single, by decide,
    compactBlocks_resets_slots 2 (stateOf (gridOf [(0, 13, Color.red)])) _
      (stateOf_compactFires _) compactBlocks_single 0 13 (by decide) (by decide) (by decide)
      (by decide)⟩

/-- C6 as stated fails: after a fired pass over the grid whose only block rests at
`(0, 13)`, the smallest occupied row of column 0 is 13 but `occupiedSlots[0]` is 12. -/
theorem compactBlocks_slot_counterexample :
    ∃ s', CompactFires 2 (stateOf (gridOf [(0, 13, Color.red)])) ∧
      compactBlocks 2 (stateOf (gridOf [(0, 13, Color.red)])) = some s' ∧
      (s'.placedBlocks 0 13).occupied = true ∧
      (∀ j < 13, (s'.placedBlocks 0 j).occupied = false) ∧
      ¬ s'.occupiedSlots 0 = 13 :=
  ⟨_, stateOf_compactFires _, compactBlocks_single, by decide, by decide, by decide⟩

theorem exists_of_optCheck {α : Type} (o : Option α) (p : α → Prop) [DecidablePred p]
    (h : optCheck o (fun a => decide (p a)) = true) : ∃ a, o = some a ∧ p a := by
  cases o with
  | none => simp [optCheck] at h
  | some a => exact ⟨a, rfl, by simpa [optCheck] using h⟩

/-- C1 at its failing input: with red cells at `(5,11)`, `(5,12)`, `(5,13)` only, the
downward walk from the origin `(5,11)` passes rows 12 and 13 and, its bound being
`GRID_HEIGHT`, goes on to `placedBlocks[5][14]`, which is outside the array: the scan has
no defined result. -/
theorem clearAndScore_vertical_run_last_column :
    matchWalk (gridOf [(5, 11, Color.red), (5, 12, Color.red), (5, 13, Color.red)]) Color.red
        (fun _ cy => decide (cy < GRID_HEIGHT)) 0 1 walkFuel 5 11 = none ∧
      inObject 5 14 = false ∧
      clearAndScore (gridOf [(5, 11, Color.red), (5, 12, Color.red), (5, 13, Color.red)]) =
        none := by
  refine ⟨by decide, by decide, Option.isNone_iff_eq_none.mp (by decide)⟩

theorem aligned_gridOf_corner :
    Aligned (gridOf [(0, 12, Color.red), (0, 13, Color.red), (1, 0, Color.red)]) := by
  unfold Aligned
  decide

/-- C2 at its failing input: in the grid-aligned grid with red cells at `(0,12)`, `(0,13)`
and `(1,0)` no cell lies on a straight run of 3 (the vertical run has exactly 2 cells), yet
the downward walk from `(0,12)` runs past row 13 into `placedBlocks[0][14]`, which is the
cell `(1,0)`, counts three, and all three cells are cleared. -/
theorem clearAndScore_clears_run_of_two :
    Aligned (gridOf [(0, 12, Color.red), (0, 13, Color.red), (1, 0, Color.red)]) ∧
      onRunOf3 (gridOf [(0, 12, Color.red), (0, 13, Color.red), (1, 0, Color.red)]) 0 12 = false ∧
      onRunOf3 (gridOf [(0, 12, Color.red), (0, 13, Color.red), (1, 0, Color.red)]) 0 13 = false ∧
      onRunOf3 (gridOf [(0, 12, Color.red), (0, 13, Color.red), (1, 0, Color.red)]) 1 0 = false ∧
      flatIndex 0 14 = flatIndex 1 0 ∧
      ∃ g', clearAndScore (gridOf [(0, 12, Color.red), (0, 13, Color.red), (1, 0, Color.red)]) =
          some g' ∧
        ((g' 0 12).occupied = false ∧ (g' 0 13).occupied = false ∧
          (g' 1 0).occupied = false) := by
  refine ⟨aligned_gridOf_corner, by decide, by decide, by decide, by decide, ?_⟩
  apply exists_of_optCheck
  decide

theorem downTicks_append (d : Draws) (l1 l2 : List ℚ) (s : GameState) :
    downTicks d (l1 ++ l2) s = (downTicks d l1 s).bind (downTicks d l2) := by
  induction l1 generalizing s with
  | nil => rfl
  | cons t l1 ih =>
    simp only [List.cons_append, downTicks]
    cases moveColumnDown d t s with
    | none => rfl
    | some s1 => exact ih s1

theorem columnDownInterval_pos : 0 < columnDownInterval := by
  unfold columnDownInterval
  norm_num

theorem moveColumnDown_first (d : Draws) (t : ℚ) (s : GameState) (hg : s.gameOver = false)
    (h0 : s.lastColumnDownMove ≤ 0) :
    moveColumnDown d t s = some { s with lastColumnDownMove := t } := by
  unfold moveColumnDown
  simp only [hg, Bool.false_eq_true, if_false, h0, if_true, sub_self, columnDownInterval_pos]

theorem fall_step (d : Draws) (c0 c1 c2 : Color) (j : Nat) (hj : j < 26) (last t : ℚ)
    (h0 : 0 < last) (ht : columnDownInterval ≤ t - last) :
    moveColumnDown d t (fallState c0 c1 c2 j last) = some (fallState c0 c1 c2 (j + 1) t) := by
  rw [moveColumnDown_fires d t _ ⟨rfl, h0, ht⟩]
  interval_cases j <;> rfl

theorem fall_run (d : Draws) (c0 c1 c2 : Color) (n : Nat) :
    ∀ (j : Nat) (last : ℚ) (ts : List ℚ), 0 < last → Permitted last ts → j + n ≤ 26 →
      n ≤ ts.length →
      ∃ last', 0 < last' ∧ Permitted last' (ts.drop n) ∧
        downTicks d (ts.take n) (fallState c0 c1 c2 j last) =
          some (fallState c0 c1 c2 (j + n) last') := by
  induction n with
  | zero => intro j last ts h0 hp _ _; exact ⟨last, h0, hp, rfl⟩
  | succ n ih =>
    intro j last ts h0 hp hj hn
    cases ts with
    | nil => simp at hn
    | cons t ts =>
      obtain ⟨hp1, hp2⟩ := hp
      have ht0 : 0 < t := by linarith [columnDownInterval_pos]
      obtain ⟨last', hl, hp', hrun⟩ := ih (j + 1) t ts ht0 hp2 (by omega) (by simpa using hn)
      refine ⟨last', hl, hp', ?_⟩
      simp only [List.take_succ_cons, downTicks, fall_step d c0 c1 c2 j (by omega) last t h0 hp1,
        Option.some_bind]
      rw [hrun]
      congr 2
      omega

theorem landing_eval_red :
    ∃ r, landColumn 2 13 initGameState.placedBlocks initGameState.occupiedSlots
        (fallingColumn Color.red Color.red Color.red 26) = some r ∧
      ∃ g, clearAndScore r.1 = some g ∧
        ((∀ c < 6, ∀ r < 14, (g c r).occupied = false) ∧
          g 2 11 = { occupied := false, x := 100, y := 550, color := Color.black } ∧
          g 2 12 = { occupied := false, x := 100, y := 600, color := Color.black } ∧
          g 2 13 = { occupied := false, x := 100, y := 650, color := Color.black } ∧
          r.2.1 2 = 10 ∧
          (r.1 2 11).occupied = true ∧ (r.1 2 12).occupied = true ∧ (r.1 2 13).occupied = true) := by
  have h := exists_of_optCheck
    (landColumn 2 13 initGameState.placedBlocks initGameState.occupiedSlots
        (fallingColumn Color.red Color.red Color.red 26))
    (fun (r : Grid × (Nat → Int) × Column) => optCheck (clearAndScore r.1)
      (fun g => decide ((∀ c < (6 : Nat), ∀ r < (14 : Nat), (g c r).occupied = false) ∧
          g 2 11 = { occupied := false, x := 100, y := 550, color := Color.black } ∧
          g 2 12 = { occupied := false, x := 100, y := 600, color := Color.black } ∧
          g 2 13 = { occupied := false, x := 100, y := 650, color := Color.black } ∧
          r.2.1 2 = 10 ∧
          (r.1 2 11).occupied = true ∧ (r.1 2 12).occupied = true ∧ (r.1 2 13).occupied = true))
      = true) (by decide)
  obtain ⟨r, hr, hp⟩ := h
  exact ⟨r, hr, exists_of_optCheck _ _ hp⟩

theorem landing_step_red (d : Draws) (last t : ℚ) (h0 : 0 < last)
    (ht : columnDownInterval ≤ t - last) :
    ∃ s', moveColumnDown d t (fallState Color.red Color.red Color.red 26 last) = some s' ∧
      (∀ c < 6, ∀ r < 14, (s'.placedBlocks c r).occupied = false) ∧
      s'.placedBlocks 2 11 = { occupied := false, x := 100, y := 550, color := Color.black } ∧
      s'.placedBlocks 2 12 = { occupied := false, x := 100, y := 600, color := Color.black } ∧
      s'.placedBlocks 2 13 = { occupied := false, x := 100, y := 650, color := Color.black } ∧
      s'.occupiedSlots 2 = 10 ∧ s'.gameOver = false ∧
      s'.columnBlocks = (spawnColumn d initGameState).columnBlocks := by
  rw [moveColumnDown_fires d t _ ⟨rfl, h0, ht⟩]
  obtain ⟨r, hr, g, hg, h1, h2, h3, h4, h5, _⟩ := landing_eval_red
  have e1 : readSlot (fallState Color.red Color.red Color.red 26 last).occupiedSlots
      (downGridX (fallState Color.red Color.red Color.red 26 last)) = some 14 := rfl
  have e2 : landingTest (fallState Color.red Color.red Color.red 26 last) 14 = true := rfl
  have e3 : landColumn (downGridX (fallState Color.red Color.red Color.red 26 last))
      (downNextGridY (fallState Color.red Color.red Color.red 26 last))
      (fallState Color.red Color.red Color.red 26 last).placedBlocks
      (fallState Color.red Color.red Color.red 26 last).occupiedSlots
      (fallState Color.red Color.red Color.red 26 last).columnBlocks = some r := hr
  have e4 : ¬ (downNextGridY (fallState Color.red Color.red Color.red 26 last)
      - BLOCK_COLUMN_LENGTH ≤ 0) := by
    show ¬ ((13 : Int) - 3 ≤ 0)
    decide
  unfold moveColumnDownFired
  simp only [e1, Option.some_bind, e2, if_true, e3, hg, Option.map_some', e4, if_false]
  exact ⟨_, rfl, h1, h2, h3, h4, h5, rfl, rfl⟩

theorem permitted_tenths (n : Nat) :
    ∀ (last : ℚ) (k : Nat), last + 1 / 10 ≤ 11 / 10 + (k : ℚ) / 10 →
      Permitted last (List.map (fun k : Nat => 11 / 10 + (k : ℚ) / 10) (List.range' k n)) := by
  induction n with
  | zero => intro last k _; exact True.intro
  | succ n ih =>
    intro last k h
    refine ⟨by unfold columnDownInterval; linarith, ih _ _ ?_⟩
    push_cast
    linarith

theorem red_column_run (d : Draws) (t0 : ℚ) (ts : List ℚ) (h0 : 0 < t0)
    (hp : Permitted t0 ts) (hlen : ts.length = 27) :
    (∃ last, downTicks d (t0 :: ts.take 26) startC4 =
        some (fallState Color.red Color.red Color.red 26 last)) ∧
      ∃ s', downTicks d (t0 :: ts) startC4 = some s' ∧
        (∀ c < 6, ∀ r < 14, (s'.placedBlocks c r).occupied = false) ∧
        s'.placedBlocks 2 11 = { occupied := false, x := 100, y := 550, color := Color.black } ∧
        s'.placedBlocks 2 12 = { occupied := false, x := 100, y := 600, color := Color.black } ∧
        s'.placedBlocks 2 13 = { occupied := false, x := 100, y := 650, color := Color.black } ∧
        s'.occupiedSlots 2 = 10 ∧ s'.gameOver = false ∧
        s'.columnBlocks = (spawnColumn d initGameState).columnBlocks := by
  have hfirst : moveColumnDown d t0 startC4 =
      some (fallState Color.red Color.red Color.red 0 t0) :=
    moveColumnDown_first d t0 startC4 rfl (le_refl _)
  obtain ⟨last, hl, hp', hrun⟩ :=
    fall_run d Color.red Color.red Color.red 26 0 t0 ts h0 hp (by omega) (by omega)
  have hrun' : downTicks d (t0 :: ts.take 26) startC4 =
      some (fallState Color.red Color.red Color.red 26 last) := by
    simp only [downTicks, hfirst, Option.some_bind, hrun]
  refine ⟨⟨last, hrun'⟩, ?_⟩
  have hsplit : t0 :: ts = (t0 :: ts.take 26) ++ ts.drop 26 := by
    simp [List.take_append_drop]
  obtain ⟨t, hdrop⟩ : ∃ t, ts.drop 26 = [t] := by
    have hl1 : (ts.drop 26).length = 1 := by simp [hlen]
    match hd : ts.drop 26, hl1 with
    | [t], _ => exact ⟨t, rfl⟩
  rw [hdrop] at hp'
  obtain ⟨s', hs', hprops⟩ := landing_step_red d last t hl hp'.1
  refine ⟨s', ?_, hprops⟩
  rw [hsplit, downTicks_append, hrun', hdrop]
  simp only [Option.some_bind, downTicks, hs']

/-- C4 (as the code has it). From the state after `initGameState` with the falling column
in grid column 2 (`x = 100`), offsets `(-100, -50, 0)`, all three cells red: after the call
that starts the rate limiter, the first 26 permitted down-ticks only lower the column (to
offsets 550, 600, 650); the 27th lands it on rows 11, 12, 13 of column 2, and the match
step of that same tick clears the three red cells as a vertical run.  Afterwards no cell of
the grid is occupied, cells `(2,11)`, `(2,12)`, `(2,13)` hold colour black,
`occupiedSlots[2]` is 10 (= 13 - 3), the game is not over and a new column is spawned. -/
theorem end_to_end_red_column (d : Draws) (t0 : ℚ) (ts : List ℚ) (h0 : 0 < t0)
    (hp : Permitted t0 ts) (hlen : ts.length = 27) :
    (∃ last, downTicks d (t0 :: ts.take 26) startC4 =
        some (fallState Color.red Color.red Color.red 26 last)) ∧
      ∃ s', downTicks d (t0 :: ts) startC4 = some s' ∧
        (∀ c < 6, ∀ r < 14, (s'.placedBlocks c r).occupied = false) ∧
        s'.placedBlocks 2 11 = { occupied := false, x := 100, y := 550, color := Color.black } ∧
        s'.placedBlocks 2 12 = { occupied := false, x := 100, y := 600, color := Color.black } ∧
        s'.placedBlocks 2 13 = { occupied := false, x := 100, y := 650, color := Color.black } ∧
        s'.occupiedSlots 2 = 10 ∧ s'.gameOver = false ∧
        s'.columnBlocks = (spawnColumn d initGameState).columnBlocks :=
  red_column_run d t0 ts h0 hp hlen

theorem tenths_permitted : Permitted 1 tenthsTail := by
  have h := permitted_tenths 27 1 0 (by norm_num)
  rwa [← List.range_eq_range'] at h

theorem tenthsTail_length : tenthsTail.length = 27 := by
  unfold tenthsTail
  rw [List.length_map, List.length_range]

theorem end_to_end_red_column_witness :
    ∃ s', downTicks ⟨0, 0, 0, 0⟩ tenthsSchedule startC4 = some s' ∧
      (∀ c < 6, ∀ r < 14, (s'.placedBlocks c r).occupied = false) ∧ s'.occupiedSlots 2 = 10 := by
  obtain ⟨_, s', hs', h1, _, _, _, h5, _⟩ :=
    end_to_end_red_column ⟨0, 0, 0, 0⟩ 1 tenthsTail (by norm_num) tenths_permitted
      tenthsTail_length
  exact ⟨s', hs', h1, h5⟩

/-- C4 as stated fails: along the call times 1.0, 1.1, ..., 3.7 (27 permitted down-ticks,
the last one landing) the final grid does not hold red blocks at `(2,11)`, `(2,12)`,
`(2,13)` together with `occupiedSlots[2] = 11`: the cells are unoccupied and the slot is 10. -/
theorem end_to_end_counterexample :
    ∃ s', downTicks ⟨0, 0, 0, 0⟩ tenthsSchedule startC4 = some s' ∧
      ¬ ((s'.placedBlocks 2 11).occupied = true ∧ (s'.placedBlocks 2 11).color = Color.red ∧
          (s'.placedBlocks 2 12).occupied = true ∧ (s'.placedBlocks 2 12).color = Color.red ∧
          (s'.placedBlocks 2 13).occupied = true ∧ (s'.placedBlocks 2 13).color = Color.red ∧
          s'.occupiedSlots 2 = 11) := by
  obtain ⟨_, s', hs', h1, _, _, _, h5, _⟩ :=
    red_column_run ⟨0, 0, 0, 0⟩ 1 tenthsTail (by norm_num) tenths_permitted tenthsTail_length
  refine ⟨s', hs', ?_⟩
  rintro ⟨ho, _⟩
  rw [h1 2 (by decide) 11 (by decide)] at ho
  exact Bool.false_ne_true ho

/-! ### Landing -/

theorem inObject_of_lt (c r : Nat) (hc : c < 6) (hr : r < 14) :
    inObject (c : Int) (r : Int) = true := by
  simp only [inObject, flatIndex, Bool.and_eq_true, decide_eq_true_eq, GRID_BLOCK_HEIGHT,
    GRID_BLOCK_WIDTH]
  constructor <;> omega

theorem cellCol_of_lt (c r : Nat) (hr : r < 14) : cellCol (c : Int) (r : Int) = c := by
  simp only [cellCol, flatIndex, GRID_BLOCK_HEIGHT]
  omega

theorem cellRow_of_lt (c r : Nat) (hr : r < 14) : cellRow (c : Int) (r : Int) = r := by
  simp only [cellRow, flatIndex, GRID_BLOCK_HEIGHT]
  omega

theorem writeBlock_of_lt (g : Grid) (c r : Nat) (hc : c < 6) (hr : r < 14) (b : Block) :
    writeBlock g (c : Int) (r : Int) b = some (setCell g c r b) := by
  simp only [writeBlock, modifyBlock, inObject_of_lt c r hc hr, if_true, cellCol_of_lt c r hr,
    cellRow_of_lt c r hr]

theorem readSlot_of_lt (slots : Nat → Int) (c : Nat) (hc : c < 6) :
    readSlot slots (c : Int) = some (slots c) := by
  simp only [readSlot, GRID_BLOCK_WIDTH]
  rw [if_pos (by constructor <;> omega)]
  simp

theorem writeSlot_of_lt (slots : Nat → Int) (c : Nat) (hc : c < 6) (v : Int) :
    writeSlot slots (c : Int) v = some (fun j => if j = c then v else slots j) := by
  simp only [writeSlot, GRID_BLOCK_WIDTH]
  rw [if_pos (by constructor <;> omega)]
  simp

theorem landBlock_of_lt (g : Grid) (slots : Nat → Int) (b : Block) (c r : Nat) (n : Int)
    (hc : c < 6) (hr : r < 14) (hb : b.y.tdiv 50 = (r : Int)) :
    landBlock (c : Int) n g slots b =
      some (setCell g c r (landedBlock b), (fun j => if j = c then n - 3 else slots j),
        alignBlock b) := by
  have h1 : (b.y.tdiv BLOCK_HEIGHT * BLOCK_HEIGHT).tdiv BLOCK_HEIGHT = (r : Int) := by
    rw [Int.mul_tdiv_cancel _ (by decide)]
    exact hb
  simp only [landBlock, h1, writeBlock_of_lt g c r hc hr, Option.some_bind,
    writeSlot_of_lt slots c hc, Option.map_some', landedBlock, alignBlock]

theorem columnAt_rows (s : GameState) (c k : Nat) (h : ColumnAt s c k) :
    downGridX s = (c : Int) ∧ downNextGridY s = (k : Int) ∧
      s.columnBlocks.b2.y.tdiv 50 = (k : Int) ∧
      s.columnBlocks.b1.y.tdiv 50 = ((k - 1 : Nat) : Int) ∧
      s.columnBlocks.b0.y.tdiv 50 = ((k - 2 : Nat) : Int) := by
  obtain ⟨hc, hk2, hk13, hx, hy, hy1, hy0⟩ := h
  have e2 : 0 ≤ s.columnBlocks.b2.y := by omega
  have e1 : 0 ≤ s.columnBlocks.b1.y := by omega
  have e0 : 0 ≤ s.columnBlocks.b0.y := by omega
  refine ⟨?_, ?_, ?_, ?_, ?_⟩
  · simp only [downGridX, hx]
    rw [Int.mul_comm, Int.mul_tdiv_cancel _ (by decide)]
  · simp only [downNextGridY, ceilDiv, BLOCK_HEIGHT]
    omega
  · rw [Int.tdiv_eq_ediv e2 (by decide)]
    omega
  · rw [Int.tdiv_eq_ediv e1 (by decide)]
    omega
  · rw [Int.tdiv_eq_ediv e0 (by decide)]
    omega

theorem landColumn_columnAt (s : GameState) (c k : Nat) (h : ColumnAt s c k) :
    landColumn (downGridX s) (downNextGridY s) s.placedBlocks s.occupiedSlots s.columnBlocks =
      some (landedGrid s.placedBlocks s.columnBlocks c k,
        (fun j => if j = c then (k : Int) - 3 else s.occupiedSlots j),
        { b0 := alignBlock s.columnBlocks.b0, b1 := alignBlock s.columnBlocks.b1,
          b2 := alignBlock s.columnBlocks.b2 }) := by
  obtain ⟨hx, hn, h2, h1, h0⟩ := columnAt_rows s c k h
  obtain ⟨hc, hk2, hk13, _⟩ := h
  rw [hx, hn]
  simp only [landColumn, landBlock_of_lt _ _ _ c (k - 2) _ hc (by omega) h0, Option.some_bind,
    landBlock_of_lt _ _ _ c (k - 1) _ hc (by omega) h1,
    landBlock_of_lt _ _ _ c k _ hc (by omega) h2, Option.map_some', landedGrid]
  congr 3
  funext j
  by_cases hj : j = c <;> simp [hj]

/-! ### `clearAndScore` only clears -/

theorem foldlM_rel {α β : Type} (R : β → β → Prop) (hrefl : ∀ b, R b b)
    (htrans : ∀ a b c, R a b → R b c → R a c) (f : β → α → Option β)
    (hf : ∀ b a b', f b a = some b' → R b b') (l : List α) :
    ∀ b b', l.foldlM f b = some b' → R b b' := by
  induction l with
  | nil =>
    intro b b' h
    simp only [List.foldlM, pure, Option.some.injEq] at h
    subst h
    exact hrefl b
  | cons a l ih =>
    intro b b' h
    rw [List.foldlM_cons] at h
    cases hfa : f b a with
    | none => rw [hfa] at h; simp at h
    | some b1 =>
      rw [hfa] at h
      exact htrans _ _ _ (hf b a b1 hfa) (ih b1 b' h)

theorem modifyBlock_clear_sub (g g' : Grid) (gx gy : Int)
    (h : modifyBlock g gx gy (fun b => { b with occupied := false, color := Color.black }) =
      some g') :
    ∀ c r, (g' c r).occupied = true → (g c r).occupied = true := by
  unfold modifyBlock at h
  split at h
  · simp only [Option.some.injEq] at h
    subst h
    intro c r hcr
    unfold setCell at hcr
    split at hcr
    · simp at hcr
    · exact hcr
  · simp at h

theorem clearEntry_sub (g g' : Grid) (e : Int × Int) (h : clearEntry g e = some g') :
    ∀ c r, (g' c r).occupied = true → (g c r).occupied = true := by
  unfold clearEntry at h
  split at h
  · exact modifyBlock_clear_sub g g' _ _ h
  · simp only [Option.some.injEq] at h
    subst h
    exact fun _ _ hh => hh

theorem clearEntries_sub (es : List (Int × Int)) :
    ∀ (g g' : Grid), clearEntries g es = some g' →
      ∀ c r, (g' c r).occupied = true → (g c r).occupied = true := by
  induction es with
  | nil =>
    intro g g' h
    simp only [clearEntries, Option.some.injEq] at h
    subst h
    exact fun _ _ hh => hh
  | cons e es ih =>
    intro g g' h c r hcr
    simp only [clearEntries, Option.bind_eq_some] at h
    obtain ⟨g1, h1, h2⟩ := h
    exact clearEntry_sub g g1 e h1 c r (ih g1 g' h2 c r hcr)

theorem clearLine_sub (g g' : Grid) (block : Block) (found : List (Int × Int))
    (h : clearLine g block found = some g') :
    ∀ c r, (g' c r).occupied = true → (g c r).occupied = true := by
  unfold clearLine at h
  split at h
  · exact clearEntries_sub _ g g' h
  · simp only [Option.some.injEq] at h
    subst h
    exact fun _ _ hh => hh

theorem scanOrigin_sub (g g' : Grid) (x y : Nat) (h : scanOrigin g x y = some g') :
    ∀ c r, (g' c r).occupied = true → (g c r).occupied = true := by
  unfold scanOrigin at h
  split at h
  · simp only [Option.some.injEq] at h
    subst h
    exact fun _ _ hh => hh
  · rw [Option.bind_eq_some] at h
    obtain ⟨w, _, hw⟩ := h
    simp only [clearLines, Option.bind_eq_some] at hw
    obtain ⟨g1, h1, g2, h2, g3, h3, h4⟩ := hw
    intro c r hcr
    exact clearLine_sub _ _ _ _ h1 c r (clearLine_sub _ _ _ _ h2 c r
      (clearLine_sub _ _ _ _ h3 c r (clearLine_sub _ _ _ _ h4 c r hcr)))

theorem clearAndScore_sub (g g' : Grid) (h : clearAndScore g = some g') :
    ∀ c r, (g' c r).occupied = true → (g c r).occupied = true := by
  have hcol : ∀ (g1 : Grid) (x : Nat) (g2 : Grid), scanColumn g1 x = some g2 →
      ∀ c r, (g2 c r).occupied = true → (g1 c r).occupied = true := by
    intro g1 x g2 h12
    exact foldlM_rel (fun (a b : Grid) => ∀ c r, (b c r).occupied = true → (a c r).occupied = true)
      (fun _ _ _ hh => hh) (fun _ _ _ hab hbc c r hh => hab c r (hbc c r hh))
      (fun g' y => scanOrigin g' x y) (fun b a b' hb => scanOrigin_sub b b' x a hb)
      (List.range 14) g1 g2 h12
  exact foldlM_rel (fun (a b : Grid) => ∀ c r, (b c r).occupied = true → (a c r).occupied = true)
    (fun _ _ _ hh => hh) (fun _ _ _ hab hbc c r hh => hab c r (hbc c r hh))
    scanColumn hcol (List.range 6) g g' h

/-! ### The landing tick -/

theorem landBlock_aligned (gx n : Int) (g : Grid) (slots : Nat → Int) (b : Block)
    (r : Grid × (Nat → Int) × Block) (h : landBlock gx n g slots b = some r) :
    r.2.2 = alignBlock b := by
  simp only [landBlock, Option.bind_eq_some, Option.map_eq_some'] at h
  obtain ⟨_, _, _, _, h3⟩ := h
  rw [← h3]
  rfl

theorem landColumn_aligned (gx n : Int) (g : Grid) (slots : Nat → Int) (col : Column)
    (r : Grid × (Nat → Int) × Column) (h : landColumn gx n g slots col = some r) :
    r.2.2 = { b0 := alignBlock col.b0, b1 := alignBlock col.b1, b2 := alignBlock col.b2 } := by
  simp only [landColumn, Option.bind_eq_some, Option.map_eq_some'] at h
  obtain ⟨r0, h0, r1, h1, r2, h2, h3⟩ := h
  rw [← h3, landBlock_aligned _ _ _ _ _ _ h0, landBlock_aligned _ _ _ _ _ _ h1,
    landBlock_aligned _ _ _ _ _ _ h2]

theorem landBlock_slots (gx n : Int) (g : Grid) (slots : Nat → Int) (b : Block)
    (r : Grid × (Nat → Int) × Block) (h : landBlock gx n g slots b = some r) :
    writeSlot slots gx (n - BLOCK_COLUMN_LENGTH) = some r.2.1 := by
  simp only [landBlock, Option.bind_eq_some, Option.map_eq_some'] at h
  obtain ⟨_, _, sl, h2, h3⟩ := h
  rw [← h3]
  exact h2

theorem moveColumnDown_landing (d : Draws) (t : ℚ) (s s' : GameState) (slot : Int)
    (hf : DownFires t s) (hslot : readSlot s.occupiedSlots (downGridX s) = some slot)
    (hl : landingTest s slot = true) (hs : moveColumnDown d t s = some s') :
    ∃ r g, landColumn (downGridX s) (downNextGridY s) s.placedBlocks s.occupiedSlots
          s.columnBlocks = some r ∧
      clearAndScore r.1 = some g ∧ s'.placedBlocks = g ∧ s'.occupiedSlots = r.2.1 ∧
      (downNextGridY s - BLOCK_COLUMN_LENGTH ≤ 0 → s'.gameOver = true ∧ s'.columnBlocks = r.2.2) ∧
      (¬ downNextGridY s - BLOCK_COLUMN_LENGTH ≤ 0 →
        s'.gameOver = false ∧ s'.columnBlocks = (spawnColumn d s).columnBlocks) := by
  rw [moveColumnDown_fires d t s hf] at hs
  unfold moveColumnDownFired at hs
  simp only [hslot, Option.some_bind, hl, if_true, Option.bind_eq_some,
    Option.map_eq_some'] at hs
  obtain ⟨r, hr, g, hg, hs'⟩ := hs
  refine ⟨r, g, hr, hg, ?_⟩
  by_cases hk : downNextGridY s - BLOCK_COLUMN_LENGTH ≤ 0
  · rw [if_pos hk] at hs'
    subst hs'
    exact ⟨rfl, rfl, fun _ => ⟨rfl, rfl⟩, fun h => absurd hk h⟩
  · rw [if_neg hk] at hs'
    subst hs'
    exact ⟨rfl, rfl, fun h => absurd h hk, fun _ => ⟨hf.1, rfl⟩⟩

theorem downNextGridY_of_row (s : GameState) (k : Nat)
    (hy : s.columnBlocks.b2.y = 50 * (k : Int) ∨ s.columnBlocks.b2.y = 50 * (k : Int) + 25) :
    downNextGridY s = (k : Int) ∧ (alignBlock s.columnBlocks.b2).y.tdiv 50 = (k : Int) := by
  have e2 : 0 ≤ s.columnBlocks.b2.y := by omega
  constructor
  · simp only [downNextGridY, ceilDiv, BLOCK_HEIGHT]
    omega
  · simp only [alignBlock, BLOCK_HEIGHT]
    rw [Int.mul_tdiv_cancel _ (by decide), Int.tdiv_eq_ediv e2 (by decide)]
    omega

/-- C10. On a landing tick with the bottom falling cell at pixel offset `50 * k` or
`50 * k + 25` (so that it lands on grid row `k`): `gameOver` becomes true exactly when
`k - 3 <= 0`; in that case no column is spawned (the falling cells stay as the landing loop
aligned them) and the topmost cell, two cell heights above the bottom one, landed on a row
`<= 1`; in every other landing `gameOver` stays false and the falling column is the freshly
spawned one, with y-offsets `(-100, -50, 0)`. -/
theorem landing_gameOver (d : Draws) (t : ℚ) (s s' : GameState) (k : Nat) (slot : Int)
    (hf : DownFires t s)
    (hy : s.columnBlocks.b2.y = 50 * (k : Int) ∨ s.columnBlocks.b2.y = 50 * (k : Int) + 25)
    (hslot : readSlot s.occupiedSlots (downGridX s) = some slot)
    (hl : landingTest s slot = true) (hs : moveColumnDown d t s = some s') :
    (alignBlock s.columnBlocks.b2).y.tdiv 50 = (k : Int) ∧
      (s'.gameOver = true ↔ (k : Int) - 3 ≤ 0) ∧
      ((k : Int) - 3 ≤ 0 →
        s'.columnBlocks = { b0 := alignBlock s.columnBlocks.b0, b1 := alignBlock s.columnBlocks.b1,
                            b2 := alignBlock s.columnBlocks.b2 } ∧
        (s.columnBlocks.b0.y = s.columnBlocks.b2.y - 100 →
          (alignBlock s.columnBlocks.b0).y.tdiv 50 ≤ 1)) ∧
      (¬ (k : Int) - 3 ≤ 0 →
        s'.columnBlocks = (spawnColumn d s).columnBlocks ∧ s'.columnBlocks.b0.y = -100 ∧
          s'.columnBlocks.b1.y = -50 ∧ s'.columnBlocks.b2.y = 0) := by
  obtain ⟨hn, hrow⟩ := downNextGridY_of_row s k hy
  obtain ⟨r, g, hr, _, _, _, hover, hgo⟩ := moveColumnDown_landing d t s s' slot hf hslot hl hs
  rw [hn] at hover hgo
  simp only [BLOCK_COLUMN_LENGTH] at hover hgo
  refine ⟨hrow, ?_, ?_, ?_⟩
  · constructor
    · intro hg
      by_contra hk
      rw [(hgo hk).1] at hg
      exact Bool.false_ne_true hg
    · intro hk
      exact (hover hk).1
  · intro hk
    refine ⟨?_, ?_⟩
    · rw [(hover hk).2]
      exact landColumn_aligned _ _ _ _ _ _ hr
    · intro h0
      simp only [alignBlock, BLOCK_HEIGHT]
      rw [Int.mul_tdiv_cancel _ (by decide)]
      have h3 : s.columnBlocks.b0.y ≤ 75 := by omega
      by_cases hneg : 0 ≤ s.columnBlocks.b0.y
      · rw [Int.tdiv_eq_ediv hneg (by decide)]
        omega
      · have h1 := Int.tdiv_nonneg (a := -s.columnBlocks.b0.y) (b := 50) (by omega) (by decide)
        rw [Int.neg_tdiv] at h1
        omega
  · intro hk
    have hc := (hgo hk).2
    rw [hc]
    exact ⟨rfl, by simp [spawnColumn, spawnBlock, BLOCK_HEIGHT],
      by simp [spawnColumn, spawnBlock, BLOCK_HEIGHT],
      by simp [spawnColumn, spawnBlock, BLOCK_HEIGHT]⟩

theorem moveColumnDown_landing_some (d : Draws) (t : ℚ) (s : GameState) (slot : Int)
    (r : Grid × (Nat → Int) × Column) (g : Grid) (hf : DownFires t s)
    (hslot : readSlot s.occupiedSlots (downGridX s) = some slot)
    (hl : landingTest s slot = true)
    (hr : landColumn (downGridX s) (downNextGridY s) s.placedBlocks s.occupiedSlots
      s.columnBlocks = some r)
    (hg : clearAndScore r.1 = some g) :
    ∃ s', moveColumnDown d t s = some s' ∧ s'.placedBlocks = g ∧ s'.occupiedSlots = r.2.1 := by
  rw [moveColumnDown_fires d t s hf]
  unfold moveColumnDownFired
  simp only [hslot, Option.some_bind, hl, if_true, hr, hg, Option.map_some']
  split_ifs
  · exact ⟨_, rfl, rfl, rfl⟩
  · exact ⟨_, rfl, rfl, rfl⟩

theorem fallState_downFires (c0 c1 c2 : Color) (j : Nat) :
    DownFires 2 (fallState c0 c1 c2 j 1) := by
  refine ⟨rfl, ?_, ?_⟩
  · show (0 : ℚ) < 1
    norm_num
  · show columnDownInterval ≤ 2 - 1
    unfold columnDownInterval
    norm_num

theorem landing_eval_rgb :
    ∃ r, landColumn 2 13 initGameState.placedBlocks initGameState.occupiedSlots
        (fallingColumn Color.red Color.green Color.blue 26) = some r ∧
      ∃ g, clearAndScore r.1 = some g ∧
        ((g 2 11).occupied = true ∧ (g 2 12).occupied = true ∧ (g 2 13).occupied = true ∧
          (∀ c < 6, ∀ k < 14, (g c k).occupied = (r.1 c k).occupied) ∧
          firstOccupied g 2 = some 11 ∧ r.2.1 2 = 10) := by
  have h := exists_of_optCheck
    (landColumn 2 13 initGameState.placedBlocks initGameState.occupiedSlots
        (fallingColumn Color.red Color.green Color.blue 26))
    (fun (r : Grid × (Nat → Int) × Column) => optCheck (clearAndScore r.1)
      (fun g => decide ((g 2 11).occupied = true ∧ (g 2 12).occupied = true ∧
          (g 2 13).occupied = true ∧
          (∀ c < (6 : Nat), ∀ k < (14 : Nat), (g c k).occupied = (r.1 c k).occupied) ∧
          firstOccupied g 2 = some 11 ∧ r.2.1 2 = 10))
      = true) (by decide)
  obtain ⟨r, hr, hp⟩ := h
  exact ⟨r, hr, exists_of_optCheck _ _ hp⟩

theorem landing_step_rgb (d : Draws) :
    ∃ s', moveColumnDown d 2 (fallState Color.red Color.green Color.blue 26 1) = some s' ∧
      (s'.placedBlocks 2 11).occupied = true ∧ (s'.placedBlocks 2 12).occupied = true ∧
      (s'.placedBlocks 2 13).occupied = true ∧ firstOccupied s'.placedBlocks 2 = some 11 ∧
      s'.occupiedSlots 2 = 10 := by
  obtain ⟨r, hr, g, hg, h1, h2, h3, _, h5, h6⟩ := landing_eval_rgb
  obtain ⟨s', hs', hgrid, hslots⟩ := moveColumnDown_landing_some d 2
    (fallState Color.red Color.green Color.blue 26 1) 14 r g (fallState_downFires _ _ _ _)
    rfl rfl hr hg
  exact ⟨s', hs', by rw [hgrid]; exact h1, by rw [hgrid]; exact h2, by rw [hgrid]; exact h3,
    by rw [hgrid]; exact h5, by rw [hslots]; exact h6⟩

theorem stackState_downFires : DownFires 2 stackState := by
  refine ⟨rfl, ?_, ?_⟩
  · show (0 : ℚ) < 1
    norm_num
  · show columnDownInterval ≤ 2 - 1
    unfold columnDownInterval
    norm_num

theorem landing_step_stack (d : Draws) :
    ∃ s', moveColumnDown d 2 stackState = some s' ∧
      (s'.placedBlocks 2 1).occupied = true ∧ s'.occupiedSlots 2 = 0 := by
  have h := exists_of_optCheck
    (landColumn 2 3 stackState.placedBlocks stackState.occupiedSlots stackState.columnBlocks)
    (fun (r : Grid × (Nat → Int) × Column) => optCheck (clearAndScore r.1)
      (fun g => decide ((g 2 1).occupied = true ∧ r.2.1 2 = 0)) = true) (by decide)
  obtain ⟨r, hr, hp⟩ := h
  obtain ⟨g, hg, h1, h2⟩ := exists_of_optCheck _ _ hp
  obtain ⟨s', hs', hgrid, hslots⟩ := moveColumnDown_landing_some d 2 stackState 3 r g
    stackState_downFires rfl rfl hr hg
  exact ⟨s', hs', by rw [hgrid]; exact h1, by rw [hslots]; exact h2⟩

theorem landing_gameOver_witness :
    (∃ s', moveColumnDown ⟨0, 0, 0, 0⟩ 2 (fallState Color.red Color.green Color.blue 26 1) =
        some s' ∧
      (s'.gameOver = true ↔ ((13 : Nat) : Int) - 3 ≤ 0) ∧ s'.columnBlocks.b2.y = 0) ∧
    ∃ s', moveColumnDown ⟨0, 0, 0, 0⟩ 2 stackState = some s' ∧
      (s'.gameOver = true ↔ ((3 : Nat) : Int) - 3 ≤ 0) ∧ s'.columnBlocks.b2.y = 150 := by
  obtain ⟨s1, hs1, _⟩ := landing_step_rgb ⟨0, 0, 0, 0⟩
  obtain ⟨s2, hs2, _⟩ := landing_step_stack ⟨0, 0, 0, 0⟩
  have h1 := landing_gameOver ⟨0, 0, 0, 0⟩ 2 (fallState Color.red Color.green Color.blue 26 1) s1
    13 14 (fallState_downFires _ _ _ _) (Or.inl rfl) rfl rfl hs1
  have h2 := landing_gameOver ⟨0, 0, 0, 0⟩ 2 stackState s2 3 3 stackState_downFires
    (Or.inl rfl) rfl rfl hs2
  refine ⟨⟨s1, hs1, h1.2.1, (h1.2.2.2 (by decide)).2.2.2⟩, s2, hs2, h2.2.1, ?_⟩
  rw [(h2.2.2.1 (by decide)).1]
  rfl

/-! ### What the landing writes -/

theorem occupiedCells_landedGrid (g : Grid) (col : Column) (c k : Nat) (hc : c < 6)
    (hk2 : 2 ≤ k) (hk13 : k ≤ 13) :
    occupiedCells (landedGrid g col c k) =
      insert (c, k) (insert (c, k - 1) (insert (c, k - 2) (occupiedCells g))) := by
  ext ⟨a, b⟩
  simp only [occupiedCells, Finset.mem_filter, Finset.mem_product, Finset.mem_range,
    Finset.mem_insert, Prod.mk.injEq, landedGrid, setCell, landedBlock]
  split_ifs with h1 h2 h3
  · obtain ⟨rfl, rfl⟩ := h1
    simp
    omega
  · obtain ⟨rfl, rfl⟩ := h2
    simp
    omega
  · obtain ⟨rfl, rfl⟩ := h3
    simp
    omega
  · constructor
    · intro h
      exact Or.inr (Or.inr (Or.inr h))
    · rintro (h | h | h | h)
      · exact absurd h h1
      · exact absurd h h2
      · exact absurd h h3
      · exact h

theorem landedGrid_other (g : Grid) (col : Column) (c k c' r' : Nat)
    (h : ¬ (c' = c ∧ k - 2 ≤ r' ∧ r' ≤ k)) : landedGrid g col c k c' r' = g c' r' := by
  simp only [landedGrid, setCell]
  split_ifs with h1 h2 h3
  · exact absurd ⟨h1.1, by omega, by omega⟩ h
  · exact absurd ⟨h2.1, by omega, by omega⟩ h
  · exact absurd ⟨h3.1, by omega, by omega⟩ h
  · rfl

theorem countOccupied_eq_zero (g : Grid)
    (h : ∀ c < 6, ∀ r < 14, (g c r).occupied = false) : countOccupied g = 0 := by
  unfold countOccupied occupiedCells
  rw [Finset.card_eq_zero, Finset.filter_eq_empty_iff]
  rintro ⟨a, b⟩ hab
  simp only [Finset.mem_product, Finset.mem_range] at hab
  simp [h a hab.1 b hab.2]

theorem columnAt_free (s : GameState) (c k : Nat) (hk13 : k ≤ 13)
    (hk : (k : Int) = if s.occupiedSlots c ≥ GRID_BLOCK_HEIGHT then GRID_BLOCK_HEIGHT - 1
      else s.occupiedSlots c)
    (hinv : ∀ r < 14, (s.placedBlocks c r).occupied = true → s.occupiedSlots c < (r : Int)) :
    ∀ r ≤ k, (s.placedBlocks c r).occupied = false := by
  intro r hr
  by_contra ho
  rw [Bool.not_eq_false] at ho
  have h1 := hinv r (by omega) ho
  simp only [GRID_BLOCK_HEIGHT] at hk
  split_ifs at hk <;> omega

/-- C3 (as the code has it). On a down-tick that lands the falling column in grid column
`c`, its bottom cell having reached row `k = min(occupiedSlots[c], 13)` with every occupied
cell of column `c` below `occupiedSlots[c]`: the landing test holds, the landing loop writes
the grid `landedGrid`, which has exactly 3 more occupied cells than before, namely the
previously free cells of column `c` in rows `k-2`, `k-1`, `k`, every other cell unchanged;
the grid after the tick is `clearAndScore` applied to that grid, so the match step may
clear cells again. -/
theorem landing_adds_three (d : Draws) (t : ℚ) (s : GameState) (c k : Nat)
    (hf : DownFires t s) (h : ColumnAt s c k)
    (hk : (k : Int) = if s.occupiedSlots c ≥ GRID_BLOCK_HEIGHT then GRID_BLOCK_HEIGHT - 1
      else s.occupiedSlots c)
    (hinv : ∀ r < 14, (s.placedBlocks c r).occupied = true → s.occupiedSlots c < (r : Int)) :
    landingTest s (s.occupiedSlots c) = true ∧
      (∃ slots col, landColumn (downGridX s) (downNextGridY s) s.placedBlocks s.occupiedSlots
          s.columnBlocks = some (landedGrid s.placedBlocks s.columnBlocks c k, slots, col)) ∧
      countOccupied (landedGrid s.placedBlocks s.columnBlocks c k) =
        countOccupied s.placedBlocks + 3 ∧
      ((landedGrid s.placedBlocks s.columnBlocks c k c (k - 2)).occupied = true ∧
        (landedGrid s.placedBlocks s.columnBlocks c k c (k - 1)).occupied = true ∧
        (landedGrid s.placedBlocks s.columnBlocks c k c k).occupied = true) ∧
      (∀ r ≤ k, (s.placedBlocks c r).occupied = false) ∧
      (∀ c' r', ¬ (c' = c ∧ k - 2 ≤ r' ∧ r' ≤ k) →
        landedGrid s.placedBlocks s.columnBlocks c k c' r' = s.placedBlocks c' r') ∧
      (moveColumnDown d t s).map (fun s' => s'.placedBlocks) =
        clearAndScore (landedGrid s.placedBlocks s.columnBlocks c k) := by
  have hland := landColumn_columnAt s c k h
  obtain ⟨hx, hn, _, _, _⟩ := columnAt_rows s c k h
  obtain ⟨hc, hk2, hk13, _, _, _, _⟩ := h
  have hfree := columnAt_free s c k hk13 hk hinv
  have hl : landingTest s (s.occupiedSlots c) = true := by
    simp only [landingTest, hn, Bool.or_eq_true, decide_eq_true_eq]
    right
    rw [hk]
  have hcells := occupiedCells_landedGrid s.placedBlocks s.columnBlocks c k hc hk2 hk13
  have hnot : ∀ r ≤ k, (c, r) ∉ occupiedCells s.placedBlocks := by
    intro r hr hmem
    simp only [occupiedCells, Finset.mem_filter] at hmem
    rw [hfree r hr] at hmem
    exact Bool.false_ne_true hmem.2
  refine ⟨hl, ⟨_, _, hland⟩, ?_, ?_, hfree, ?_, ?_⟩
  · unfold countOccupied
    rw [hcells, Finset.card_insert_of_not_mem, Finset.card_insert_of_not_mem,
      Finset.card_insert_of_not_mem (hnot (k - 2) (by omega))]
    · simp only [Finset.mem_insert, Prod.mk.injEq, not_or]
      exact ⟨by omega, hnot (k - 1) (by omega)⟩
    · simp only [Finset.mem_insert, Prod.mk.injEq, not_or]
      exact ⟨by omega, by omega, hnot k (le_refl k)⟩
  · have hm : ∀ r, k - 2 ≤ r → r ≤ k →
        (c, r) ∈ occupiedCells (landedGrid s.placedBlocks s.columnBlocks c k) := by
      intro r h1 h2
      rw [hcells]
      simp only [Finset.mem_insert, Prod.mk.injEq, true_and]
      omega
    simp only [occupiedCells, Finset.mem_filter] at hm
    exact ⟨(hm (k - 2) (le_refl _) (by omega)).2, (hm (k - 1) (by omega) (by omega)).2,
      (hm k (by omega) (le_refl _)).2⟩
  · intro c' r' hne
    exact landedGrid_other _ _ _ _ _ _ hne
  · rw [moveColumnDown_fires d t s hf]
    unfold moveColumnDownFired
    have hslot : readSlot s.occupiedSlots (downGridX s) = some (s.occupiedSlots c) := by
      rw [hx]
      exact readSlot_of_lt _ c hc
    simp only [hslot, Option.some_bind, hl, if_true, hland]
    cases clearAndScore (landedGrid s.placedBlocks s.columnBlocks c k) with
    | none => rfl
    | some g =>
      simp only [Option.map_some', Option.some.injEq]
      split_ifs <;> rfl

theorem columnAt_fallState (c0 c1 c2 : Color) (last : ℚ) :
    ColumnAt (fallState c0 c1 c2 26 last) 2 13 := by
  refine ⟨by decide, by decide, by decide, ?_, Or.inl ?_, ?_, ?_⟩ <;> rfl

theorem landing_adds_three_witness :
    countOccupied (landedGrid (fallState Color.red Color.green Color.blue 26 1).placedBlocks
        (fallState Color.red Color.green Color.blue 26 1).columnBlocks 2 13) =
      countOccupied (fallState Color.red Color.green Color.blue 26 1).placedBlocks + 3 ∧
    (moveColumnDown ⟨0, 0, 0, 0⟩ 2 (fallState Color.red Color.green Color.blue 26 1)).map
        (fun s' => s'.placedBlocks) =
      clearAndScore (landedGrid (fallState Color.red Color.green Color.blue 26 1).placedBlocks
        (fallState Color.red Color.green Color.blue 26 1).columnBlocks 2 13) := by
  have h := landing_adds_three ⟨0, 0, 0, 0⟩ 2 (fallState Color.red Color.green Color.blue 26 1)
    2 13 (fallState_downFires _ _ _ _) (columnAt_fallState _ _ _ _) (by decide)
    (fun r _ ho => absurd (show false = true from ho) Bool.false_ne_true)
  exact ⟨h.2.2.1, h.2.2.2.2.2.2⟩

/-- C3 as stated fails: the all-red column about to land in the empty column 2 passes the
landing test, and after that tick the grid has no occupied cell at all, not 3 more than
the 0 before. -/
theorem landing_count_counterexample :
    ∃ s', landingTest (fallState Color.red Color.red Color.red 26 1)
        ((fallState Color.red Color.red Color.red 26 1).occupiedSlots 2) = true ∧
      moveColumnDown ⟨0, 0, 0, 0⟩ 2 (fallState Color.red Color.red Color.red 26 1) = some s' ∧
      ¬ countOccupied s'.placedBlocks =
        countOccupied (fallState Color.red Color.red Color.red 26 1).placedBlocks + 3 := by
  obtain ⟨s', hs', hall, _⟩ := landing_step_red ⟨0, 0, 0, 0⟩ 1 2 (by norm_num)
    (by unfold columnDownInterval; norm_num)
  refine ⟨s', rfl, hs', ?_⟩
  rw [countOccupied_eq_zero _ hall]
  omega

/-- C5 (as the code has it). After a landing tick in column `c` with the bottom falling cell
in row `k`, `occupiedSlots[c]` equals the row `k - 2` of the topmost cell just placed minus
1 (the lowest free row above the stack); when the rows above `k - 2` were free and the
topmost placed cell was not cleared, that row `k - 2` is the smallest occupied row of
column `c`. -/
theorem landing_slot (d : Draws) (t : ℚ) (s s' : GameState) (c k : Nat)
    (hf : DownFires t s) (h : ColumnAt s c k)
    (hl : landingTest s (s.occupiedSlots c) = true) (hs : moveColumnDown d t s = some s') :
    (alignBlock s.columnBlocks.b0).y.tdiv 50 = ((k - 2 : Nat) : Int) ∧
      s'.occupiedSlots c = ((k - 2 : Nat) : Int) - 1 ∧
      ((∀ r < k - 2, (s.placedBlocks c r).occupied = false) →
        (s'.placedBlocks c (k - 2)).occupied = true →
        firstOccupied s'.placedBlocks c = some (k - 2)) := by
  have hland := landColumn_columnAt s c k h
  obtain ⟨hx, hn, _, _, h0⟩ := columnAt_rows s c k h
  obtain ⟨hc, hk2, hk13, _, _, _, _⟩ := h
  have hslot : readSlot s.occupiedSlots (downGridX s) = some (s.occupiedSlots c) := by
    rw [hx]
    exact readSlot_of_lt _ c hc
  obtain ⟨r, g, hr, hg, hgrid, hslots, _, _⟩ :=
    moveColumnDown_landing d t s s' (s.occupiedSlots c) hf hslot hl hs
  rw [hland, Option.some.injEq] at hr
  subst hr
  refine ⟨?_, ?_, ?_⟩
  · simp only [alignBlock, BLOCK_HEIGHT]
    rw [Int.mul_tdiv_cancel _ (by decide)]
    exact h0
  · rw [hslots]
    simp only [if_true]
    omega
  · intro hfree htop
    apply firstOccupied_eq _ c (k - 2) (by omega) htop
    intro j hj
    by_contra ho
    rw [Bool.not_eq_false, hgrid] at ho
    have h1 : (landedGrid s.placedBlocks s.columnBlocks c k c j).occupied = true :=
      clearAndScore_sub _ _ hg c j ho
    rw [landedGrid_other s.placedBlocks s.columnBlocks c k c j (by omega), hfree j hj] at h1
    exact Bool.false_ne_true h1

theorem landing_slot_witness :
    ∃ s', moveColumnDown ⟨0, 0, 0, 0⟩ 2 (fallState Color.red Color.green Color.blue 26 1) =
        some s' ∧
      s'.occupiedSlots 2 = ((13 - 2 : Nat) : Int) - 1 ∧
      firstOccupied s'.placedBlocks 2 = some (13 - 2) := by
  obtain ⟨s', hs', h11, _, _, _, _⟩ := landing_step_rgb ⟨0, 0, 0, 0⟩
  have h := landing_slot ⟨0, 0, 0, 0⟩ 2 (fallState Color.red Color.green Color.blue 26 1) s'
    2 13 (fallState_downFires _ _ _ _) (columnAt_fallState _ _ _ _) rfl hs'
  exact ⟨s', hs', h.2.1, h.2.2 (fun r _ => rfl) h11⟩

/-- C5 as stated fails: the column red, green, blue lands in the empty column 2 on rows
11, 12, 13 and nothing is cleared; the smallest occupied row of column 2 is then 11, but
`occupiedSlots[2]` is 10. -/
theorem landing_slot_counterexample :
    ∃ s', landingTest (fallState Color.red Color.green Color.blue 26 1)
        ((fallState Color.red Color.green Color.blue 26 1).occupiedSlots 2) = true ∧
      moveColumnDown ⟨0, 0, 0, 0⟩ 2 (fallState Color.red Color.green Color.blue 26 1) =
        some s' ∧
      (s'.placedBlocks 2 11).occupied = true ∧ (s'.placedBlocks 2 12).occupied = true ∧
      (s'.placedBlocks 2 13).occupied = true ∧
      firstOccupied s'.placedBlocks 2 = some 11 ∧ ¬ s'.occupiedSlots 2 = 11 := by
  obtain ⟨s', hs', h11, h12, h13, hfirst, hslot⟩ := landing_step_rgb ⟨0, 0, 0, 0⟩
  refine ⟨s', rfl, hs', h11, h12, h13, hfirst, ?_⟩
  rw [hslot]
  decide

/-! ### Compaction: the measure on a column -/

theorem settleBound_zero (l : List Slot) (h : (settleBound l).1 = 0) :
    (settleBound l).2 = -3 := by
  cases l with
  | nil => rfl
  | cons c rest =>
    cases c with
    | none => simp [settleBound] at h
    | some p =>
      simp only [settleBound] at h ⊢
      split_ifs with h0
      · rfl
      · rw [if_neg h0] at h
        exact absurd h h0

theorem invSlots_tail (c : Slot) (l : List Slot) (h : InvSlots (c :: l)) : InvSlots l := by
  cases l with
  | nil => trivial
  | cons c2 r => exact h.2

theorem invSlots_cons_none (l : List Slot) (h : InvSlots l) : InvSlots (none :: l) := by
  cases l with
  | nil => exact Or.inl rfl
  | cons c2 r => exact ⟨fun p hp => by simp at hp, h⟩

theorem invSlots_cons_zero (l : List Slot) (h : InvSlots l) : InvSlots (some 0 :: l) := by
  cases l with
  | nil => exact Or.inr rfl
  | cons c2 r =>
    refine ⟨fun p hp => ?_, h⟩
    simp only [Option.some.injEq] at hp
    subst hp
    exact ⟨by omega, fun h0 => absurd h0 (by omega)⟩

theorem invSlots_head (p : Nat) (l : List Slot) (h : InvSlots (some p :: l)) : p ≤ 2 := by
  cases l with
  | nil =>
    rcases h with h | h
    · simp at h
    · simp only [Option.some.injEq] at h
      omega
  | cons c2 r => exact (h.1 p rfl).1

theorem passFrom_none (rest : List Slot) : passFrom none rest = none :: passSlots rest := by
  cases rest with
  | nil => rfl
  | cons c r => rfl

theorem settleBound_range (l : List Slot) (hinv : InvSlots l) :
    (settleBound l).2 = -3 ∨ 1 ≤ (settleBound l).2 := by
  induction l with
  | nil => left; rfl
  | cons cur rest ih =>
    have ihc := ih (invSlots_tail cur rest hinv)
    cases cur with
    | none => simpa only [settleBound] using ihc
    | some p =>
      have hp := invSlots_head p rest hinv
      simp only [settleBound]
      split_ifs with h0
      · left; rfl
      · right
        have h1 : 1 ≤ (settleBound rest).1 := Nat.one_le_iff_ne_zero.mpr h0
        have h2 : (1 : Int) ≤ 2 * ((settleBound rest).1 : Int) + 1 - (p : Int) := by omega
        exact le_trans h2 (le_max_left _ _)

theorem settleBound_head (p : Nat) (rest : List Slot) (hp : p ≤ 2)
    (h0 : (settleBound rest).1 ≠ 0) :
    2 * ((settleBound rest).1 : Int) - 1 ≤ (settleBound (some p :: rest)).2 := by
  simp only [settleBound, if_neg h0]
  have h2 : 2 * ((settleBound rest).1 : Int) - 1 ≤
      2 * ((settleBound rest).1 : Int) + 1 - (p : Int) := by omega
  exact le_trans h2 (le_max_left _ _)

theorem settleBound_none (rest : List Slot) :
    settleBound (none :: rest) = ((settleBound rest).1 + 1, (settleBound rest).2) := rfl

theorem settleBound_some_pos (p : Nat) (rest : List Slot) (h : (settleBound rest).1 ≠ 0) :
    settleBound (some p :: rest) =
      ((settleBound rest).1,
        max (2 * ((settleBound rest).1 : Int) + 1 - (p : Int)) ((settleBound rest).2 + 3)) := by
  show (if (settleBound rest).1 = 0 then ((0 : Nat), (-3 : Int)) else _) = _
  rw [if_neg h]

theorem settleBound_some_zero (p : Nat) (rest : List Slot) (h : (settleBound rest).1 = 0) :
    settleBound (some p :: rest) = (0, -3) := by
  show (if (settleBound rest).1 = 0 then ((0 : Nat), (-3 : Int)) else _) = _
  rw [if_pos h]

theorem settleBound_some_fst (p : Nat) (rest : List Slot) :
    (settleBound (some p :: rest)).1 = (settleBound rest).1 := by
  by_cases h0 : (settleBound rest).1 = 0
  · rw [settleBound_some_zero p rest h0, h0]
  · rw [settleBound_some_pos p rest h0]

theorem settleBound_some_ge (p : Nat) (rest : List Slot) (hp : p ≤ 2)
    (h0 : (settleBound rest).1 ≠ 0) : 1 ≤ (settleBound (some p :: rest)).2 := by
  have h1 := settleBound_head p rest hp h0
  have h2 : 1 ≤ (settleBound rest).1 := Nat.one_le_iff_ne_zero.mpr h0
  omega

/-- One pass over a column keeps the invariant and the number of free cells, leaves a
settled column as it is, and lowers the bound of an unsettled column by at least 1. -/
theorem passFrom_settle (rest : List Slot) :
    ∀ cur, InvSlots (cur :: rest) →
      InvSlots (passFrom cur rest) ∧
      (settleBound (passFrom cur rest)).1 = (settleBound (cur :: rest)).1 ∧
      ((settleBound (cur :: rest)).2 = -3 → passFrom cur rest = cur :: rest) ∧
      ((settleBound (cur :: rest)).2 ≠ -3 →
        (settleBound (passFrom cur rest)).2 ≤ (settleBound (cur :: rest)).2 - 1) := by
  induction rest with
  | nil =>
    intro cur hinv
    refine ⟨hinv, rfl, fun _ => rfl, fun h => ?_⟩
    exfalso
    apply h
    cases cur with
    | none => rfl
    | some p => exact congrArg Prod.snd (settleBound_some_zero p [] rfl)
  | cons c r ih =>
    intro cur hinv
    have hrest : InvSlots (c :: r) := hinv.2
    cases cur with
    | none =>
      obtain ⟨hi, hh, hfix, hdec⟩ := ih c hrest
      have hpf : passFrom none (c :: r) = none :: passFrom c r := rfl
      rw [hpf, settleBound_none, settleBound_none]
      refine ⟨invSlots_cons_none _ hi, ?_, ?_, ?_⟩
      · rw [hh]
      · intro h3
        rw [hfix h3]
      · intro h3
        exact hdec h3
    | some p =>
      have hp := (hinv.1 p rfl).1
      cases c with
      | some q =>
        have hp0 : p = 0 := by
          by_contra hne
          have := (hinv.1 p rfl).2 (by omega)
          simp at this
        subst hp0
        obtain ⟨hi, hh, hfix, hdec⟩ := ih (some q) hrest
        have hq := invSlots_head q r hrest
        have hpf : passFrom (some 0) (some q :: r) = some 0 :: passFrom (some q) r := rfl
        rw [hpf]
        by_cases h0 : (settleBound (some q :: r)).1 = 0
        · have hz : (settleBound (passFrom (some q) r)).1 = 0 := by rw [hh, h0]
          have hfixed := hfix (settleBound_zero _ h0)
          refine ⟨invSlots_cons_zero _ hi, ?_, ?_, ?_⟩
          · rw [settleBound_some_fst, settleBound_some_fst 0, hh]
          · intro _
            rw [hfixed]
          · intro h3
            exact absurd (congrArg Prod.snd (settleBound_some_zero 0 _ h0)) h3
        · have hz : (settleBound (passFrom (some q) r)).1 ≠ 0 := by rw [hh]; exact h0
          have hr0 : (settleBound r).1 ≠ 0 := by
            rw [settleBound_some_fst] at h0
            exact h0
          have hhead := settleBound_head q r hq hr0
          rw [← settleBound_some_fst q r] at hhead
          have h1 : 1 ≤ (settleBound (some q :: r)).1 := Nat.one_le_iff_ne_zero.mpr h0
          have hd := hdec (by omega)
          have hge := settleBound_some_ge 0 (some q :: r) (by omega) h0
          refine ⟨invSlots_cons_zero _ hi, ?_, ?_, ?_⟩
          · rw [settleBound_some_fst, settleBound_some_fst 0, hh]
          · intro h3
            omega
          · intro _
            rw [settleBound_some_pos 0 _ hz, settleBound_some_pos 0 _ h0, hh]
            generalize (settleBound (some q :: r)).1 = H at *
            generalize (settleBound (some q :: r)).2 = ψ at *
            generalize (settleBound (passFrom (some q) r)).2 = ψ' at *
            simp only [max_def]
            push_cast
            split_ifs <;> omega
      | none =>
        have hH : (settleBound (none :: r)).1 ≠ 0 := by
          rw [settleBound_none]
          exact Nat.succ_ne_zero _
        have h1 : 1 ≤ (settleBound (none :: r)).1 := Nat.one_le_iff_ne_zero.mpr hH
        have hold := settleBound_some_ge p (none :: r) hp hH
        by_cases hp2 : p < 2
        · obtain ⟨hi, hh, hfix, hdec⟩ := ih none hrest
          have hpf : passFrom (some p) (none :: r) = some (p + 1) :: passFrom none r := by
            simp only [passFrom, if_pos hp2]
          rw [hpf]
          have hH' : (settleBound (passFrom none r)).1 ≠ 0 := by rw [hh]; exact hH
          have hrange := settleBound_range (none :: r) hrest
          refine ⟨?_, ?_, ?_, ?_⟩
          · rw [passFrom_none] at hi ⊢
            exact ⟨fun p' hp' => by
              simp only [Option.some.injEq] at hp'
              subst hp'
              exact ⟨by omega, fun _ => rfl⟩, hi⟩
          · rw [settleBound_some_fst, settleBound_some_fst p, hh]
          · intro h3
            omega
          · intro _
            rw [settleBound_some_pos _ _ hH', settleBound_some_pos _ _ hH, hh]
            rcases hrange with h3 | h3
            · rw [hfix h3, h3]
              generalize (settleBound (none :: r)).1 = H at *
              simp only [max_def]
              push_cast
              split_ifs <;> omega
            · have hd := hdec (by omega)
              generalize (settleBound (none :: r)).1 = H at *
              generalize (settleBound (none :: r)).2 = ψ at *
              generalize (settleBound (passFrom none r)).2 = ψ' at *
              simp only [max_def]
              push_cast
              split_ifs <;> omega
        · have hp2' : p = 2 := by omega
          subst hp2'
          have hinv0 : InvSlots (some 0 :: r) := invSlots_cons_zero r (invSlots_tail none r hrest)
          obtain ⟨hi, hh, hfix, hdec⟩ := ih (some 0) hinv0
          have hpf : passFrom (some 2) (none :: r) = none :: passFrom (some 0) r := by
            simp only [passFrom, if_neg hp2]
          rw [hpf]
          refine ⟨invSlots_cons_none _ hi, ?_, ?_, ?_⟩
          · rw [settleBound_some_fst, settleBound_none, settleBound_none, hh,
              settleBound_some_fst]
          · intro h3
            omega
          · intro _
            rw [settleBound_some_pos _ _ hH, settleBound_none, settleBound_none]
            by_cases h0 : (settleBound r).1 = 0
            · have hz := settleBound_zero r h0
              have hs0 : (settleBound (some 0 :: r)).2 = -3 :=
                congrArg Prod.snd (settleBound_some_zero 0 r h0)
              rw [hfix hs0, hs0, h0, hz]
              decide
            · have hge := settleBound_some_ge 0 r (by omega) h0
              have hd := hdec (by omega)
              rw [settleBound_some_pos 0 r h0] at hd
              have h1' : 1 ≤ (settleBound r).1 := Nat.one_le_iff_ne_zero.mpr h0
              generalize (settleBound r).1 = H at *
              generalize (settleBound r).2 = ψ at *
              generalize (settleBound (passFrom (some 0) r)).2 = ψ' at *
              simp only [max_def] at hd ⊢
              push_cast at hd ⊢
              split_ifs at hd ⊢ <;> omega

theorem passSlots_settle (l : List Slot) (hinv : InvSlots l) :
    InvSlots (passSlots l) ∧
      ((settleBound l).2 = -3 → passSlots l = l) ∧
      ((settleBound l).2 ≠ -3 → (settleBound (passSlots l)).2 ≤ (settleBound l).2 - 1) := by
  cases l with
  | nil => exact ⟨trivial, fun _ => rfl, fun h => absurd rfl h⟩
  | cons c rest =>
    obtain ⟨h1, _, h3, h4⟩ := passFrom_settle rest c hinv
    exact ⟨h1, h3, h4⟩

theorem settleBound_aligned (l : List Slot) (h : ∀ c ∈ l, c = none ∨ c = some 0) :
    (settleBound l).1 ≤ l.length ∧
      ((settleBound l).2 = -3 ∨
        (1 ≤ (settleBound l).1 ∧
          (settleBound l).2 + ((settleBound l).1 : Int) + 2 ≤ 3 * (l.length : Int))) := by
  induction l with
  | nil => exact ⟨le_refl _, Or.inl rfl⟩
  | cons c rest ih =>
    obtain ⟨ih1, ih2⟩ := ih (fun c' hc' => h c' (List.mem_cons_of_mem c hc'))
    rcases h c (List.mem_cons_self c rest) with hc | hc
    · subst hc
      rw [settleBound_none]
      simp only [List.length_cons]
      refine ⟨by omega, ?_⟩
      rcases ih2 with h2 | ⟨h2, h3⟩
      · exact Or.inl h2
      · right
        refine ⟨by omega, ?_⟩
        generalize (settleBound rest).1 = H at *
        generalize (settleBound rest).2 = ψ at *
        push_cast
        omega
    · subst hc
      by_cases h0 : (settleBound rest).1 = 0
      · rw [settleBound_some_zero 0 rest h0]
        exact ⟨Nat.zero_le _, Or.inl rfl⟩
      · rw [settleBound_some_pos 0 rest h0]
        simp only [List.length_cons]
        have h1 : 1 ≤ (settleBound rest).1 := Nat.one_le_iff_ne_zero.mpr h0
        refine ⟨by omega, Or.inr ⟨h1, ?_⟩⟩
        generalize (settleBound rest).1 = H at *
        generalize (settleBound rest).2 = ψ at *
        simp only [max_def]
        push_cast
        split_ifs <;> omega

theorem restSlots_of_settled (l : List Slot) (hinv : InvSlots l)
    (h : (settleBound l).2 = -3) : RestSlots l := by
  induction l with
  | nil => trivial
  | cons c rest ih =>
    cases rest with
    | nil => trivial
    | cons c2 r =>
      have hrest : InvSlots (c2 :: r) := hinv.2
      cases c with
      | none =>
        rw [settleBound_none] at h
        exact ⟨fun hne => absurd rfl hne, ih hrest h⟩
      | some p =>
        have hp := (hinv.1 p rfl).1
        by_cases h0 : (settleBound (c2 :: r)).1 = 0
        · refine ⟨fun _ hc2 => ?_, ih hrest (settleBound_zero _ h0)⟩
          subst hc2
          rw [settleBound_none] at h0
          exact Nat.succ_ne_zero _ h0
        · have := settleBound_some_ge p (c2 :: r) hp h0
          omega

/-! ### Compaction: one pass over a grid column -/

theorem slotOf_of_pixel (g : Grid) (x r p : Nat) (ho : (g x r).occupied = true)
    (hy : (g x r).y = 50 * (r : Int) + 25 * (p : Int)) : slotOf g x r = some p := by
  simp only [slotOf, ho, if_true, hy, Option.some.injEq]
  omega

theorem slotOf_free (g : Grid) (x r : Nat) (ho : (g x r).occupied = false) :
    slotOf g x r = none := by
  simp [slotOf, ho]

theorem map_slotOf_congr (g1 g : Grid) (x y n : Nat)
    (h : ∀ r, y ≤ r → g1 x r = g x r) :
    (List.range' y n).map (slotOf g1 x) = (List.range' y n).map (slotOf g x) := by
  apply List.map_congr_left
  intro r hr
  have hr' := (List.mem_range'_1.mp hr).1
  simp only [slotOf, h r hr']

theorem compactCell_skip (g : Grid) (x y : Nat)
    (h : (g x y).occupied = false ∨ ¬ y + 1 < 14 ∨ (g x (y + 1)).occupied = true) :
    compactCell g x y = some g := by
  unfold compactCell
  rcases h with h | h | h
  · simp [h]
  · have h' : ¬ ((y : Int) + 1 < GRID_BLOCK_HEIGHT) := by
      simp only [GRID_BLOCK_HEIGHT]
      omega
    simp [h']
  · simp [h]

theorem compactCell_advance (g : Grid) (x y p : Nat) (hy : y + 1 < 14)
    (ho : (g x y).occupied = true) (hb : (g x (y + 1)).occupied = false)
    (hpix : (g x y).y = 50 * (y : Int) + 25 * (p : Int)) (hp : p < 2) :
    compactCell g x y = some (setCell g x y { g x y with y := (g x y).y + 25 }) := by
  unfold compactCell
  have h1 : (y : Int) + 1 < GRID_BLOCK_HEIGHT := by
    simp only [GRID_BLOCK_HEIGHT]
    omega
  have h2 : ¬ (ceilDiv ((g x y).y + 25) BLOCK_HEIGHT - 1 ≥ (y : Int) + 1) := by
    simp only [ceilDiv, BLOCK_HEIGHT, hpix]
    omega
  simp only [ho, hb, h1, h2, Bool.not_true, Bool.not_false, if_true, if_false,
    Bool.false_eq_true]

theorem compactCell_move (g : Grid) (x y : Nat) (hx : x < 6) (hy : y + 1 < 14)
    (ho : (g x y).occupied = true) (hb : (g x (y + 1)).occupied = false)
    (hpx : (g x y).x = 50 * (x : Int)) (hpix : (g x y).y = 50 * (y : Int) + 50) :
    compactCell g x y =
      some (setCell
        (setCell g x (y + 1)
          { occupied := true, x := (g x y).x, y := 50 * ((y : Int) + 1), color := (g x y).color })
        x y { occupied := false, x := (x : Int) * 50, y := (y : Int) * 50, color := Color.black }) := by
  unfold compactCell
  have h1 : (y : Int) + 1 < GRID_BLOCK_HEIGHT := by
    simp only [GRID_BLOCK_HEIGHT]
    omega
  have h2 : ceilDiv ((g x y).y + 25) BLOCK_HEIGHT - 1 ≥ (y : Int) + 1 := by
    simp only [ceilDiv, BLOCK_HEIGHT, hpix]
    omega
  have h3 : (g x y).y.tdiv BLOCK_HEIGHT * BLOCK_HEIGHT = 50 * ((y : Int) + 1) := by
    rw [hpix, Int.tdiv_eq_ediv (by omega) (by decide)]
    simp only [BLOCK_HEIGHT]
    omega
  have h4 : (50 * ((y : Int) + 1)).tdiv BLOCK_HEIGHT = ((y + 1 : Nat) : Int) := by
    rw [Int.mul_comm, Int.mul_tdiv_cancel _ (by decide)]
    push_cast
    rfl
  have h5 : (g x y).x.tdiv BLOCK_WIDTH = (x : Int) := by
    rw [hpx, Int.mul_comm, Int.mul_tdiv_cancel _ (by decide)]
  simp only [ho, hb, h1, h2, Bool.not_true, Bool.not_false, if_true, if_false,
    Bool.false_eq_true, h3, h4, h5, writeBlock_of_lt g x (y + 1) hx hy, Option.map_some',
    BLOCK_WIDTH, BLOCK_HEIGHT]

theorem setCell_same (g : Grid) (c r : Nat) (b : Block) : setCell g c r b c r = b := by
  simp [setCell]

theorem setCell_other (g : Grid) (c r : Nat) (b : Block) (c' r' : Nat)
    (h : c' ≠ c ∨ r' ≠ r) : setCell g c r b c' r' = g c' r' := by
  unfold setCell
  rw [if_neg]
  rintro ⟨h1, h2⟩
  rcases h with h | h
  · exact h h1
  · exact h h2

theorem passFrom_skip (cur : Slot) (rest : List Slot)
    (h : cur = none ∨ rest = [] ∨ ∃ q r, rest = some q :: r) :
    passFrom cur rest = cur :: passSlots rest := by
  rcases h with h | h | ⟨q, r, h⟩
  · subst h
    exact passFrom_none rest
  · subst h
    rfl
  · subst h
    cases cur <;> rfl

/-- The inner loop of the sliding pass, from row `y` on, acts on column `x` as `passSlots`
acts on the column seen as slots, and touches nothing else. -/
theorem compactRows_sim (x : Nat) (hx : x < 6) (n : Nat) :
    ∀ (y : Nat) (g : Grid), y + n = 14 → ColumnOk g x →
      InvSlots ((List.range' y n).map (slotOf g x)) →
      ∃ g', (List.range' y n).foldlM (fun g' r => compactCell g' x r) g = some g' ∧
        ColumnOk g' x ∧
        (List.range' y n).map (slotOf g' x) = passSlots ((List.range' y n).map (slotOf g x)) ∧
        (∀ x' r, (x' ≠ x ∨ r < y) → g' x' r = g x' r) := by
  induction n with
  | zero =>
    intro y g _ hok _
    exact ⟨g, rfl, hok, rfl, fun _ _ _ => rfl⟩
  | succ n ih =>
    intro y g hyn hok hinv
    simp only [List.range'_succ, List.map_cons, List.foldlM_cons] at hinv ⊢
    -- the case in which the cell at row `y` is left alone
    have hskip : compactCell g x y = some g →
        passFrom (slotOf g x y) ((List.range' (y + 1) n).map (slotOf g x)) =
          slotOf g x y :: passSlots ((List.range' (y + 1) n).map (slotOf g x)) →
        ∃ g', (compactCell g x y).bind
              (fun g1 => (List.range' (y + 1) n).foldlM (fun g' r => compactCell g' x r) g1) =
            some g' ∧
          ColumnOk g' x ∧
          slotOf g' x y :: (List.range' (y + 1) n).map (slotOf g' x) =
            passSlots (slotOf g x y :: (List.range' (y + 1) n).map (slotOf g x)) ∧
          (∀ x' r, (x' ≠ x ∨ r < y) → g' x' r = g x' r) := by
      intro hc hp
      obtain ⟨g', hf, hok', hmap, hframe⟩ :=
        ih (y + 1) g (by omega) hok (invSlots_tail _ _ hinv)
      refine ⟨g', by rw [hc]; exact hf, hok', ?_, fun x' r hr => hframe x' r (by omega)⟩
      have hy' : slotOf g' x y = slotOf g x y := by
        simp only [slotOf, hframe x y (Or.inr (Nat.lt_succ_self y))]
      rw [hy', hmap]
      exact hp.symm
    by_cases hocc : (g x y).occupied = true
    · cases n with
      | zero =>
        exact hskip (compactCell_skip g x y (Or.inr (Or.inl (by omega))))
          (passFrom_skip _ _ (Or.inr (Or.inl rfl)))
      | succ m =>
        have hy1 : y + 1 < 14 := by omega
        obtain ⟨hpx, p, hp2, hpy⟩ := hok y (by omega) hocc
        have hcur : slotOf g x y = some p := slotOf_of_pixel g x y p hocc hpy
        by_cases hb : (g x (y + 1)).occupied = true
        · obtain ⟨_, q, _, hqy⟩ := hok (y + 1) hy1 hb
          have hnext : slotOf g x (y + 1) = some q := slotOf_of_pixel g x (y + 1) q hb hqy
          refine hskip (compactCell_skip g x y (Or.inr (Or.inr hb))) (passFrom_skip _ _ ?_)
          right; right
          exact ⟨q, _, by rw [List.range'_succ, List.map_cons, hnext]⟩
        · rw [Bool.not_eq_true] at hb
          have hnext : slotOf g x (y + 1) = none := slotOf_free g x (y + 1) hb
          simp only [List.range'_succ, List.map_cons, hnext, hcur] at hinv ⊢
          by_cases hp : p < 2
          · -- the block advances one half-step
            have hc := compactCell_advance g x y p hy1 hocc hb hpy hp
            have hsame : ∀ r, y + 1 ≤ r →
                setCell g x y { g x y with y := (g x y).y + 25 } x r = g x r :=
              fun r hr => setCell_other _ _ _ _ _ _ (Or.inr (by omega))
            have hok1 : ColumnOk (setCell g x y { g x y with y := (g x y).y + 25 }) x := by
              intro r hr ho
              by_cases hry : r = y
              · subst hry
                rw [setCell_same] at ho ⊢
                exact ⟨hpx, p + 1, by omega, by simp only [hpy]; push_cast; omega⟩
              · rw [setCell_other _ _ _ _ _ _ (Or.inr hry)] at ho ⊢
                exact hok r hr ho
            have hinv1 : InvSlots ((List.range' (y + 1) (m + 1)).map
                (slotOf (setCell g x y { g x y with y := (g x y).y + 25 }) x)) := by
              rw [map_slotOf_congr _ g x (y + 1) (m + 1) hsame, List.range'_succ, List.map_cons,
                hnext]
              exact hinv.2
            obtain ⟨g', hf, hok', hmap, hframe⟩ := ih (y + 1) _ (by omega) hok1 hinv1
            refine ⟨g', by rw [hc]; exact hf, hok', ?_, ?_⟩
            · have hy' : slotOf g' x y = some (p + 1) := by
                apply slotOf_of_pixel
                · rw [hframe x y (Or.inr (Nat.lt_succ_self y)), setCell_same]
                  exact hocc
                · rw [hframe x y (Or.inr (Nat.lt_succ_self y)), setCell_same]
                  simp only [hpy]
                  push_cast
                  omega
              rw [map_slotOf_congr _ g x (y + 1) (m + 1) hsame] at hmap
              simp only [List.range'_succ, List.map_cons, hnext] at hmap
              rw [hy', hmap]
              simp only [passSlots, passFrom, if_pos hp]
            · intro x' r hr
              rw [hframe x' r (by omega)]
              exact setCell_other _ _ _ _ _ _ (by omega)
          · -- the block moves into the cell below
            have hp2' : p = 2 := by omega
            subst hp2'
            have hpy' : (g x y).y = 50 * (y : Int) + 50 := by rw [hpy]; push_cast; omega
            have hc := compactCell_move g x y hx hy1 hocc hb hpx hpy'
            generalize hg1 : setCell
              (setCell g x (y + 1)
                { occupied := true, x := (g x y).x, y := 50 * ((y : Int) + 1),
                  color := (g x y).color })
              x y { occupied := false, x := (x : Int) * 50, y := (y : Int) * 50,
                    color := Color.black } = g1 at hc
            have h1y : g1 x y = Block.mk false ((x : Int) * 50) ((y : Int) * 50) Color.black := by
              rw [← hg1, setCell_same]
            have h1y1 : g1 x (y + 1) =
                Block.mk true (g x y).x (50 * ((y : Int) + 1)) (g x y).color := by
              rw [← hg1, setCell_other _ _ _ _ _ _ (Or.inr (by omega)), setCell_same]
            have hsame : ∀ r, y + 1 + 1 ≤ r → g1 x r = g x r := by
              intro r hr
              rw [← hg1, setCell_other _ _ _ _ _ _ (Or.inr (by omega)),
                setCell_other _ _ _ _ _ _ (Or.inr (by omega))]
            have hother : ∀ x' r, (x' ≠ x ∨ r < y) → g1 x' r = g x' r := by
              intro x' r hr
              rw [← hg1, setCell_other _ _ _ _ _ _ (by omega),
                setCell_other _ _ _ _ _ _ (by omega)]
            have hok1 : ColumnOk g1 x := by
              intro r hr ho
              by_cases hry : r = y
              · subst hry
                rw [h1y] at ho
                exact absurd ho Bool.false_ne_true
              · by_cases hry1 : r = y + 1
                · subst hry1
                  rw [h1y1]
                  exact ⟨hpx, 0, by omega, by push_cast; omega⟩
                · have hr' : g1 x r = g x r := by
                    rw [← hg1, setCell_other _ _ _ _ _ _ (Or.inr hry),
                      setCell_other _ _ _ _ _ _ (Or.inr hry1)]
                  rw [hr'] at ho ⊢
                  exact hok r hr ho
            have hnext1 : slotOf g1 x (y + 1) = some 0 := by
              apply slotOf_of_pixel
              · rw [h1y1]
              · rw [h1y1]
                push_cast
                omega
            have hmap1 : (List.range' (y + 1) (m + 1)).map (slotOf g1 x) =
                some 0 :: (List.range' (y + 1 + 1) m).map (slotOf g x) := by
              rw [List.range'_succ, List.map_cons, hnext1,
                map_slotOf_congr g1 g x (y + 1 + 1) m hsame]
            have hinv1 : InvSlots ((List.range' (y + 1) (m + 1)).map (slotOf g1 x)) := by
              rw [hmap1]
              exact invSlots_cons_zero _ (invSlots_tail _ _ hinv.2)
            obtain ⟨g', hf, hok', hmap, hframe⟩ := ih (y + 1) g1 (by omega) hok1 hinv1
            refine ⟨g', by rw [hc]; exact hf, hok', ?_, ?_⟩
            · have hy' : slotOf g' x y = none := by
                apply slotOf_free
                rw [hframe x y (Or.inr (Nat.lt_succ_self y)), h1y]
              rw [hmap1] at hmap
              simp only [List.range'_succ, List.map_cons] at hmap
              rw [hy', hmap]
              simp only [passSlots, passFrom, if_neg hp]
            · intro x' r hr
              rw [hframe x' r (by omega)]
              exact hother x' r hr
    · rw [Bool.not_eq_true] at hocc
      exact hskip (compactCell_skip g x y (Or.inl hocc))
        (passFrom_skip _ _ (Or.inl (slotOf_free g x y hocc)))

theorem columnSlots_congr (g1 g : Grid) (x : Nat) (h : ∀ r, g1 x r = g x r) :
    columnSlots g1 x = columnSlots g x := by
  unfold columnSlots
  rw [List.range_eq_range']
  exact map_slotOf_congr g1 g x 0 14 (fun r _ => h r)

theorem columnOk_congr (g1 g : Grid) (x : Nat) (h : ∀ r, g1 x r = g x r)
    (hok : ColumnOk g x) : ColumnOk g1 x := by
  intro r hr ho
  rw [h r] at ho ⊢
  exact hok r hr ho

theorem compactColumn_sim (g : Grid) (x : Nat) (hx : x < 6) (hok : ColumnOk g x)
    (hinv : InvSlots (columnSlots g x)) :
    ∃ g', compactColumn g x = some g' ∧ ColumnOk g' x ∧
      columnSlots g' x = passSlots (columnSlots g x) ∧
      (∀ x' r, x' ≠ x → g' x' r = g x' r) := by
  unfold columnSlots at hinv
  rw [List.range_eq_range'] at hinv
  obtain ⟨g', hf, hok', hmap, hframe⟩ := compactRows_sim x hx 14 0 g rfl hok hinv
  refine ⟨g', ?_, hok', ?_, fun x' r hne => hframe x' r (Or.inl hne)⟩
  · unfold compactColumn
    rw [List.range_eq_range']
    exact hf
  · unfold columnSlots
    rw [List.range_eq_range']
    exact hmap

theorem compactColumns_sim (n : Nat) :
    ∀ (x0 : Nat) (g : Grid), x0 + n = 6 → GridOk g →
      ∃ g', (List.range' x0 n).foldlM compactColumn g = some g' ∧ GridOk g' ∧
        (∀ x, x0 ≤ x → x < 6 → columnSlots g' x = passSlots (columnSlots g x)) ∧
        (∀ x r, x < x0 → g' x r = g x r) := by
  induction n with
  | zero =>
    intro x0 g h6 hok
    exact ⟨g, rfl, hok, fun x h1 h2 => absurd h2 (by omega), fun _ _ _ => rfl⟩
  | succ n ih =>
    intro x0 g h6 hok
    have hx0 : x0 < 6 := by omega
    obtain ⟨g1, hc, hok1, hs1, hf1⟩ := compactColumn_sim g x0 hx0 (hok x0 hx0).1 (hok x0 hx0).2
    have hgok1 : GridOk g1 := by
      intro x hx
      by_cases hxe : x = x0
      · subst hxe
        refine ⟨hok1, ?_⟩
        rw [hs1]
        exact (passSlots_settle _ (hok x hx).2).1
      · refine ⟨columnOk_congr g1 g x (fun r => hf1 x r hxe) (hok x hx).1, ?_⟩
        rw [columnSlots_congr g1 g x (fun r => hf1 x r hxe)]
        exact (hok x hx).2
    obtain ⟨g', hf, hok', hs, hframe⟩ := ih (x0 + 1) g1 (by omega) hgok1
    refine ⟨g', ?_, hok', ?_, ?_⟩
    · rw [List.range'_succ, List.foldlM_cons, hc]
      exact hf
    · intro x hx1 hx2
      by_cases hxe : x = x0
      · subst hxe
        rw [columnSlots_congr g' g1 x (fun r => hframe x r (Nat.lt_succ_self x)), hs1]
      · rw [hs x (by omega) hx2, columnSlots_congr g1 g x (fun r => hf1 x r hxe)]
    · intro x r hx
      rw [hframe x r (by omega), hf1 x r (by omega)]

theorem compactGrid_sim (g : Grid) (hok : GridOk g) :
    ∃ g', compactGrid g = some g' ∧ GridOk g' ∧
      ∀ x < 6, columnSlots g' x = passSlots (columnSlots g x) := by
  obtain ⟨g', hf, hok', hs, _⟩ := compactColumns_sim 6 0 g rfl hok
  refine ⟨g', ?_, hok', fun x hx => hs x (Nat.zero_le x) hx⟩
  unfold compactGrid
  rw [List.range_eq_range']
  exact hf

theorem compactPasses_settle (n : Nat) :
    ∀ g : Grid, GridOk g →
      ∃ g', compactPasses n g = some g' ∧ GridOk g' ∧
        ∀ x < 6, (settleBound (columnSlots g' x)).2 = -3 ∨
          (settleBound (columnSlots g' x)).2 ≤ (settleBound (columnSlots g x)).2 - (n : Int) := by
  induction n with
  | zero =>
    intro g hok
    exact ⟨g, rfl, hok, fun x _ => Or.inr (by simp)⟩
  | succ n ih =>
    intro g hok
    obtain ⟨g1, hc, hok1, hs1⟩ := compactGrid_sim g hok
    obtain ⟨g', hp, hok', hb⟩ := ih g1 hok1
    refine ⟨g', by simp only [compactPasses, hc, Option.some_bind, hp], hok', ?_⟩
    intro x hx
    have hstep := passSlots_settle (columnSlots g x) (hok x hx).2
    have hrange := settleBound_range (columnSlots g' x) (hok' x hx).2
    rcases hb x hx with h3 | h3
    · exact Or.inl h3
    · rw [hs1 x hx] at h3
      by_cases hz : (settleBound (columnSlots g x)).2 = -3
      · rw [hstep.2.1 hz, hz] at h3
        left
        omega
      · have hd := hstep.2.2 hz
        right
        push_cast
        omega

theorem restSlots_rows (f : Nat → Slot) (n : Nat) :
    ∀ y, RestSlots ((List.range' y n).map f) →
      ∀ r, y ≤ r → r + 1 < y + n → f r ≠ none → f (r + 1) ≠ none := by
  induction n with
  | zero => intro y _ r h1 h2; omega
  | succ n ih =>
    intro y hrest r h1 h2
    cases n with
    | zero => omega
    | succ m =>
      simp only [List.range'_succ, List.map_cons] at hrest
      by_cases hry : r = y
      · subst hry
        exact hrest.1
      · have hrest' : RestSlots ((List.range' (y + 1) (m + 1)).map f) := by
          simp only [List.range'_succ, List.map_cons]
          exact hrest.2
        exact ih (y + 1) hrest' r (by omega) (by omega)

theorem atRest_of_restSlots (g : Grid) (h : ∀ x < 6, RestSlots (columnSlots g x)) :
    AtRest g := by
  intro c hc r hr ho
  by_cases h13 : r = 13
  · exact Or.inl h13
  · right
    have hrows := h c hc
    unfold columnSlots at hrows
    rw [List.range_eq_range'] at hrows
    have h1 := restSlots_rows (slotOf g c) 14 0 hrows r (Nat.zero_le r) (by omega)
      (by simp [slotOf, ho])
    by_contra hn
    rw [Bool.not_eq_true] at hn
    exact h1 (slotOf_free g c (r + 1) hn)

theorem gridOk_of_aligned (g : Grid) (h : Aligned g) :
    GridOk g ∧ ∀ x < 6, ∀ c ∈ columnSlots g x, c = none ∨ c = some 0 := by
  have hall : ∀ x < 6, ∀ c ∈ columnSlots g x, c = none ∨ c = some 0 := by
    intro x hx c hc
    unfold columnSlots at hc
    rw [List.mem_map] at hc
    obtain ⟨r, hr, hrc⟩ := hc
    rw [List.mem_range] at hr
    rw [← hrc]
    by_cases ho : (g x r).occupied = true
    · right
      exact slotOf_of_pixel g x r 0 ho (by rw [(h x hx r hr ho).2]; simp)
    · left
      rw [Bool.not_eq_true] at ho
      exact slotOf_free g x r ho
  have hinvl : ∀ l : List Slot, (∀ c ∈ l, c = none ∨ c = some 0) → InvSlots l := by
    intro l
    induction l with
    | nil => intro _; trivial
    | cons c rest ih =>
      intro hl
      have hrest := ih (fun c' hc' => hl c' (List.mem_cons_of_mem c hc'))
      rcases hl c (List.mem_cons_self c rest) with hc | hc
      · subst hc
        exact invSlots_cons_none rest hrest
      · subst hc
        exact invSlots_cons_zero rest hrest
  refine ⟨fun x hx => ⟨?_, hinvl _ (hall x hx)⟩, hall⟩
  intro r hr ho
  exact ⟨(h x hx r hr ho).1, 0, by omega, by rw [(h x hx r hr ho).2]; simp⟩

theorem compactPasses_aligned (g : Grid) (h : Aligned g) :
    ∃ g', compactPasses 39 g = some g' ∧ AtRest g' ∧ compactGrid g' = some g' := by
  obtain ⟨hok, hall⟩ := gridOk_of_aligned g h
  obtain ⟨g', hp, hok', hb⟩ := compactPasses_settle 39 g hok
  have hrest : AtRest g' := by
    apply atRest_of_restSlots
    intro x hx
    apply restSlots_of_settled _ (hok' x hx).2
    have hrange := settleBound_range (columnSlots g' x) (hok' x hx).2
    have hlen : (columnSlots g x).length = 14 := by simp [columnSlots]
    obtain ⟨_, hbound⟩ := settleBound_aligned (columnSlots g x) (hall x hx)
    rw [hlen] at hbound
    rcases hb x hx with h3 | h3
    · exact h3
    · rcases hbound with h4 | ⟨h4, h5⟩
      · rw [h4] at h3
        omega
      · push_cast at h3 h5
        omega
  exact ⟨g', hp, hrest, compactGrid_atRest g' hrest⟩

/-! ### Compaction: convergence -/

theorem blockCompactingInterval_pos : 0 < blockCompactingInterval := by
  unfold blockCompactingInterval
  norm_num

theorem compactTicks_grid (ts : List ℚ) :
    ∀ (s : GameState) (g' : Grid), s.gameOver = false → 0 < s.lastCompactBlocksMove →
      PermittedCompact s.lastCompactBlocksMove ts →
      compactPasses ts.length s.placedBlocks = some g' →
      ∃ s', compactTicks ts s = some s' ∧ s'.placedBlocks = g' := by
  induction ts with
  | nil =>
    intro s g' _ _ _ hg
    simp only [List.length_nil, compactPasses, Option.some.injEq] at hg
    exact ⟨s, rfl, hg⟩
  | cons t ts ih =>
    intro s g' hgo h0 hp hg
    simp only [List.length_cons, compactPasses, Option.bind_eq_some] at hg
    obtain ⟨g1, hg1, hrest⟩ := hg
    have hfire := compactBlocks_fires t s ⟨hgo, h0, hp.1⟩
    have ht0 : 0 < t := by linarith [blockCompactingInterval_pos, hp.1]
    obtain ⟨s', hs', hgrid⟩ := ih
      { s with lastCompactBlocksMove := t, placedBlocks := g1,
               occupiedSlots := resetSlots g1 s.occupiedSlots } g' hgo ht0 hp.2 hrest
    refine ⟨s', ?_, hgrid⟩
    simp only [compactTicks, hfire, compactBlocksFired, hg1, Option.map_some', Option.some_bind]
    exact hs'

theorem permitted_seconds (n : Nat) :
    ∀ (last : ℚ) (k : Nat), last + 1 ≤ 2 + (k : ℚ) →
      PermittedCompact last (List.map (fun k : Nat => 2 + (k : ℚ)) (List.range' k n)) := by
  induction n with
  | zero => intro last k _; exact True.intro
  | succ n ih =>
    intro last k h
    refine ⟨by unfold blockCompactingInterval; linarith, ih _ _ ?_⟩
    push_cast
    linarith

theorem secondsSchedule_permitted (n : Nat) : PermittedCompact 1 (secondsSchedule n) := by
  have h := permitted_seconds n 1 0 (by norm_num)
  rwa [← List.range_eq_range'] at h

theorem secondsSchedule_length (n : Nat) : (secondsSchedule n).length = n := by
  unfold secondsSchedule
  rw [List.length_map, List.length_range]

theorem compaction_settles (s : GameState) (ts : List ℚ) (hal : Aligned s.placedBlocks)
    (hgo : s.gameOver = false) (h0 : 0 < s.lastCompactBlocksMove)
    (hp : PermittedCompact s.lastCompactBlocksMove ts) (hlen : ts.length = 39) :
    ∃ s', compactTicks ts s = some s' ∧
      compactPasses 39 s.placedBlocks = some s'.placedBlocks ∧ AtRest s'.placedBlocks ∧
      ∀ t, ∃ s'', compactBlocks t s' = some s'' ∧ s''.placedBlocks = s'.placedBlocks := by
  obtain ⟨g', hg', hrest, _⟩ := compactPasses_aligned s.placedBlocks hal
  obtain ⟨s', hs', hgrid⟩ := compactTicks_grid ts s g' hgo h0 hp (by rw [hlen]; exact hg')
  subst hgrid
  exact ⟨s', hs', hg', hrest, fun t => compactBlocks_atRest t s' hrest⟩

/-- C8 (as the code has it). For every grid-aligned grid, 39 (= 3 * 13) compaction passes
that fire reach a fixed point: after them every occupied cell is in the bottom row or has
an occupied cell directly below it, and a further call of `compactBlocks` changes no cell
(a block needs up to three passes to enter the next row, so 14 passes are not enough). -/
theorem compaction_converges (s : GameState) (ts : List ℚ) (hal : Aligned s.placedBlocks)
    (hgo : s.gameOver = false) (h0 : 0 < s.lastCompactBlocksMove)
    (hp : PermittedCompact s.lastCompactBlocksMove ts) (hlen : ts.length = 39) :
    ∃ s', compactTicks ts s = some s' ∧
      compactPasses 39 s.placedBlocks = some s'.placedBlocks ∧ AtRest s'.placedBlocks ∧
      ∀ t, ∃ s'', compactBlocks t s' = some s'' ∧ s''.placedBlocks = s'.placedBlocks :=
  compaction_settles s ts hal hgo h0 hp hlen

theorem aligned_gridOf_single : Aligned (gridOf [(0, 0, Color.red)]) := by
  unfold Aligned
  decide

theorem compaction_converges_witness :
    ∃ s', compactTicks (secondsSchedule 39) (stateOf (gridOf [(0, 0, Color.red)])) = some s' ∧
      AtRest s'.placedBlocks := by
  obtain ⟨s', hs', _, hrest, _⟩ := compaction_converges (stateOf (gridOf [(0, 0, Color.red)]))
    (secondsSchedule 39) aligned_gridOf_single rfl (by show (0 : ℚ) < 1; norm_num)
    (secondsSchedule_permitted 39) (secondsSchedule_length 39)
  exact ⟨s', hs', hrest⟩

theorem compactPasses_single_14 :
    ∃ g', compactPasses 14 (gridOf [(0, 0, Color.red)]) = some g' ∧
      ((g' 0 6).occupied = true ∧ (g' 0 7).occupied = false) := by
  apply exists_of_optCheck
  decide

/-- C8 as stated fails: the grid whose only block is at `(0, 0)` is grid-aligned, and after
14 compaction passes that fire the block is in row 6 with a free cell below it. -/
theorem compaction_14_counterexample :
    Aligned (stateOf (gridOf [(0, 0, Color.red)])).placedBlocks ∧
      PermittedCompact (stateOf (gridOf [(0, 0, Color.red)])).lastCompactBlocksMove
        (secondsSchedule 14) ∧
      ∃ s', compactTicks (secondsSchedule 14) (stateOf (gridOf [(0, 0, Color.red)])) = some s' ∧
        ¬ AtRest s'.placedBlocks := by
  obtain ⟨g', hg', h6, h7⟩ := compactPasses_single_14
  obtain ⟨s', hs', hgrid⟩ := compactTicks_grid (secondsSchedule 14)
    (stateOf (gridOf [(0, 0, Color.red)])) g' rfl (by show (0 : ℚ) < 1; norm_num)
    (secondsSchedule_permitted 14) (by rw [secondsSchedule_length]; exact hg')
  refine ⟨aligned_gridOf_single, secondsSchedule_permitted 14, s', hs', ?_⟩
  intro hrest
  rw [hgrid] at hrest
  rcases hrest 0 (by decide) 6 (by decide) h6 with h | h
  · exact absurd h (by decide)
  · rw [h7] at h
    exact Bool.false_ne_true h

/-- The bound 39 is reached: thirteen stacked blocks in rows 0 to 12 of column 0 form a
grid-aligned grid that is not at rest after 38 passes (the top block has not moved yet). -/
theorem compactPasses_stack_38 :
    ∃ g', compactPasses 38 (gridOf [(0, 0, Color.red), (0, 1, Color.green), (0, 2, Color.red),
        (0, 3, Color.green), (0, 4, Color.red), (0, 5, Color.green), (0, 6, Color.red),
        (0, 7, Color.green), (0, 8, Color.red), (0, 9, Color.green), (0, 10, Color.red),
        (0, 11, Color.green), (0, 12, Color.red)]) = some g' ∧
      ((g' 0 0).occupied = true ∧ (g' 0 1).occupied = false) := by
  apply exists_of_optCheck
  decide

/-! ### Three-cell runs -/

theorem scanOrigin_free (g : Grid) (x y : Nat) (h : (g x y).occupied = false) :
    scanOrigin g x y = some g := by
  simp [scanOrigin, h]

theorem scanColumn_free (g : Grid) (x : Nat) (h : ∀ y < 14, (g x y).occupied = false) :
    scanColumn g x = some g := by
  unfold scanColumn
  apply foldlM_fixed
  intro y hy
  exact scanOrigin_free g x y (h y (List.mem_range.mp hy))

theorem range_split (n k : Nat) (hk : k < n) :
    List.range n = List.range' 0 k ++ k :: List.range' (k + 1) (n - k - 1) := by
  rw [List.range_eq_range', ← List.range'_succ]
  have h := List.range'_append_1 0 k (n - k - 1 + 1)
  simp only [Nat.zero_add] at h
  rw [h]
  congr 1
  omega

theorem scanColumn_single (g g' : Grid) (x0 y0 : Nat) (hy : y0 < 14)
    (hbefore : ∀ y < y0, (g x0 y).occupied = false)
    (hscan : scanOrigin g x0 y0 = some g')
    (hafter : ∀ y < 14, (g' x0 y).occupied = false) : scanColumn g x0 = some g' := by
  unfold scanColumn
  rw [range_split 14 y0 hy, List.foldlM_append]
  have h1 : (List.range' 0 y0).foldlM (fun g' y => scanOrigin g' x0 y) g = some g := by
    apply foldlM_fixed
    intro y hyy
    exact scanOrigin_free g x0 y (hbefore y (by
      have := (List.mem_range'_1.mp hyy).2
      omega))
  rw [h1]
  show (List.foldlM (fun g' y => scanOrigin g' x0 y) g
    (y0 :: List.range' (y0 + 1) (14 - y0 - 1))) = some g'
  rw [List.foldlM_cons, hscan]
  apply foldlM_fixed
  intro y hyy
  exact scanOrigin_free g' x0 y (hafter y (by
    have := (List.mem_range'_1.mp hyy).2
    omega))

theorem clearAndScore_single (g g' : Grid) (x0 y0 : Nat) (hx : x0 < 6) (hy : y0 < 14)
    (hbefore : ∀ x < 6, ∀ y < 14, (x < x0 ∨ (x = x0 ∧ y < y0)) → (g x y).occupied = false)
    (hscan : scanOrigin g x0 y0 = some g')
    (hafter : ∀ x < 6, ∀ y < 14, (g' x y).occupied = false) : clearAndScore g = some g' := by
  unfold clearAndScore
  rw [range_split 6 x0 hx, List.foldlM_append]
  have h1 : (List.range' 0 x0).foldlM scanColumn g = some g := by
    apply foldlM_fixed
    intro x hxx
    have hlt := (List.mem_range'_1.mp hxx).2
    exact scanColumn_free g x (fun y hyy => hbefore x (by omega) y hyy (Or.inl (by omega)))
  rw [h1]
  show (List.foldlM scanColumn g (x0 :: List.range' (x0 + 1) (6 - x0 - 1))) = some g'
  rw [List.foldlM_cons, scanColumn_single g g' x0 y0 hy
    (fun y hyy => hbefore x0 hx y (by omega) (Or.inr ⟨rfl, hyy⟩)) hscan (hafter x0 hx)]
  apply foldlM_fixed
  intro x hxx
  have hlt := (List.mem_range'_1.mp hxx).2
  exact scanColumn_free g' x (hafter x (by omega))

theorem clearEntry_cell (g : Grid) (p : Nat × Nat) (hc : p.1 < 6) (hr : p.2 < 14) :
    clearEntry g (50 * (p.1 : Int), 50 * (p.2 : Int)) = some (clearCell g p) := by
  have h1 : (50 * (p.1 : Int)).tdiv BLOCK_WIDTH = (p.1 : Int) := by
    rw [Int.mul_comm, Int.mul_tdiv_cancel _ (by decide)]
  have h2 : (50 * (p.2 : Int)).tdiv BLOCK_HEIGHT = (p.2 : Int) := by
    rw [Int.mul_comm, Int.mul_tdiv_cancel _ (by decide)]
  have h3 : (0 : Int) ≤ 50 * (p.1 : Int) ∧ (0 : Int) ≤ 50 * (p.2 : Int) := by
    constructor <;> omega
  simp only [clearEntry, h3, and_self, if_true, h1, h2, modifyBlock,
    inObject_of_lt p.1 p.2 hc hr, cellCol_of_lt p.1 p.2 hr, cellRow_of_lt p.1 p.2 hr, clearCell]

theorem clearCell_occupied (g : Grid) (p : Nat × Nat) (x y : Nat)
    (h : (clearCell g p x y).occupied = true) : (g x y).occupied = true ∧ (x, y) ≠ p := by
  unfold clearCell at h
  by_cases hp : x = p.1 ∧ y = p.2
  · obtain ⟨rfl, rfl⟩ := hp
    rw [setCell_same] at h
    exact absurd h Bool.false_ne_true
  · rw [setCell_other _ _ _ _ _ _ (by tauto)] at h
    exact ⟨h, fun he => hp ⟨congrArg Prod.fst he, congrArg Prod.snd he⟩⟩

theorem clearCell_other (g : Grid) (p : Nat × Nat) (x y : Nat) (h : (x, y) ≠ p) :
    clearCell g p x y = g x y := by
  unfold clearCell
  apply setCell_other
  by_contra hcon
  push_neg at hcon
  exact h (by rw [hcon.1, hcon.2])

theorem clearLine_nil (g : Grid) (block : Block) : clearLine g block [] = some g := by
  simp [clearLine]

theorem clearLines_lineLists (g : Grid) (block : Block) (axis : Nat) (l : List (Int × Int)) :
    clearLines g block (lineLists axis l) = clearLine g block l := by
  unfold clearLines lineLists
  split <;> simp [clearLine_nil]

theorem clearLine_pair (g : Grid) (block : Block) (a b c : Nat × Nat)
    (ha : a.1 < 6 ∧ a.2 < 14) (hb : b.1 < 6 ∧ b.2 < 14) (hc : c.1 < 6 ∧ c.2 < 14)
    (hx : block.x = 50 * (a.1 : Int)) (hy : block.y = 50 * (a.2 : Int)) :
    clearLine g block [(50 * (b.1 : Int), 50 * (b.2 : Int)),
        (50 * (c.1 : Int), 50 * (c.2 : Int))] =
      some (clearCell (clearCell (clearCell g b) c) a) := by
  have h3 : BLOCKS_TO_MATCH ≤ ((-1, -1) :: [(50 * (b.1 : Int), 50 * (b.2 : Int)),
      (50 * (c.1 : Int), 50 * (c.2 : Int))]).length := Nat.le_refl 3
  have hskip : ∀ g0 : Grid, clearEntry g0 (-1, -1) = some g0 := by
    intro g0
    simp [clearEntry]
  simp only [clearLine, h3, if_true, List.cons_append, List.nil_append, clearEntries, hskip,
    Option.some_bind, clearEntry_cell _ b hb.1 hb.2, clearEntry_cell _ c hc.1 hc.2,
    hx, hy, clearEntry_cell _ a ha.1 ha.2]

theorem cell_beq_false (p : Nat × Nat) (x y : Nat) (h : (x, y) ≠ p) :
    (p.1 == x && p.2 == y) = false := by
  by_contra hcon
  rw [Bool.not_eq_false, Bool.and_eq_true, beq_iff_eq, beq_iff_eq] at hcon
  exact h (by rw [← hcon.1, ← hcon.2])

theorem runGrid_origin (col : Color) (a b c : Nat × Nat) :
    runGrid col a b c a.1 a.2 =
      { occupied := true, x := 50 * (a.1 : Int), y := 50 * (a.2 : Int), color := col } := by
  simp [runGrid, gridOf, List.find?]

theorem runGrid_free (col : Color) (a b c : Nat × Nat) (x y : Nat) (ha : (x, y) ≠ a)
    (hb : (x, y) ≠ b) (hc : (x, y) ≠ c) :
    runGrid col a b c x y =
      { occupied := false, x := 50 * (x : Int), y := 50 * (y : Int), color := Color.black } := by
  simp only [runGrid, gridOf, List.find?, cell_beq_false a x y ha, cell_beq_false b x y hb,
    cell_beq_false c x y hc]

theorem runCleared_of_walks (col : Color) (axis : Nat) (a b c : Nat × Nat)
    (ha : a.1 < 6 ∧ a.2 < 14) (hb : b.1 < 6 ∧ b.2 < 14) (hc : c.1 < 6 ∧ c.2 < 14)
    (hab : a.1 < b.1 ∨ (a.1 = b.1 ∧ a.2 ≤ b.2)) (hac : a.1 < c.1 ∨ (a.1 = c.1 ∧ a.2 ≤ c.2))
    (hw : walksOk col axis a b c = true) : RunCleared col a b c := by
  have horigin := runGrid_origin col a b c
  have hwalks : originWalks (runGrid col a b c) (runGrid col a b c a.1 a.2) =
      some (lineLists axis [(50 * (b.1 : Int), 50 * (b.2 : Int)),
        (50 * (c.1 : Int), 50 * (c.2 : Int))]) := of_decide_eq_true hw
  have hscan : scanOrigin (runGrid col a b c) a.1 a.2 =
      some (clearCell (clearCell (clearCell (runGrid col a b c) b) c) a) := by
    unfold scanOrigin
    rw [hwalks]
    have ho : (runGrid col a b c a.1 a.2).occupied = true := by rw [horigin]
    simp only [ho, Bool.not_true, Bool.false_eq_true, if_false, Option.some_bind,
      clearLines_lineLists]
    exact clearLine_pair _ _ a b c ha hb hc (by rw [horigin]) (by rw [horigin])
  have hfree : ∀ x y, (clearCell (clearCell (clearCell (runGrid col a b c) b) c) a x y).occupied
      = false := by
    intro x y
    by_contra ho
    rw [Bool.not_eq_false] at ho
    obtain ⟨h1, hna⟩ := clearCell_occupied _ a x y ho
    obtain ⟨h2, hnc⟩ := clearCell_occupied _ c x y h1
    obtain ⟨h3, hnb⟩ := clearCell_occupied _ b x y h2
    rw [runGrid_free col a b c x y hna hnb hnc] at h3
    exact Bool.false_ne_true h3
  refine ⟨_, clearAndScore_single _ _ a.1 a.2 ha.1 ha.2 ?_ hscan (fun x _ y _ => hfree x y),
    hfree _ _, hfree _ _, hfree _ _, ?_⟩
  · intro x _ y _ hbefore
    have hna : (x, y) ≠ a := by
      intro he
      have h1 := congrArg Prod.fst he
      have h2 := congrArg Prod.snd he
      simp only at h1 h2
      omega
    have hnb : (x, y) ≠ b := by
      intro he
      have h1 := congrArg Prod.fst he
      have h2 := congrArg Prod.snd he
      simp only at h1 h2
      omega
    have hnc : (x, y) ≠ c := by
      intro he
      have h1 := congrArg Prod.fst he
      have h2 := congrArg Prod.snd he
      simp only at h1 h2
      omega
    rw [runGrid_free col a b c x y hna hnb hnc]
  · intro x y hna hnb hnc
    rw [clearCell_other _ a x y hna, clearCell_other _ c x y hnc, clearCell_other _ b x y hnb]

theorem runGrid_cases (col : Color) (a b c : Nat × Nat) (x y : Nat) :
    runGrid col a b c x y =
      if ((a.1 == x && a.2 == y) || (b.1 == x && b.2 == y) || (c.1 == x && c.2 == y)) = true
      then { occupied := true, x := 50 * (x : Int), y := 50 * (y : Int), color := col }
      else { occupied := false, x := 50 * (x : Int), y := 50 * (y : Int),
             color := Color.black } := by
  simp only [runGrid, gridOf, List.find?]
  cases (a.1 == x && a.2 == y) <;> cases (b.1 == x && b.2 == y) <;>
    cases (c.1 == x && c.2 == y) <;> rfl

theorem matchWalk_recolor (g1 g2 : Grid) (c1 c2 : Color) (inb : Int → Int → Bool) (dx dy : Int)
    (h : ∀ x y, (g1 x y).occupied = (g2 x y).occupied ∧ (g1 x y).x = (g2 x y).x ∧
      (g1 x y).y = (g2 x y).y ∧
      ((g1 x y).occupied = true → (g1 x y).color = c1 ∧ (g2 x y).color = c2)) :
    ∀ fuel cx cy, matchWalk g1 c1 inb dx dy fuel cx cy = matchWalk g2 c2 inb dx dy fuel cx cy := by
  intro fuel
  induction fuel with
  | zero => intro cx cy; rfl
  | succ n ih =>
    intro cx cy
    simp only [matchWalk, readBlock]
    by_cases hin : inb (cx + dx) (cy + dy) = true
    · by_cases hobj : inObject (cx + dx) (cy + dy) = true
      · simp only [hin, hobj, if_true]
        obtain ⟨ho, hx, hy, hcol⟩ :=
          h (cellCol (cx + dx) (cy + dy)) (cellRow (cx + dx) (cy + dy))
        by_cases hocc : (g1 (cellCol (cx + dx) (cy + dy)) (cellRow (cx + dx) (cy + dy))).occupied
            = true
        · have hocc2 := ho ▸ hocc
          simp only [hocc, hocc2, (hcol hocc).1, (hcol hocc).2, decide_True, Bool.and_self,
            if_true, ih, hx, hy]
        · rw [Bool.not_eq_true] at hocc
          have hocc2 := ho ▸ hocc
          simp only [hocc, hocc2, Bool.false_and, Bool.false_eq_true, if_false]
      · simp [hin, hobj]
    · simp [hin]

theorem walksOk_recolor (col : Color) (axis : Nat) (a b c : Nat × Nat) :
    walksOk col axis a b c = walksOk Color.red axis a b c := by
  have hrel : ∀ x y, (runGrid col a b c x y).occupied = (runGrid Color.red a b c x y).occupied ∧
      (runGrid col a b c x y).x = (runGrid Color.red a b c x y).x ∧
      (runGrid col a b c x y).y = (runGrid Color.red a b c x y).y ∧
      ((runGrid col a b c x y).occupied = true →
        (runGrid col a b c x y).color = col ∧ (runGrid Color.red a b c x y).color = Color.red) := by
    intro x y
    rw [runGrid_cases col, runGrid_cases Color.red]
    split_ifs
    · exact ⟨rfl, rfl, rfl, fun _ => ⟨rfl, rfl⟩⟩
    · exact ⟨rfl, rfl, rfl, fun h => by simp at h⟩
  have hw := fun inb dx dy =>
    matchWalk_recolor (runGrid col a b c) (runGrid Color.red a b c) col Color.red inb dx dy hrel
  have heq : originWalks (runGrid col a b c) (runGrid col a b c a.1 a.2) =
      originWalks (runGrid Color.red a b c) (runGrid Color.red a b c a.1 a.2) := by
    simp only [originWalks, runGrid_origin, hw]
  unfold walksOk
  rw [heq]

theorem walks_horizontal (col : Color) : ∀ c < 4, ∀ r < 14,
    walksOk col 0 (c, r) (c + 1, r) (c + 2, r) = true := by
  simp only [walksOk_recolor col]
  decide!

theorem walks_vertical (col : Color) : ∀ c < 6, ∀ r < 12, ¬ (c = 5 ∧ r = 11) →
    walksOk col 1 (c, r) (c, r + 1) (c, r + 2) = true := by
  simp only [walksOk_recolor col]
  decide!

theorem walks_forward (col : Color) : ∀ c < 4, ∀ r < 12,
    walksOk col 2 (c, r + 2) (c + 1, r + 1) (c + 2, r) = true := by
  simp only [walksOk_recolor col]
  decide!

theorem walks_backward (col : Color) : ∀ c < 4, ∀ r < 12,
    walksOk col 3 (c, r) (c + 1, r + 1) (c + 2, r + 2) = true := by
  simp only [walksOk_recolor col]
  decide!

/-- Where C1 holds: for every colour, a grid whose only occupied cells are three adjacent
collinear grid-aligned cells of that colour is cleared by `clearAndScore` (the three cells
end unoccupied, every other cell is unchanged) at every position of the horizontal axis,
of both diagonals, and of the vertical axis except the run `(5,11)`, `(5,12)`, `(5,13)`. -/
theorem clearAndScore_three_cell_runs (col : Color) :
    (∀ c < 4, ∀ r < 14, RunCleared col (c, r) (c + 1, r) (c + 2, r)) ∧
      (∀ c < 6, ∀ r < 12, ¬ (c = 5 ∧ r = 11) → RunCleared col (c, r) (c, r + 1) (c, r + 2)) ∧
      (∀ c < 4, ∀ r < 12, RunCleared col (c, r + 2) (c + 1, r + 1) (c + 2, r)) ∧
      (∀ c < 4, ∀ r < 12, RunCleared col (c, r) (c + 1, r + 1) (c + 2, r + 2)) := by
  refine ⟨?_, ?_, ?_, ?_⟩
  · intro c hc r hr
    exact runCleared_of_walks col 0 _ _ _ ⟨by omega, hr⟩ ⟨by omega, hr⟩ ⟨by omega, hr⟩
      (Or.inl (by simp)) (Or.inl (by simp)) (walks_horizontal col c hc r hr)
  · intro c hc r hr hne
    exact runCleared_of_walks col 1 _ _ _ ⟨hc, by omega⟩ ⟨hc, by omega⟩ ⟨hc, by omega⟩
      (Or.inr ⟨rfl, by simp⟩) (Or.inr ⟨rfl, by simp⟩) (walks_vertical col c hc r hr hne)
  · intro c hc r hr
    exact runCleared_of_walks col 2 _ _ _ ⟨by omega, by omega⟩ ⟨by omega, by omega⟩
      ⟨by omega, by omega⟩ (Or.inl (by simp)) (Or.inl (by simp)) (walks_forward col c hc r hr)
  · intro c hc r hr
    exact runCleared_of_walks col 3 _ _ _ ⟨by omega, by omega⟩ ⟨by omega, by omega⟩
      ⟨by omega, by omega⟩ (Or.inl (by simp)) (Or.inl (by simp)) (walks_backward col c hc r hr)

/-! ### Reachable states: the offset of the bottom falling cell -/

theorem shiftBlockLeft_y (slots : Nat → Int) (y2 : Int) (b b' : Block)
    (h : shiftBlockLeft slots y2 b = some b') : b'.y = b.y := by
  unfold shiftBlockLeft at h
  simp only at h
  split at h
  · simp only [Option.some.injEq] at h
    rw [← h]
  · rw [Option.map_eq_some'] at h
    obtain ⟨v, _, hv⟩ := h
    rw [← hv]
    split <;> rfl

theorem shiftBlockRight_y (slots : Nat → Int) (y2 : Int) (b b' : Block)
    (h : shiftBlockRight slots y2 b = some b') : b'.y = b.y := by
  unfold shiftBlockRight at h
  simp only at h
  split at h
  · simp only [Option.some.injEq] at h
    rw [← h]
  · rw [Option.map_eq_some'] at h
    obtain ⟨v, _, hv⟩ := h
    rw [← hv]
    split <;> rfl

theorem moveColumnLeft_bottom (s s' : GameState) (h : moveColumnLeft s = some s') :
    s'.columnBlocks.b2.y = s.columnBlocks.b2.y := by
  unfold moveColumnLeft at h
  split at h
  · simp only [Option.some.injEq] at h
    rw [← h]
  · simp only [Option.bind_eq_some, Option.map_eq_some'] at h
    obtain ⟨c0, _, c1, _, c2, h2, hs⟩ := h
    rw [← hs]
    exact shiftBlockLeft_y _ _ _ _ h2

theorem moveColumnRight_bottom (s s' : GameState) (h : moveColumnRight s = some s') :
    s'.columnBlocks.b2.y = s.columnBlocks.b2.y := by
  unfold moveColumnRight at h
  split at h
  · simp only [Option.some.injEq] at h
    rw [← h]
  · simp only [Option.bind_eq_some, Option.map_eq_some'] at h
    obtain ⟨c0, _, c1, _, c2, h2, hs⟩ := h
    rw [← hs]
    exact shiftBlockRight_y _ _ _ _ h2

theorem compactBlocks_column (t : ℚ) (s s' : GameState) (h : compactBlocks t s = some s') :
    s'.columnBlocks = s.columnBlocks := by
  have key : ∀ s1 : GameState, s1.columnBlocks = s.columnBlocks →
      (if t - s1.lastCompactBlocksMove < blockCompactingInterval then some s1
        else compactBlocksFired t s1) = some s' → s'.columnBlocks = s.columnBlocks := by
    intro s1 h1 h2
    split at h2
    · simp only [Option.some.injEq] at h2
      rw [← h2]
      exact h1
    · unfold compactBlocksFired at h2
      rw [Option.map_eq_some'] at h2
      obtain ⟨g, _, hg⟩ := h2
      rw [← hg]
      exact h1
  unfold compactBlocks at h
  split at h
  · simp only [Option.some.injEq] at h
    rw [← h]
  · exact key _ (by split <;> rfl) h

theorem moveColumnDownFired_bottom (d : Draws) (t : ℚ) (s s' : GameState)
    (h : moveColumnDownFired d t s = some s')
    (hm : ∃ m : Nat, s.columnBlocks.b2.y = 25 * (m : Int)) :
    ∃ m : Nat, s'.columnBlocks.b2.y = 25 * (m : Int) := by
  obtain ⟨m, hm⟩ := hm
  unfold moveColumnDownFired at h
  simp only [Option.bind_eq_some] at h
  obtain ⟨slot, _, h⟩ := h
  split at h
  · simp only [Option.bind_eq_some, Option.map_eq_some'] at h
    obtain ⟨r, hr, g, _, hs⟩ := h
    have hal := landColumn_aligned _ _ _ _ _ _ hr
    split at hs
    · rw [← hs]
      simp only [hal, alignBlock, hm, BLOCK_HEIGHT]
      rw [Int.tdiv_eq_ediv (by omega) (by decide)]
      exact ⟨2 * (m / 2), by push_cast; omega⟩
    · rw [← hs]
      exact ⟨0, by simp [spawnColumn, spawnBlock]⟩
  · simp only [Option.some.injEq] at h
    rw [← h]
    exact ⟨m + 1, by simp only [hm]; push_cast; omega⟩

theorem step_bottom (e : Event) (s s' : GameState) (h : step e s = some s')
    (hm : ∃ m : Nat, s.columnBlocks.b2.y = 25 * (m : Int)) :
    ∃ m : Nat, s'.columnBlocks.b2.y = 25 * (m : Int) := by
  cases e with
  | left => rw [moveColumnLeft_bottom s s' h]; exact hm
  | right => rw [moveColumnRight_bottom s s' h]; exact hm
  | rotate =>
    simp only [step, Option.some.injEq] at h
    rw [← h]
    unfold shiftColumnColors
    split <;> exact hm
  | compact t => rw [compactBlocks_column t s s' h]; exact hm
  | down d t =>
    have key : ∀ s1 : GameState, s1.columnBlocks = s.columnBlocks →
        (if t - s1.lastColumnDownMove < columnDownInterval then some s1
          else moveColumnDownFired d t s1) = some s' →
        ∃ m : Nat, s'.columnBlocks.b2.y = 25 * (m : Int) := by
      intro s1 h1 h2
      split at h2
      · simp only [Option.some.injEq] at h2
        rw [← h2, h1]
        exact hm
      · exact moveColumnDownFired_bottom d t s1 s' h2 (by rw [h1]; exact hm)
    simp only [step, moveColumnDown] at h
    split at h
    · simp only [Option.some.injEq] at h
      rw [← h]
      exact hm
    · exact key _ (by split <;> rfl) h

/-- In every state reached from `initGameState` and `spawnColumn` through the calls of the
main loop, the pixel offset of the bottom falling cell is a non-negative multiple of 25, so
that cell is in a grid row `k` at offset `50 * k` or `50 * k + 25`. -/
theorem reachable_bottom_offset (es : List Event) :
    ∀ (s s' : GameState), (∃ m : Nat, s.columnBlocks.b2.y = 25 * (m : Int)) →
      run es s = some s' →
      ∃ k : Nat, s'.columnBlocks.b2.y = 50 * (k : Int) ∨
        s'.columnBlocks.b2.y = 50 * (k : Int) + 25 := by
  induction es with
  | nil =>
    intro s s' hm h
    simp only [run, Option.some.injEq] at h
    rw [← h]
    obtain ⟨m, hm⟩ := hm
    exact ⟨m / 2, by omega⟩
  | cons e es ih =>
    intro s s' hm h
    simp only [run, Option.bind_eq_some] at h
    obtain ⟨s1, h1, h2⟩ := h
    exact ih s1 s' (step_bottom e s s1 h1 hm) h2

theorem spawn_bottom_offset (d : Draws) (s : GameState) :
    ∃ m : Nat, (spawnColumn d s).columnBlocks.b2.y = 25 * (m : Int) :=
  ⟨0, by simp [spawnColumn, spawnBlock]⟩

/-! ### Colour rotation, spawn, plain down-move -/

/-- C14 (as the code has it). With the game not over, `shiftColumnColors` moves cell 0's
colour to cell 1, cell 1's colour to cell 2 and cell 2's colour to cell 0 (new colours =
(old2, old0, old1)): each colour goes one cell down the column and the bottom one wraps to
the top.  The x and y offsets and the occupied flag of every cell, the grid,
`occupiedSlots`, both timers and `gameOver` are unchanged. -/
theorem shiftColumnColors_rotates (s : GameState) (h : s.gameOver = false) :
    (shiftColumnColors s).columnBlocks.b0.color = s.columnBlocks.b2.color ∧
      (shiftColumnColors s).columnBlocks.b1.color = s.columnBlocks.b0.color ∧
      (shiftColumnColors s).columnBlocks.b2.color = s.columnBlocks.b1.color ∧
      (shiftColumnColors s).columnBlocks.b0.x = s.columnBlocks.b0.x ∧
      (shiftColumnColors s).columnBlocks.b1.x = s.columnBlocks.b1.x ∧
      (shiftColumnColors s).columnBlocks.b2.x = s.columnBlocks.b2.x ∧
      (shiftColumnColors s).columnBlocks.b0.y = s.columnBlocks.b0.y ∧
      (shiftColumnColors s).columnBlocks.b1.y = s.columnBlocks.b1.y ∧
      (shiftColumnColors s).columnBlocks.b2.y = s.columnBlocks.b2.y ∧
      (shiftColumnColors s).columnBlocks.b0.occupied = s.columnBlocks.b0.occupied ∧
      (shiftColumnColors s).columnBlocks.b1.occupied = s.columnBlocks.b1.occupied ∧
      (shiftColumnColors s).columnBlocks.b2.occupied = s.columnBlocks.b2.occupied ∧
      (shiftColumnColors s).placedBlocks = s.placedBlocks ∧
      (shiftColumnColors s).occupiedSlots = s.occupiedSlots ∧
      (shiftColumnColors s).lastColumnDownMove = s.lastColumnDownMove ∧
      (shiftColumnColors s).lastCompactBlocksMove = s.lastCompactBlocksMove ∧
      (shiftColumnColors s).gameOver = s.gameOver := by
  unfold shiftColumnColors
  simp only [h, Bool.false_eq_true, if_false, and_self]

theorem shiftColumnColors_rotates_witness :
    (shiftColumnColors (columnState (columnOf 100 0 Color.red Color.green
        Color.blue))).columnBlocks.b0.color = Color.blue ∧
      (shiftColumnColors (columnState (columnOf 100 0 Color.red Color.green
        Color.blue))).columnBlocks.b1.color = Color.red ∧
      (shiftColumnColors (columnState (columnOf 100 0 Color.red Color.green
        Color.blue))).columnBlocks.b2.color = Color.green :=
  have h := shiftColumnColors_rotates
    (columnState (columnOf 100 0 Color.red Color.green Color.blue)) rfl
  ⟨h.1, h.2.1, h.2.2.1⟩

/-- C14 as stated fails: with the game not over and the colours (red, green, blue) on cells
0, 1, 2, `shiftColumnColors` does not produce (green, blue, red); cell 0 ends blue (the old
colour of cell 2), not green. -/
theorem shiftColumnColors_counterexample :
    (columnState (columnOf 100 0 Color.red Color.green Color.blue)).gameOver = false ∧
      (shiftColumnColors (columnState (columnOf 100 0 Color.red Color.green
        Color.blue))).columnBlocks.b0.color = Color.blue ∧
      ¬ ((shiftColumnColors (columnState (columnOf 100 0 Color.red Color.green
          Color.blue))).columnBlocks.b0.color = Color.green ∧
        (shiftColumnColors (columnState (columnOf 100 0 Color.red Color.green
          Color.blue))).columnBlocks.b1.color = Color.blue ∧
        (shiftColumnColors (columnState (columnOf 100 0 Color.red Color.green
          Color.blue))).columnBlocks.b2.color = Color.red) := by
  decide

/-- C15. Whatever the random draws, after `spawnColumn` the three falling cells share one
x-offset `BLOCK_WIDTH * c` with `c` a grid column (`c < 6`), and cells 0, 1, 2 have
y-offsets `(i - 2) * BLOCK_HEIGHT`, that is -100, -50, 0.  All three cells are occupied. -/
theorem spawnColumn_offsets (d : Draws) (s : GameState) :
    (∃ c : Nat, c < 6 ∧ (spawnColumn d s).columnBlocks.b0.x = BLOCK_WIDTH * (c : Int) ∧
        (spawnColumn d s).columnBlocks.b1.x = BLOCK_WIDTH * (c : Int) ∧
        (spawnColumn d s).columnBlocks.b2.x = BLOCK_WIDTH * (c : Int)) ∧
      (spawnColumn d s).columnBlocks.b0.y = (0 - 2) * BLOCK_HEIGHT ∧
      (spawnColumn d s).columnBlocks.b1.y = (1 - 2) * BLOCK_HEIGHT ∧
      (spawnColumn d s).columnBlocks.b2.y = (2 - 2) * BLOCK_HEIGHT ∧
      (spawnColumn d s).columnBlocks.b0.y = -100 ∧
      (spawnColumn d s).columnBlocks.b1.y = -50 ∧
      (spawnColumn d s).columnBlocks.b2.y = 0 ∧
      (spawnColumn d s).columnBlocks.b0.occupied = true ∧
      (spawnColumn d s).columnBlocks.b1.occupied = true ∧
      (spawnColumn d s).columnBlocks.b2.occupied = true := by
  refine ⟨⟨d.rx % 5, by omega, ?_, ?_, ?_⟩, rfl, rfl, rfl, rfl, rfl, rfl, rfl, rfl, rfl⟩ <;>
  · show ((d.rx % 5 : Nat) : Int) * 50 = 50 * ((d.rx % 5 : Nat) : Int)
    ring

/-- C16. On a down-tick that passes the rate limiter, with the falling column in a grid
column (`occupiedSlots[gridX]` is a defined read) and the landing test failing,
`moveColumnDown` returns a state in which the y-offset of each of the 3 falling cells is
25 larger, their x-offsets, colours and occupied flags are as before, and the grid,
`occupiedSlots`, `gameOver` and the compaction timer are unchanged; only
`lastColumnDownMove` is set to the time of the call. -/
theorem moveColumnDown_plain (d : Draws) (t : ℚ) (s : GameState) (hf : DownFires t s)
    (hx : 0 ≤ downGridX s ∧ downGridX s < GRID_BLOCK_WIDTH)
    (hl : landingTest s (s.occupiedSlots (downGridX s).toNat) = false) :
    ∃ s', moveColumnDown d t s = some s' ∧
      s'.columnBlocks.b0.y = s.columnBlocks.b0.y + 25 ∧
      s'.columnBlocks.b1.y = s.columnBlocks.b1.y + 25 ∧
      s'.columnBlocks.b2.y = s.columnBlocks.b2.y + 25 ∧
      s'.columnBlocks.b0.x = s.columnBlocks.b0.x ∧
      s'.columnBlocks.b1.x = s.columnBlocks.b1.x ∧
      s'.columnBlocks.b2.x = s.columnBlocks.b2.x ∧
      s'.columnBlocks.b0.color = s.columnBlocks.b0.color ∧
      s'.columnBlocks.b1.color = s.columnBlocks.b1.color ∧
      s'.columnBlocks.b2.color = s.columnBlocks.b2.color ∧
      s'.columnBlocks.b0.occupied = s.columnBlocks.b0.occupied ∧
      s'.columnBlocks.b1.occupied = s.columnBlocks.b1.occupied ∧
      s'.columnBlocks.b2.occupied = s.columnBlocks.b2.occupied ∧
      s'.placedBlocks = s.placedBlocks ∧ s'.occupiedSlots = s.occupiedSlots ∧
      s'.gameOver = s.gameOver ∧ s'.lastCompactBlocksMove = s.lastCompactBlocksMove ∧
      s'.lastColumnDownMove = t := by
  rw [moveColumnDown_fires d t s hf]
  unfold moveColumnDownFired
  have hr : readSlot s.occupiedSlots (downGridX s) =
      some (s.occupiedSlots (downGridX s).toNat) := by
    unfold readSlot
    rw [if_pos hx]
  simp only [hr, Option.some_bind, hl, Bool.false_eq_true, if_false]
  exact ⟨_, rfl, rfl, rfl, rfl, rfl, rfl, rfl, rfl, rfl, rfl, rfl, rfl, rfl, rfl, rfl, rfl,
    rfl, rfl⟩

theorem moveColumnDown_plain_witness :
    DownFires 2 (fallState Color.red Color.green Color.blue 3 1) ∧
      landingTest (fallState Color.red Color.green Color.blue 3 1)
        ((fallState Color.red Color.green Color.blue 3 1).occupiedSlots 2) = false ∧
      ∃ s', moveColumnDown ⟨0, 0, 0, 0⟩ 2 (fallState Color.red Color.green Color.blue 3 1) =
          some s' ∧
        s'.columnBlocks.b0.y = -25 + 25 ∧ s'.columnBlocks.b1.y = 25 + 25 ∧
        s'.columnBlocks.b2.y = 75 + 25 ∧ s'.placedBlocks = initGameState.placedBlocks := by
  obtain ⟨s', hs', h0, h1, h2, _, _, _, _, _, _, _, _, _, hg, _⟩ :=
    moveColumnDown_plain ⟨0, 0, 0, 0⟩ 2 (fallState Color.red Color.green Color.blue 3 1)
      (fallState_downFires _ _ _ _) (by decide) (by decide)
  exact ⟨fallState_downFires _ _ _ _, by decide, s', hs', h0, h1, h2, hg⟩

/-! ### Horizontal shifts -/

theorem shiftBlockRight_total (slots : Nat → Int) (y2 : Int) (b : Block) (h : XInGrid b) :
    ∃ b', shiftBlockRight slots y2 b = some b' ∧ XInGrid b' ∧
      (XAligned b → XMoved BLOCK_WIDTH b b' ∧ XAligned b') := by
  obtain ⟨h0, h1⟩ := h
  simp only [GRID_WIDTH, GRID_BLOCK_WIDTH, BLOCK_WIDTH] at h1
  unfold shiftBlockRight
  simp only [GRID_WIDTH, GRID_BLOCK_WIDTH, BLOCK_WIDTH, BLOCK_HEIGHT]
  by_cases hc : b.x + 50 > 6 * 50 - 50
  · rw [if_pos hc]
    refine ⟨_, rfl, ⟨show (0 : Int) ≤ 6 * 50 - 50 by decide,
      show (6 : Int) * 50 - 50 ≤ GRID_WIDTH - BLOCK_WIDTH by decide⟩, ?_⟩
    rintro ⟨c, hcx⟩
    simp only [BLOCK_WIDTH] at hcx
    refine ⟨Or.inl ?_, 5, rfl⟩
    show (6 : Int) * 50 - 50 = b.x
    omega
  · rw [if_neg hc]
    have hq : 0 ≤ (b.x + 50).tdiv 50 ∧ (b.x + 50).tdiv 50 < GRID_BLOCK_WIDTH := by
      rw [Int.tdiv_eq_ediv (by omega) (by decide)]
      simp only [GRID_BLOCK_WIDTH]
      omega
    unfold readSlot
    rw [if_pos hq, Option.map_some']
    refine ⟨_, rfl, ?_, ?_⟩
    · split
      · exact ⟨h0, by simp only [GRID_WIDTH, GRID_BLOCK_WIDTH, BLOCK_WIDTH]; omega⟩
      · exact ⟨by show 0 ≤ b.x + 50; omega,
          by show b.x + 50 ≤ GRID_WIDTH - BLOCK_WIDTH
             simp only [GRID_WIDTH, GRID_BLOCK_WIDTH, BLOCK_WIDTH]; omega⟩
    · rintro ⟨c, hcx⟩
      simp only [BLOCK_WIDTH] at hcx
      split
      · exact ⟨Or.inl rfl, c, hcx⟩
      · exact ⟨Or.inr rfl, c + 1, by show b.x + 50 = 50 * ((c + 1 : Nat) : Int); omega⟩

theorem shiftBlockLeft_total (slots : Nat → Int) (y2 : Int) (b : Block) (h : XInGrid b) :
    ∃ b', shiftBlockLeft slots y2 b = some b' ∧ XInGrid b' ∧
      (XAligned b → XMoved (-BLOCK_WIDTH) b b' ∧ XAligned b') := by
  obtain ⟨h0, h1⟩ := h
  simp only [GRID_WIDTH, GRID_BLOCK_WIDTH, BLOCK_WIDTH] at h1
  unfold shiftBlockLeft
  simp only [BLOCK_WIDTH, BLOCK_HEIGHT]
  by_cases hc : b.x - 50 < 0
  · rw [if_pos hc]
    refine ⟨_, rfl, ⟨show (0 : Int) ≤ 0 by decide,
      show (0 : Int) ≤ GRID_WIDTH - BLOCK_WIDTH by decide⟩, ?_⟩
    rintro ⟨c, hcx⟩
    simp only [BLOCK_WIDTH] at hcx
    refine ⟨Or.inl ?_, 0, rfl⟩
    show (0 : Int) = b.x
    omega
  · rw [if_neg hc]
    have hq : 0 ≤ (b.x - 50).tdiv 50 ∧ (b.x - 50).tdiv 50 < GRID_BLOCK_WIDTH := by
      rw [Int.tdiv_eq_ediv (by omega) (by decide)]
      simp only [GRID_BLOCK_WIDTH]
      omega
    unfold readSlot
    rw [if_pos hq, Option.map_some']
    refine ⟨_, rfl, ?_, ?_⟩
    · split
      · exact ⟨h0, by simp only [GRID_WIDTH, GRID_BLOCK_WIDTH, BLOCK_WIDTH]; omega⟩
      · exact ⟨by show 0 ≤ b.x - 50; omega,
          by show b.x - 50 ≤ GRID_WIDTH - BLOCK_WIDTH
             simp only [GRID_WIDTH, GRID_BLOCK_WIDTH, BLOCK_WIDTH]; omega⟩
    · rintro ⟨c, hcx⟩
      simp only [BLOCK_WIDTH] at hcx
      split
      · exact ⟨Or.inl rfl, c, hcx⟩
      · exact ⟨Or.inr rfl, c - 1, by show b.x - 50 = 50 * ((c - 1 : Nat) : Int); omega⟩

theorem moveColumnRight_total (s : GameState) (h : ColumnXInGrid s.columnBlocks) :
    ∃ s', moveColumnRight s = some s' ∧ ColumnXInGrid s'.columnBlocks ∧
      (ColumnXAligned s.columnBlocks →
        ColumnMoved BLOCK_WIDTH s.columnBlocks s'.columnBlocks ∧
          ColumnXAligned s'.columnBlocks) := by
  unfold moveColumnRight
  by_cases hg : s.gameOver = true
  · rw [if_pos hg]
    exact ⟨s, rfl, h, fun ha => ⟨⟨Or.inl rfl, Or.inl rfl, Or.inl rfl⟩, ha⟩⟩
  · rw [if_neg hg]
    obtain ⟨c0, e0, i0, a0⟩ := shiftBlockRight_total s.occupiedSlots s.columnBlocks.b2.y _ h.1
    obtain ⟨c1, e1, i1, a1⟩ := shiftBlockRight_total s.occupiedSlots s.columnBlocks.b2.y _ h.2.1
    obtain ⟨c2, e2, i2, a2⟩ := shiftBlockRight_total s.occupiedSlots s.columnBlocks.b2.y _ h.2.2
    simp only [e0, e1, e2, Option.some_bind, Option.map_some']
    exact ⟨_, rfl, ⟨i0, i1, i2⟩, fun ha =>
      ⟨⟨(a0 ha.1).1, (a1 ha.2.1).1, (a2 ha.2.2).1⟩, (a0 ha.1).2, (a1 ha.2.1).2, (a2 ha.2.2).2⟩⟩

theorem moveColumnLeft_total (s : GameState) (h : ColumnXInGrid s.columnBlocks) :
    ∃ s', moveColumnLeft s = some s' ∧ ColumnXInGrid s'.columnBlocks ∧
      (ColumnXAligned s.columnBlocks →
        ColumnMoved (-BLOCK_WIDTH) s.columnBlocks s'.columnBlocks ∧
          ColumnXAligned s'.columnBlocks) := by
  unfold moveColumnLeft
  by_cases hg : s.gameOver = true
  · rw [if_pos hg]
    exact ⟨s, rfl, h, fun ha => ⟨⟨Or.inl rfl, Or.inl rfl, Or.inl rfl⟩, ha⟩⟩
  · rw [if_neg hg]
    obtain ⟨c0, e0, i0, a0⟩ := shiftBlockLeft_total s.occupiedSlots s.columnBlocks.b2.y _ h.1
    obtain ⟨c1, e1, i1, a1⟩ := shiftBlockLeft_total s.occupiedSlots s.columnBlocks.b2.y _ h.2.1
    obtain ⟨c2, e2, i2, a2⟩ := shiftBlockLeft_total s.occupiedSlots s.columnBlocks.b2.y _ h.2.2
    simp only [e0, e1, e2, Option.some_bind, Option.map_some']
    exact ⟨_, rfl, ⟨i0, i1, i2⟩, fun ha =>
      ⟨⟨(a0 ha.1).1, (a1 ha.2.1).1, (a2 ha.2.2).1⟩, (a0 ha.1).2, (a1 ha.2.1).2, (a2 ha.2.2).2⟩⟩

theorem columnOf_inGrid (x y : Int) (c0 c1 c2 : Color) (h0 : 0 ≤ x) (h1 : x ≤ 250) :
    ColumnXInGrid (columnState (columnOf x y c0 c1 c2)).columnBlocks :=
  ⟨⟨h0, h1⟩, ⟨h0, h1⟩, ⟨h0, h1⟩⟩

/-- The clamp of the shifts at x-offsets that are not multiples of the cell width (no state
the program reaches has such an offset): from 230 `moveColumnRight` sets each cell to 250,
from 30 `moveColumnLeft` sets each cell to 0. -/
theorem shift_clamp_unaligned :
    ColumnXInGrid (columnState (columnOf 230 0 Color.red Color.green Color.blue)).columnBlocks ∧
      (∃ s', moveColumnRight (columnState (columnOf 230 0 Color.red Color.green Color.blue)) =
          some s' ∧ s'.columnBlocks.b0.x = 250) ∧
      ColumnXInGrid (columnState (columnOf 30 0 Color.red Color.green Color.blue)).columnBlocks ∧
      (∃ s', moveColumnLeft (columnState (columnOf 30 0 Color.red Color.green Color.blue)) =
          some s' ∧ s'.columnBlocks.b0.x = 0) :=
  ⟨columnOf_inGrid 230 0 _ _ _ (by decide) (by decide), ⟨_, rfl, rfl⟩,
    columnOf_inGrid 30 0 _ _ _ (by decide) (by decide), ⟨_, rfl, rfl⟩⟩

theorem shiftBlockRight_x (slots : Nat → Int) (y2 : Int) (b b' c c' : Block) (hx : b.x = b'.x)
    (h : shiftBlockRight slots y2 b = some c) (h' : shiftBlockRight slots y2 b' = some c') :
    c.x = c'.x := by
  unfold shiftBlockRight at h h'
  simp only [hx] at h
  simp only at h'
  split at h
  · rename_i hc
    rw [if_pos hc] at h'
    simp only [Option.some.injEq] at h h'
    rw [← h, ← h']
  · rename_i hc
    rw [if_neg hc] at h'
    rw [Option.map_eq_some'] at h h'
    obtain ⟨v, hv, hb⟩ := h
    obtain ⟨v', hv', hb'⟩ := h'
    rw [hv, Option.some.injEq] at hv'
    subst hv'
    rw [← hb, ← hb']
    split
    · exact hx
    · rfl

theorem shiftBlockLeft_x (slots : Nat → Int) (y2 : Int) (b b' c c' : Block) (hx : b.x = b'.x)
    (h : shiftBlockLeft slots y2 b = some c) (h' : shiftBlockLeft slots y2 b' = some c') :
    c.x = c'.x := by
  unfold shiftBlockLeft at h h'
  simp only [hx] at h
  simp only at h'
  split at h
  · rename_i hc
    rw [if_pos hc] at h'
    simp only [Option.some.injEq] at h h'
    rw [← h, ← h']
  · rename_i hc
    rw [if_neg hc] at h'
    rw [Option.map_eq_some'] at h h'
    obtain ⟨v, hv, hb⟩ := h
    obtain ⟨v', hv', hb'⟩ := h'
    rw [hv, Option.some.injEq] at hv'
    subst hv'
    rw [← hb, ← hb']
    split
    · exact hx
    · rfl

theorem moveColumnRight_sameX (s s' : GameState) (h : SameX s.columnBlocks)
    (hs : moveColumnRight s = some s') : SameX s'.columnBlocks := by
  unfold moveColumnRight at hs
  split at hs
  · simp only [Option.some.injEq] at hs
    rw [← hs]
    exact h
  · simp only [Option.bind_eq_some, Option.map_eq_some'] at hs
    obtain ⟨c0, h0, c1, h1, c2, h2, hs⟩ := hs
    rw [← hs]
    exact ⟨shiftBlockRight_x _ _ _ _ _ _ h.1 h0 h1, shiftBlockRight_x _ _ _ _ _ _ h.2 h1 h2⟩

theorem moveColumnLeft_sameX (s s' : GameState) (h : SameX s.columnBlocks)
    (hs : moveColumnLeft s = some s') : SameX s'.columnBlocks := by
  unfold moveColumnLeft at hs
  split at hs
  · simp only [Option.some.injEq] at hs
    rw [← hs]
    exact h
  · simp only [Option.bind_eq_some, Option.map_eq_some'] at hs
    obtain ⟨c0, h0, c1, h1, c2, h2, hs⟩ := hs
    rw [← hs]
    exact ⟨shiftBlockLeft_x _ _ _ _ _ _ h.1 h0 h1, shiftBlockLeft_x _ _ _ _ _ _ h.2 h1 h2⟩

theorem shiftColumnColors_sameX (s : GameState) (h : SameX s.columnBlocks) :
    SameX (shiftColumnColors s).columnBlocks := by
  unfold shiftColumnColors
  split
  · exact h
  · exact h

theorem spawnColumn_sameX (d : Draws) (s : GameState) : SameX (spawnColumn d s).columnBlocks :=
  ⟨rfl, rfl⟩

theorem moveColumnDown_sameX (d : Draws) (t : ℚ) (s s' : GameState) (h : SameX s.columnBlocks)
    (hs : moveColumnDown d t s = some s') : SameX s'.columnBlocks := by
  have key : ∀ s1 : GameState, s1.columnBlocks = s.columnBlocks →
      (if t - s1.lastColumnDownMove < columnDownInterval then some s1
        else moveColumnDownFired d t s1) = some s' → SameX s'.columnBlocks := by
    intro s1 h1 h2
    split at h2
    · simp only [Option.some.injEq] at h2
      rw [← h2, h1]
      exact h
    · unfold moveColumnDownFired at h2
      simp only [Option.bind_eq_some] at h2
      obtain ⟨slot, _, h2⟩ := h2
      split at h2
      · simp only [Option.bind_eq_some, Option.map_eq_some'] at h2
        obtain ⟨r, hr, g, _, h2⟩ := h2
        have hal := landColumn_aligned _ _ _ _ _ _ hr
        split at h2
        · rw [← h2]
          simp only [hal, h1]
          exact h
        · rw [← h2]
          exact spawnColumn_sameX d _
      · simp only [Option.some.injEq] at h2
        rw [← h2, h1]
        exact h
  unfold moveColumnDown at hs
  split at hs
  · simp only [Option.some.injEq] at hs
    rw [← hs]
    exact h
  · exact key _ (by split <;> rfl) hs

theorem step_sameX (e : Event) (s s' : GameState) (h : SameX s.columnBlocks)
    (hs : step e s = some s') : SameX s'.columnBlocks := by
  cases e with
  | left => exact moveColumnLeft_sameX s s' h hs
  | right => exact moveColumnRight_sameX s s' h hs
  | rotate =>
    simp only [step, Option.some.injEq] at hs
    rw [← hs]
    exact shiftColumnColors_sameX s h
  | down d t => exact moveColumnDown_sameX d t s s' h hs
  | compact t =>
    rw [compactBlocks_column t s s' hs]
    exact h

theorem run_sameX (es : List Event) :
    ∀ (s s' : GameState), SameX s.columnBlocks → run es s = some s' → SameX s'.columnBlocks := by
  induction es with
  | nil =>
    intro s s' h hs
    simp only [run, Option.some.injEq] at hs
    rw [← hs]
    exact h
  | cons e es ih =>
    intro s s' h hs
    simp only [run, Option.bind_eq_some] at hs
    obtain ⟨s1, h1, h2⟩ := hs
    exact ih s1 s' (step_sameX e s s1 h h1) h2

/-- C12. The three falling cells share one x-offset: the predicate holds after
`initGameState` and after `spawnColumn` (for all draws), and from a state `s` in which it
holds it holds again in the state returned by `moveColumnLeft`, `moveColumnRight`,
`shiftColumnColors`, `moveColumnDown` (any draws, any time) and `compactBlocks` (any time),
whatever the grid and `occupiedSlots` hold, and so after every sequence of such calls.
With the shared x-offset inside `[0, 250]` both shifts do return a state. -/
theorem sameX_invariant (d : Draws) (t : ℚ) (s s' : GameState) (h : SameX s.columnBlocks) :
    SameX initGameState.columnBlocks ∧ SameX (spawnColumn d s).columnBlocks ∧
      (moveColumnLeft s = some s' → SameX s'.columnBlocks) ∧
      (moveColumnRight s = some s' → SameX s'.columnBlocks) ∧
      SameX (shiftColumnColors s).columnBlocks ∧
      (moveColumnDown d t s = some s' → SameX s'.columnBlocks) ∧
      (compactBlocks t s = some s' → SameX s'.columnBlocks) ∧
      (∀ es : List Event, run es s = some s' → SameX s'.columnBlocks) ∧
      (ColumnXInGrid s.columnBlocks →
        (∃ s1, moveColumnLeft s = some s1 ∧ SameX s1.columnBlocks) ∧
          ∃ s2, moveColumnRight s = some s2 ∧ SameX s2.columnBlocks) := by
  refine ⟨⟨rfl, rfl⟩, spawnColumn_sameX d s, moveColumnLeft_sameX s s' h,
    moveColumnRight_sameX s s' h, shiftColumnColors_sameX s h, moveColumnDown_sameX d t s s' h,
    ?_, fun es => run_sameX es s s' h, ?_⟩
  · intro hs
    rw [compactBlocks_column t s s' hs]
    exact h
  · intro hin
    obtain ⟨s1, h1, _⟩ := moveColumnLeft_total s hin
    obtain ⟨s2, h2, _⟩ := moveColumnRight_total s hin
    exact ⟨⟨s1, h1, moveColumnLeft_sameX s s1 h h1⟩, ⟨s2, h2, moveColumnRight_sameX s s2 h h2⟩⟩

theorem sameX_invariant_witness :
    SameX (columnState (columnOf 100 0 Color.red Color.green Color.blue)).columnBlocks ∧
      ∃ s', moveColumnRight (columnState (columnOf 100 0 Color.red Color.green Color.blue)) =
          some s' ∧ s'.columnBlocks.b0.x = 150 ∧ SameX s'.columnBlocks :=
  ⟨⟨rfl, rfl⟩, _, rfl, rfl,
    (sameX_invariant ⟨0, 0, 0, 0⟩ 1
      (columnState (columnOf 100 0 Color.red Color.green Color.blue)) _ ⟨rfl, rfl⟩).2.2.2.1 rfl⟩

theorem shiftBlockRight_rejected (slots : Nat → Int) (y2 : Int) (b : Block) (c d : Nat)
    (hx : b.x = 50 * (c : Int)) (hd : d = c + 1) (hd6 : d < 6)
    (hs : slots d ≤ y2.tdiv 50 - 1) : shiftBlockRight slots y2 b = some b := by
  unfold shiftBlockRight
  simp only [GRID_WIDTH, GRID_BLOCK_WIDTH, BLOCK_WIDTH, BLOCK_HEIGHT]
  have hnx : b.x + 50 = (d : Int) * 50 := by omega
  rw [if_neg (by omega), hnx, Int.mul_tdiv_cancel _ (by decide), readSlot_of_lt slots d hd6,
    Option.map_some', if_pos (by omega)]

theorem shiftBlockLeft_rejected (slots : Nat → Int) (y2 : Int) (b : Block) (c d : Nat)
    (hx : b.x = 50 * (c : Int)) (hd : d + 1 = c) (hd6 : d < 6)
    (hs : slots d ≤ y2.tdiv 50 - 1) : shiftBlockLeft slots y2 b = some b := by
  unfold shiftBlockLeft
  simp only [BLOCK_WIDTH, BLOCK_HEIGHT]
  have hnx : b.x - 50 = (d : Int) * 50 := by omega
  rw [if_neg (by omega), hnx, Int.mul_tdiv_cancel _ (by decide), readSlot_of_lt slots d hd6,
    Option.map_some', if_pos (by omega)]

/-- C13. Let the three falling cells be in grid column `c` (x-offset `50 * c`), the bottom
one at `y >= 0`, and let `d` be a grid column in which `occupiedSlots[d]` is smaller than the
row index of every occupied cell and which has an occupied cell at a row `r <= floor(y/50)`.
If `d` is the column right of `c`, `moveColumnRight` returns the state with the falling
column unchanged (all three x-offsets as before); if `d` is the column left of `c`,
`moveColumnLeft` does. -/
theorem shift_rejected (s : GameState) (c d : Nat) (hd : d < 6)
    (hx0 : s.columnBlocks.b0.x = 50 * (c : Int)) (hx1 : s.columnBlocks.b1.x = 50 * (c : Int))
    (hx2 : s.columnBlocks.b2.x = 50 * (c : Int))
    (hslot : ∀ r < 14, (s.placedBlocks d r).occupied = true → s.occupiedSlots d < (r : Int))
    (hy : 0 ≤ s.columnBlocks.b2.y)
    (hocc : ∃ r < 14, (s.placedBlocks d r).occupied = true ∧
      (r : Int) ≤ s.columnBlocks.b2.y / 50) :
    (d = c + 1 → ∃ s', moveColumnRight s = some s' ∧ s'.columnBlocks = s.columnBlocks ∧
        s'.columnBlocks.b0.x = s.columnBlocks.b0.x ∧
        s'.columnBlocks.b1.x = s.columnBlocks.b1.x ∧
        s'.columnBlocks.b2.x = s.columnBlocks.b2.x) ∧
      (d + 1 = c → ∃ s', moveColumnLeft s = some s' ∧ s'.columnBlocks = s.columnBlocks ∧
        s'.columnBlocks.b0.x = s.columnBlocks.b0.x ∧
        s'.columnBlocks.b1.x = s.columnBlocks.b1.x ∧
        s'.columnBlocks.b2.x = s.columnBlocks.b2.x) := by
  obtain ⟨r, hr, ho, hle⟩ := hocc
  have hs : s.occupiedSlots d ≤ s.columnBlocks.b2.y.tdiv 50 - 1 := by
    rw [Int.tdiv_eq_ediv hy (by decide)]
    have := hslot r hr ho
    omega
  constructor
  · intro hdc
    unfold moveColumnRight
    by_cases hg : s.gameOver = true
    · rw [if_pos hg]
      exact ⟨s, rfl, rfl, rfl, rfl, rfl⟩
    · rw [if_neg hg]
      simp only [shiftBlockRight_rejected s.occupiedSlots _ _ c d hx0 hdc hd hs,
        shiftBlockRight_rejected s.occupiedSlots _ _ c d hx1 hdc hd hs,
        shiftBlockRight_rejected s.occupiedSlots _ _ c d hx2 hdc hd hs, Option.some_bind,
        Option.map_some']
      exact ⟨_, rfl, rfl, rfl, rfl, rfl⟩
  · intro hdc
    unfold moveColumnLeft
    by_cases hg : s.gameOver = true
    · rw [if_pos hg]
      exact ⟨s, rfl, rfl, rfl, rfl, rfl⟩
    · rw [if_neg hg]
      simp only [shiftBlockLeft_rejected s.occupiedSlots _ _ c d hx0 hdc hd hs,
        shiftBlockLeft_rejected s.occupiedSlots _ _ c d hx1 hdc hd hs,
        shiftBlockLeft_rejected s.occupiedSlots _ _ c d hx2 hdc hd hs, Option.some_bind,
        Option.map_some']
      exact ⟨_, rfl, rfl, rfl, rfl, rfl⟩

theorem besideState_slot (col : Column) :
    ∀ r < 14, ((besideState col).placedBlocks 3 r).occupied = true →
      (besideState col).occupiedSlots 3 < (r : Int) := by
  show ∀ r < 14, ((gridOf [(3, 5, Color.orange)]) 3 r).occupied = true → (4 : Int) < (r : Int)
  decide

theorem shift_rejected_witness :
    (∃ s', moveColumnRight (besideState (columnOf 100 300 Color.red Color.green Color.blue)) =
        some s' ∧ s'.columnBlocks.b2.x = 100) ∧
      ∃ s', moveColumnLeft (besideState (columnOf 200 300 Color.red Color.green Color.blue)) =
        some s' ∧ s'.columnBlocks.b2.x = 200 :=
  ⟨((shift_rejected (besideState (columnOf 100 300 Color.red Color.green Color.blue)) 2 3
      (by decide) rfl rfl rfl (besideState_slot _) (by decide)
      ⟨5, by decide, by decide, by decide⟩).1 rfl).imp (fun _ h => ⟨h.1, h.2.2.2.2⟩),
    ((shift_rejected (besideState (columnOf 200 300 Color.red Color.green Color.blue)) 4 3
      (by decide) rfl rfl rfl (besideState_slot _) (by decide)
      ⟨5, by decide, by decide, by decide⟩).2 rfl).imp (fun _ h => ⟨h.1, h.2.2.2.2⟩)⟩

theorem moveColumnDown_columnX (d : Draws) (t : ℚ) (s s' : GameState)
    (h : ColumnXInGrid s.columnBlocks ∧ ColumnXAligned s.columnBlocks)
    (hs : moveColumnDown d t s = some s') :
    ColumnXInGrid s'.columnBlocks ∧ ColumnXAligned s'.columnBlocks := by
  have hspawn : ∀ s0 : GameState, ColumnXInGrid (spawnColumn d s0).columnBlocks ∧
      ColumnXAligned (spawnColumn d s0).columnBlocks := by
    intro s0
    have hx : (0 : Int) ≤ ((d.rx % 5 : Nat) : Int) * 50 ∧
        ((d.rx % 5 : Nat) : Int) * 50 ≤ GRID_WIDTH - BLOCK_WIDTH := by
      simp only [GRID_WIDTH, GRID_BLOCK_WIDTH, BLOCK_WIDTH]
      omega
    have ha : ∃ c : Nat, ((d.rx % 5 : Nat) : Int) * 50 = BLOCK_WIDTH * (c : Int) :=
      ⟨d.rx % 5, by simp only [BLOCK_WIDTH]; omega⟩
    exact ⟨⟨hx, hx, hx⟩, ha, ha, ha⟩
  have key : ∀ s1 : GameState, s1.columnBlocks = s.columnBlocks →
      (if t - s1.lastColumnDownMove < columnDownInterval then some s1
        else moveColumnDownFired d t s1) = some s' →
      ColumnXInGrid s'.columnBlocks ∧ ColumnXAligned s'.columnBlocks := by
    intro s1 h1 h2
    split at h2
    · simp only [Option.some.injEq] at h2
      rw [← h2, h1]
      exact h
    · unfold moveColumnDownFired at h2
      simp only [Option.bind_eq_some] at h2
      obtain ⟨slot, _, h2⟩ := h2
      split at h2
      · simp only [Option.bind_eq_some, Option.map_eq_some'] at h2
        obtain ⟨r, hr, g, _, h2⟩ := h2
        have hal := landColumn_aligned _ _ _ _ _ _ hr
        split at h2
        · rw [← h2]
          simp only [hal, h1]
          exact h
        · rw [← h2]
          exact hspawn _
      · simp only [Option.some.injEq] at h2
        rw [← h2, h1]
        exact h
  unfold moveColumnDown at hs
  split at hs
  · simp only [Option.some.injEq] at hs
    rw [← hs]
    exact h
  · exact key _ (by split <;> rfl) hs

theorem step_columnX (e : Event) (s s' : GameState)
    (h : ColumnXInGrid s.columnBlocks ∧ ColumnXAligned s.columnBlocks)
    (hs : step e s = some s') :
    ColumnXInGrid s'.columnBlocks ∧ ColumnXAligned s'.columnBlocks := by
  cases e with
  | left =>
    obtain ⟨s1, h1, hin, hal⟩ := moveColumnLeft_total s h.1
    have e1 : s1 = s' := Option.some.inj (h1.symm.trans hs)
    rw [← e1]
    exact ⟨hin, (hal h.2).2⟩
  | right =>
    obtain ⟨s1, h1, hin, hal⟩ := moveColumnRight_total s h.1
    have e1 : s1 = s' := Option.some.inj (h1.symm.trans hs)
    rw [← e1]
    exact ⟨hin, (hal h.2).2⟩
  | rotate =>
    simp only [step, Option.some.injEq] at hs
    rw [← hs]
    unfold shiftColumnColors
    split <;> exact h
  | down d t => exact moveColumnDown_columnX d t s s' h hs
  | compact t =>
    rw [compactBlocks_column t s s' hs]
    exact h

/-- In every state reached from `initGameState` through the calls of the main loop, the
x-offset of each falling cell is a multiple of the cell width inside `[0, 250]`. -/
theorem reachable_columnX (es : List Event) :
    ∀ (s s' : GameState), ColumnXInGrid s.columnBlocks ∧ ColumnXAligned s.columnBlocks →
      run es s = some s' → ColumnXInGrid s'.columnBlocks ∧ ColumnXAligned s'.columnBlocks := by
  induction es with
  | nil =>
    intro s s' h hs
    simp only [run, Option.some.injEq] at hs
    rw [← hs]
    exact h
  | cons e es ih =>
    intro s s' h hs
    simp only [run, Option.bind_eq_some] at hs
    obtain ⟨s1, h1, h2⟩ := hs
    exact ih s1 s' (step_columnX e s s1 h h1) h2

theorem init_columnX :
    ColumnXInGrid initGameState.columnBlocks ∧ ColumnXAligned initGameState.columnBlocks :=
  ⟨⟨⟨by decide, by decide⟩, ⟨by decide, by decide⟩, ⟨by decide, by decide⟩⟩,
    ⟨0, rfl⟩, ⟨0, rfl⟩, ⟨0, rfl⟩⟩

theorem spawn_columnX (d : Draws) (s : GameState) :
    ColumnXInGrid (spawnColumn d s).columnBlocks ∧
      ColumnXAligned (spawnColumn d s).columnBlocks := by
  have hx : (0 : Int) ≤ ((d.rx % 5 : Nat) : Int) * 50 ∧
      ((d.rx % 5 : Nat) : Int) * 50 ≤ GRID_WIDTH - BLOCK_WIDTH := by
    simp only [GRID_WIDTH, GRID_BLOCK_WIDTH, BLOCK_WIDTH]
    omega
  have ha : ∃ c : Nat, ((d.rx % 5 : Nat) : Int) * 50 = BLOCK_WIDTH * (c : Int) :=
    ⟨d.rx % 5, by simp only [BLOCK_WIDTH]; omega⟩
  exact ⟨⟨hx, hx, hx⟩, ha, ha, ha⟩

/-- C11. In every state the program reaches (from `initGameState`, or from `initGameState`
followed by `spawnColumn`, through any sequence of shifts, colour rotations, down-ticks and
compaction calls) each falling cell's x-offset lies in `[0, GRID_WIDTH - BLOCK_WIDTH]` =
`[0, 250]`, and `moveColumnRight` and `moveColumnLeft` return a state in which each falling
cell's x-offset still lies in `[0, 250]` and is its previous value or that value plus 50
(`moveColumnRight`), its previous value or that value minus 50 (`moveColumnLeft`).  The
range part holds in every state whose x-offsets lie in `[0, 250]`, reached or not. -/
theorem shift_bounds (d : Draws) (es : List Event) (s0 s : GameState)
    (h0 : s0 = initGameState ∨ s0 = spawnColumn d initGameState) (h : run es s0 = some s) :
    ColumnXInGrid s.columnBlocks ∧
      (∃ s', moveColumnRight s = some s' ∧ ColumnXInGrid s'.columnBlocks ∧
        ColumnMoved BLOCK_WIDTH s.columnBlocks s'.columnBlocks) ∧
      (∃ s', moveColumnLeft s = some s' ∧ ColumnXInGrid s'.columnBlocks ∧
        ColumnMoved (-BLOCK_WIDTH) s.columnBlocks s'.columnBlocks) ∧
      ∀ s1 : GameState, ColumnXInGrid s1.columnBlocks →
        (∃ s', moveColumnRight s1 = some s' ∧ ColumnXInGrid s'.columnBlocks) ∧
          ∃ s', moveColumnLeft s1 = some s' ∧ ColumnXInGrid s'.columnBlocks := by
  have hs0 : ColumnXInGrid s0.columnBlocks ∧ ColumnXAligned s0.columnBlocks := by
    rcases h0 with rfl | rfl
    · exact init_columnX
    · exact spawn_columnX d initGameState
  obtain ⟨hin, hal⟩ := reachable_columnX es s0 s hs0 h
  obtain ⟨sr, hr, hrin, hra⟩ := moveColumnRight_total s hin
  obtain ⟨sl, hl, hlin, hla⟩ := moveColumnLeft_total s hin
  refine ⟨hin, ⟨sr, hr, hrin, (hra hal).1⟩, ⟨sl, hl, hlin, (hla hal).1⟩, ?_⟩
  intro s1 h1
  obtain ⟨a, ha, hain, _⟩ := moveColumnRight_total s1 h1
  obtain ⟨b, hb, hbin, _⟩ := moveColumnLeft_total s1 h1
  exact ⟨⟨a, ha, hain⟩, ⟨b, hb, hbin⟩⟩

theorem shift_bounds_witness :
    (∃ s, run [Event.right, Event.rotate] (spawnColumn ⟨3, 0, 1, 2⟩ initGameState) = some s ∧
      s.columnBlocks.b0.x = 200 ∧
      (∃ s', moveColumnRight s = some s' ∧ ColumnXInGrid s'.columnBlocks ∧
        ColumnMoved BLOCK_WIDTH s.columnBlocks s'.columnBlocks ∧ s'.columnBlocks.b0.x = 250) ∧
      ∃ s', moveColumnLeft s = some s' ∧ ColumnXInGrid s'.columnBlocks ∧
        ColumnMoved (-BLOCK_WIDTH) s.columnBlocks s'.columnBlocks ∧
        s'.columnBlocks.b0.x = 150) := by
  have hrun : ∃ s, run [Event.right, Event.rotate]
      (spawnColumn ⟨3, 0, 1, 2⟩ initGameState) = some s ∧
      (s.columnBlocks.b0.x = 200 ∧
        optCheck (moveColumnRight s) (fun s' => decide (s'.columnBlocks.b0.x = 250)) = true ∧
        optCheck (moveColumnLeft s) (fun s' => decide (s'.columnBlocks.b0.x = 150)) = true) := by
    apply exists_of_optCheck
    decide
  obtain ⟨s, hs, hx, hr, hl⟩ := hrun
  obtain ⟨_, ⟨sr, er, hrin, hrm⟩, ⟨sl, el, hlin, hlm⟩, _⟩ :=
    shift_bounds ⟨3, 0, 1, 2⟩ [Event.right, Event.rotate] _ s (Or.inr rfl) hs
  obtain ⟨sr', er', hr'⟩ := exists_of_optCheck _ _ hr
  obtain ⟨sl', el', hl'⟩ := exists_of_optCheck _ _ hl
  rw [er, Option.some.injEq] at er'
  rw [el, Option.some.injEq] at el'
  subst er'
  subst el'
  exact ⟨s, hs, hx, ⟨sr, er, hrin, hrm, hr'⟩, ⟨sl, el, hlin, hlm, hl'⟩⟩

/-! ### The cells the walks of `clearAndScore` read -/

theorem matchWalk_reads (g : Grid) (color : Color) (inb : Int → Int → Bool) (dx dy : Int) :
    ∀ (fuel : Nat) (cx cy : Int) (l : List (Int × Int)),
      matchWalk g color inb dx dy fuel cx cy = some l →
      (walkReads g color inb dx dy fuel cx cy).length = l.length ∨
        (walkReads g color inb dx dy fuel cx cy).length = l.length + 1 := by
  intro fuel
  induction fuel with
  | zero => intro cx cy l h; simp [matchWalk] at h
  | succ n ih =>
    intro cx cy l h
    unfold matchWalk at h
    unfold walkReads
    split at h
    · rename_i hin
      rw [if_pos hin]
      cases hr : readBlock g (cx + dx) (cy + dy) with
      | none => rw [hr] at h; simp at h
      | some t =>
        rw [hr] at h
        simp only at h ⊢
        split at h
        · rename_i hm
          rw [if_pos hm]
          rw [Option.map_eq_some'] at h
          obtain ⟨l', hl', hl⟩ := h
          rw [← hl]
          rcases ih _ _ _ hl' with h1 | h1
          · exact Or.inl (by simp [h1])
          · exact Or.inr (by simp [h1])
        · rename_i hm
          rw [if_neg hm]
          simp only [Option.some.injEq] at h
          rw [← h]
          exact Or.inr rfl
    · rename_i hin
      rw [if_neg hin]
      simp only [Option.some.injEq] at h
      rw [← h]
      exact Or.inl rfl

theorem walkReads_inv (P : Int → Int → Prop) (g : Grid) (color : Color)
    (inb : Int → Int → Bool) (dx dy : Int)
    (hstep : ∀ cx cy, P cx cy → inb (cx + dx) (cy + dy) = true → P (cx + dx) (cy + dy)) :
    ∀ (fuel : Nat) (cx cy : Int), P cx cy →
      ∀ p ∈ walkReads g color inb dx dy fuel cx cy, P p.1 p.2 := by
  intro fuel
  induction fuel with
  | zero => intro cx cy _ p hp; simp [walkReads] at hp
  | succ n ih =>
    intro cx cy h p hp
    unfold walkReads at hp
    split at hp
    · rename_i hin
      have h1 := hstep cx cy h hin
      rw [List.mem_cons] at hp
      rcases hp with hp | hp
      · rw [hp]
        exact h1
      · cases hr : readBlock g (cx + dx) (cy + dy) with
        | none => rw [hr] at hp; simp at hp
        | some t =>
          rw [hr] at hp
          simp only at hp
          split at hp
          · exact ih _ _ h1 p hp
          · simp at hp
    · simp at hp

/-- The seven walks other than the downward one read only cells of the grid, from every
origin inside the grid. -/
theorem walkReads_inGrid (g : Grid) (color : Color) (fuel : Nat) (cx cy : Int)
    (h : InGrid (cx, cy)) :
    (∀ p ∈ walkReads g color (fun cx cy => decide (0 ≤ cx) && decide (cy < GRID_BLOCK_HEIGHT))
        (-1) 1 fuel cx cy, InGrid p) ∧
      (∀ p ∈ walkReads g color (fun cx cy => decide (cx < GRID_BLOCK_WIDTH) && decide (0 ≤ cy))
        1 (-1) fuel cx cy, InGrid p) ∧
      (∀ p ∈ walkReads g color
        (fun cx cy => decide (cx < GRID_BLOCK_WIDTH) && decide (cy < GRID_BLOCK_HEIGHT))
        1 1 fuel cx cy, InGrid p) ∧
      (∀ p ∈ walkReads g color (fun cx cy => decide (0 ≤ cx) && decide (0 ≤ cy))
        (-1) (-1) fuel cx cy, InGrid p) ∧
      (∀ p ∈ walkReads g color (fun cx _ => decide (cx < GRID_BLOCK_WIDTH)) 1 0 fuel cx cy,
        InGrid p) ∧
      (∀ p ∈ walkReads g color (fun cx _ => decide (0 ≤ cx)) (-1) 0 fuel cx cy, InGrid p) ∧
      (∀ p ∈ walkReads g color (fun _ cy => decide (0 ≤ cy)) 0 (-1) fuel cx cy, InGrid p) := by
  refine ⟨?_, ?_, ?_, ?_, ?_, ?_, ?_⟩ <;>
  · apply walkReads_inv (fun a b => InGrid (a, b)) g color _ _ _ _ fuel cx cy h
    intro a b hab hin
    simp only [InGrid, GRID_BLOCK_WIDTH, GRID_BLOCK_HEIGHT] at hab ⊢
    simp only [Bool.and_eq_true, decide_eq_true_eq, GRID_BLOCK_WIDTH, GRID_BLOCK_HEIGHT] at hin
    omega

/-- C17 at its failing input. For every grid and every origin block whose pixel offset
puts it in the bottom row (`block.y / BLOCK_HEIGHT = 13`), the downward vertical walk
reads `placedBlocks[gridX][14]`: its bound is `vdGridY < GRID_HEIGHT` (700), so the row
subscript 14, which is not the row of a grid cell, passes the test. -/
theorem down_walk_reads_row_14 (g : Grid) (block : Block)
    (hy : block.y.tdiv BLOCK_HEIGHT = 13) :
    (block.x.tdiv BLOCK_WIDTH, 14) ∈ downReads g block ∧
      ¬ InGrid (block.x.tdiv BLOCK_WIDTH, 14) := by
  constructor
  · unfold downReads
    rw [hy]
    unfold walkFuel walkReads
    rw [if_pos (by decide), Int.add_zero]
    exact List.mem_cons_self _ _
  · unfold InGrid
    simp only [GRID_BLOCK_HEIGHT]
    omega

theorem down_walk_reads_row_14_witness :
    (gridOf [(0, 13, Color.red)] 0 13).occupied = true ∧
      ((0 : Int), (14 : Int)) ∈ downReads (gridOf [(0, 13, Color.red)])
        (gridOf [(0, 13, Color.red)] 0 13) ∧
      ¬ InGrid ((0 : Int), (14 : Int)) :=
  ⟨rfl, down_walk_reads_row_14 (gridOf [(0, 13, Color.red)])
    (gridOf [(0, 13, Color.red)] 0 13) rfl⟩

/-! ### Order of the scan -/

theorem aligned_crossGrid : Aligned crossGrid := by
  unfold Aligned
  decide

/-- C19. Match detection is order-dependent.  In the grid-aligned grid with a red
horizontal run `(0,5)`, `(1,5)`, `(2,5)` and a red vertical run `(2,5)`, `(2,6)`, `(2,7)`,
the cells `(2,6)` and `(2,7)` lie on a straight run of 3 red cells before the call; the
origin `(0,5)`, scanned first, clears the horizontal run and with it `(2,5)`; when the scan
reaches `(2,6)` and `(2,7)` the vertical run has only 2 cells left, and `clearAndScore`
returns a grid in which `(2,6)` and `(2,7)` are still occupied. -/
theorem clearAndScore_order_dependent :
    Aligned crossGrid ∧ onRunOf3 crossGrid 2 6 = true ∧ onRunOf3 crossGrid 2 7 = true ∧
      (∃ g1, scanOrigin crossGrid 0 5 = some g1 ∧ (g1 2 5).occupied = false ∧
        onRunOf3 g1 2 6 = false ∧ onRunOf3 g1 2 7 = false) ∧
      ∃ g', clearAndScore crossGrid = some g' ∧
        ((g' 2 6).occupied = true ∧ (g' 2 7).occupied = true ∧ (g' 0 5).occupied = false ∧
          (g' 1 5).occupied = false ∧ (g' 2 5).occupied = false) := by
  refine ⟨aligned_crossGrid, by decide, by decide, ?_, ?_⟩
  · apply exists_of_optCheck
    decide
  · apply exists_of_optCheck
    decide

/-! ### Runs of fired down-ticks -/

theorem run_append (es1 es2 : List Event) (s : GameState) :
    run (es1 ++ es2) s = (run es1 s).bind (run es2) := by
  induction es1 generalizing s with
  | nil => rfl
  | cons e es1 ih =>
    simp only [List.cons_append, run]
    cases step e s with
    | none => rfl
    | some s1 => exact ih s1

theorem run_down (d : Draws) (ts : List ℚ) (s : GameState) :
    run (ts.map (Event.down d)) s = downTicks d ts s := by
  induction ts generalizing s with
  | nil => rfl
  | cons t ts ih =>
    simp only [List.map_cons, run, step, downTicks]
    cases moveColumnDown d t s with
    | none => rfl
    | some s1 => exact ih s1

theorem downTicks_gameOver (d : Draws) (ts : List ℚ) (s : GameState) (h : s.gameOver = true) :
    downTicks d ts s = some s := by
  induction ts with
  | nil => rfl
  | cons t ts ih =>
    simp only [downTicks, moveColumnDown, h, if_true, Option.some_bind]
    exact ih

theorem moveColumnDownFired_time (d : Draws) (t : ℚ) (s : GameState) :
    moveColumnDownFired d t s =
      (moveColumnDownFired d 0 s).map (fun s' => { s' with lastColumnDownMove := t }) := by
  unfold moveColumnDownFired
  simp only
  cases readSlot s.occupiedSlots (downGridX s) with
  | none => rfl
  | some slot =>
    simp only [Option.some_bind]
    by_cases hl : landingTest s slot = true
    · simp only [hl, if_true]
      cases landColumn (downGridX s) (downNextGridY s) s.placedBlocks s.occupiedSlots
          s.columnBlocks with
      | none => rfl
      | some r =>
        simp only [Option.some_bind]
        cases clearAndScore r.1 with
        | none => rfl
        | some g =>
          simp only [Option.map_some', Option.some.injEq]
          split <;> rfl
    · simp only [hl, Bool.false_eq_true, if_false, Option.map_some']

theorem moveColumnDownFired_last (d : Draws) (t : ℚ) (s s' : GameState)
    (h : moveColumnDownFired d t s = some s') : s'.lastColumnDownMove = t := by
  rw [moveColumnDownFired_time, Option.map_eq_some'] at h
  obtain ⟨s1, _, h1⟩ := h
  rw [← h1]

theorem downTicks_fired (d : Draws) (ts : List ℚ) :
    ∀ (s : GameState), 0 < s.lastColumnDownMove → Permitted s.lastColumnDownMove ts →
      downTicks d ts s = firedTicks d ts s := by
  induction ts with
  | nil => intro s _ _; rfl
  | cons t ts ih =>
    intro s h0 hp
    obtain ⟨hp1, hp2⟩ := hp
    by_cases hg : s.gameOver = true
    · rw [downTicks_gameOver d _ s hg]
      simp only [firedTicks, hg, if_true]
    · have hg' : s.gameOver = false := by simpa using hg
      simp only [downTicks, firedTicks, hg', Bool.false_eq_true, if_false,
        moveColumnDown_fires d t s ⟨hg', h0, hp1⟩]
      cases hm : moveColumnDownFired d t s with
      | none => rfl
      | some s1 =>
        have hl := moveColumnDownFired_last d t s s1 hm
        simp only [Option.some_bind]
        exact ih s1 (by rw [hl]; linarith [columnDownInterval_pos]) (by rw [hl]; exact hp2)

theorem firedTicks_pos (d : Draws) (ts : List ℚ) :
    ∀ (s s' : GameState), 0 < s.lastColumnDownMove → (∀ t ∈ ts, 0 < t) →
      firedTicks d ts s = some s' → 0 < s'.lastColumnDownMove := by
  induction ts with
  | nil =>
    intro s s' h0 _ h
    simp only [firedTicks, Option.some.injEq] at h
    rw [← h]
    exact h0
  | cons t ts ih =>
    intro s s' h0 hts h
    unfold firedTicks at h
    split at h
    · simp only [Option.some.injEq] at h
      rw [← h]
      exact h0
    · rw [Option.bind_eq_some] at h
      obtain ⟨s1, h1, h2⟩ := h
      have hl := moveColumnDownFired_last d t s s1 h1
      exact ih s1 s' (by rw [hl]; exact hts t (List.mem_cons_self t ts))
        (fun t' ht' => hts t' (List.mem_cons_of_mem t ht')) h2

theorem tenths_permitted_from (n : Nat) : Permitted 1 (tenths n) := by
  have h := permitted_tenths n 1 0 (by norm_num)
  rwa [← List.range_eq_range'] at h

theorem tenths_pos (n : Nat) : ∀ t ∈ tenths n, (0 : ℚ) < t := by
  intro t ht
  unfold tenths at ht
  rw [List.mem_map] at ht
  obtain ⟨k, _, hk⟩ := ht
  rw [← hk]
  positivity

/-- The calls `downEvents d n` from the program start: the first call starts the rate
limiter, each later one gets through, so the run is `n` fired down-ticks. -/
theorem run_downEvents (d : Draws) (n : Nat) :
    run (downEvents d n) (spawnColumn d initGameState) =
      firedTicks d (tenths n) (startState d) := by
  unfold downEvents
  have hfirst : step (Event.down d 1) (spawnColumn d initGameState) = some (startState d) :=
    moveColumnDown_first d 1 _ rfl (le_refl _)
  rw [run, hfirst, Option.some_bind, run_down]
  exact downTicks_fired d (tenths n) (startState d) (by show (0 : ℚ) < 1; norm_num)
    (tenths_permitted_from n)

/-! ### Landing above the grid -/

theorem landBlock_gridY (gridX nextGridY : Int) (g : Grid) (slots : Nat → Int) (b : Block) :
    landBlock gridX nextGridY g slots b =
      (writeBlock g gridX (landGridY b) (landedBlock b)).bind fun g' =>
        (writeSlot slots gridX (nextGridY - BLOCK_COLUMN_LENGTH)).map fun slots' =>
          (g', slots', alignBlock b) :=
  rfl

theorem stack_run_eval :
    ∃ s, firedTicks ⟨2, 0, 1, 2⟩ (tenths 74) (startState ⟨2, 0, 1, 2⟩) = some s ∧
      (s.gameOver = false ∧ downGridX s = 2 ∧ landingTest s (s.occupiedSlots 2) = true ∧
        s.occupiedSlots 2 = 1 ∧
        (∀ r < (14 : Nat), (s.placedBlocks 2 r).occupied = decide (2 ≤ r)) ∧
        s.columnBlocks.b0.y = -50 ∧ landGridY s.columnBlocks.b0 = -1 ∧
        (s.placedBlocks 1 13).occupied = false ∧
        optCheck (moveColumnDownFired ⟨2, 0, 1, 2⟩ 0 s) (fun s' => decide (s'.gameOver = true ∧
          s'.placedBlocks 1 13 = Block.mk true 100 (-50) Color.red)) = true) := by
  apply exists_of_optCheck
  decide!

theorem edge_run_eval :
    ∃ s, firedTicks ⟨0, 0, 1, 2⟩ (tenths 74) (startState ⟨0, 0, 1, 2⟩) = some s ∧
      (s.gameOver = false ∧ downGridX s = 0 ∧ landingTest s (s.occupiedSlots 0) = true ∧
        s.columnBlocks.b0.y = -50 ∧ landGridY s.columnBlocks.b0 = -1 ∧
        (moveColumnDownFired ⟨0, 0, 1, 2⟩ 0 s).isNone = true) := by
  apply exists_of_optCheck
  decide!

theorem downFires_next (s : GameState) (hg : s.gameOver = false)
    (h0 : 0 < s.lastColumnDownMove) : DownFires (s.lastColumnDownMove + 1) s := by
  refine ⟨hg, h0, ?_⟩
  unfold columnDownInterval
  norm_num

/-- C18 at its failing input. From the program start with the draws (column 2; red, green,
blue) at every spawn, the call that starts the rate limiter and 74 down-ticks a tenth of a
second apart stack four columns on rows 2 to 13 of grid column 2 (`occupiedSlots[2] = 1`)
and bring the fifth to offsets (-50, 0, 50): game not over, landing test true.  For its
top cell the landing loop computes the row subscript `gridY = -1`, which is not a row of
the grid; every next down-tick that passes the limiter (there is one) lands the column,
writes that cell to `placedBlocks[2][-1]`, which is the memory of cell `(1, 13)` (free
before, afterwards occupied, red, with `x = 100`, `y = -50`), and only then sets
`gameOver`.  With the draws (column 0; red, green, blue) the same run ends in a landing
that writes `placedBlocks[0][-1]`, before the start of the array: the tick has no defined
result. -/
theorem landing_writes_outside_grid :
    (∃ s, run (downEvents ⟨2, 0, 1, 2⟩ 74) (spawnColumn ⟨2, 0, 1, 2⟩ initGameState) = some s ∧
      s.gameOver = false ∧ DownFires (s.lastColumnDownMove + 1) s ∧ downGridX s = 2 ∧
      landingTest s (s.occupiedSlots 2) = true ∧ s.occupiedSlots 2 = 1 ∧
      (∀ r < 14, (s.placedBlocks 2 r).occupied = decide (2 ≤ r)) ∧
      s.columnBlocks.b0.y = -50 ∧ landGridY s.columnBlocks.b0 = -1 ∧
      (s.placedBlocks 1 13).occupied = false ∧
      ∀ t, DownFires t s → ∃ s', moveColumnDown ⟨2, 0, 1, 2⟩ t s = some s' ∧
        s'.gameOver = true ∧ s'.placedBlocks 1 13 = Block.mk true 100 (-50) Color.red) ∧
    (∃ s, run (downEvents ⟨0, 0, 1, 2⟩ 74) (spawnColumn ⟨0, 0, 1, 2⟩ initGameState) = some s ∧
      s.gameOver = false ∧ DownFires (s.lastColumnDownMove + 1) s ∧ downGridX s = 0 ∧
      landingTest s (s.occupiedSlots 0) = true ∧ s.columnBlocks.b0.y = -50 ∧
      landGridY s.columnBlocks.b0 = -1 ∧
      ∀ t, DownFires t s → moveColumnDown ⟨0, 0, 1, 2⟩ t s = none) := by
  constructor
  · obtain ⟨s, hs, hg, hx, hl, hslot, hstack, hy, hrow, hfree, hnext⟩ := stack_run_eval
    refine ⟨s, ?_, hg, ?_, hx, hl, hslot, hstack, hy, hrow, hfree, ?_⟩
    · rw [run_downEvents]
      exact hs
    · exact downFires_next s hg
        (firedTicks_pos _ _ _ s (by show (0 : ℚ) < 1; norm_num) (tenths_pos 74) hs)
    · intro t ht
      obtain ⟨s1, h1, hover, hcell⟩ := exists_of_optCheck _ _ hnext
      rw [moveColumnDown_fires _ t s ht, moveColumnDownFired_time, h1]
      exact ⟨_, rfl, hover, hcell⟩
  · obtain ⟨s, hs, hg, hx, hl, hy, hrow, hnext⟩ := edge_run_eval
    refine ⟨s, ?_, hg, ?_, hx, hl, hy, hrow, ?_⟩
    · rw [run_downEvents]
      exact hs
    · exact downFires_next s hg
        (firedTicks_pos _ _ _ s (by show (0 : ℚ) < 1; norm_num) (tenths_pos 74) hs)
    · intro t ht
      rw [moveColumnDown_fires _ t s ht, moveColumnDownFired_time,
        Option.isNone_iff_eq_none.mp hnext]
      rfl

/-! ### Match detection on two grids that agree on occupancy and colour -/

theorem optRel_bind {α β : Type} (R : α → α → Prop) (S : β → β → Prop) (o1 o2 : Option α)
    (f1 f2 : α → Option β) (h : OptRel R o1 o2)
    (hf : ∀ a b, R a b → OptRel S (f1 a) (f2 b)) : OptRel S (o1.bind f1) (o2.bind f2) := by
  rcases h with ⟨h1, h2⟩ | ⟨a, b, h1, h2, hab⟩
  · rw [h1, h2]
    exact Or.inl ⟨rfl, rfl⟩
  · rw [h1, h2]
    exact hf a b hab

theorem optRel_map {α β : Type} (R : α → α → Prop) (S : β → β → Prop) (o1 o2 : Option α)
    (f1 f2 : α → β) (h : OptRel R o1 o2) (hf : ∀ a b, R a b → S (f1 a) (f2 b)) :
    OptRel S (o1.map f1) (o2.map f2) := by
  rcases h with ⟨h1, h2⟩ | ⟨a, b, h1, h2, hab⟩
  · rw [h1, h2]
    exact Or.inl ⟨rfl, rfl⟩
  · rw [h1, h2]
    exact Or.inr ⟨_, _, rfl, rfl, hf a b hab⟩

theorem inObject_cell (gx gy : Int) (h : inObject gx gy = true) :
    cellCol gx gy < 6 ∧ cellRow gx gy < 14 := by
  simp only [inObject, Bool.and_eq_true, decide_eq_true_eq, GRID_BLOCK_HEIGHT,
    GRID_BLOCK_WIDTH] at h
  simp only [cellCol, cellRow, GRID_BLOCK_HEIGHT]
  generalize flatIndex gx gy = i at h
  omega

theorem entryAt_of_offsets (g : Grid) (h : OffsetsUpTo 1 g) (c r : Nat) (hc : c < 6)
    (hr : r < 14) (ho : (g c r).occupied = true) : EntryAt ((g c r).x, (g c r).y) c r := by
  obtain ⟨hx, p, hp, hy⟩ := h c hc r hr ho
  refine ⟨by simp only [hx]; omega, by simp only [hy]; omega, ?_, ?_⟩
  · simp only [hx, BLOCK_WIDTH]
    rw [Int.mul_comm, Int.mul_tdiv_cancel _ (by decide)]
  · simp only [hy, BLOCK_HEIGHT]
    rw [Int.tdiv_eq_ediv (by omega) (by decide)]
    omega

theorem matchWalk_rel (g1 g2 : Grid) (h : PixelRel g1 g2) (color : Color)
    (inb : Int → Int → Bool) (dx dy : Int) :
    ∀ (fuel : Nat) (cx cy : Int),
      OptRel (List.Forall₂ SameEntry) (matchWalk g1 color inb dx dy fuel cx cy)
        (matchWalk g2 color inb dx dy fuel cx cy) := by
  intro fuel
  induction fuel with
  | zero => intro cx cy; exact Or.inl ⟨rfl, rfl⟩
  | succ n ih =>
    intro cx cy
    unfold matchWalk
    by_cases hin : inb (cx + dx) (cy + dy) = true
    · rw [if_pos hin, if_pos hin]
      unfold readBlock
      by_cases hobj : inObject (cx + dx) (cy + dy) = true
      · rw [if_pos hobj, if_pos hobj]
        obtain ⟨hc, hr⟩ := inObject_cell _ _ hobj
        obtain ⟨ho, hcol⟩ := h.1 _ hc _ hr
        simp only [← ho, ← hcol]
        by_cases hm : ((g1 (cellCol (cx + dx) (cy + dy)) (cellRow (cx + dx) (cy + dy))).occupied &&
            decide ((g1 (cellCol (cx + dx) (cy + dy)) (cellRow (cx + dx) (cy + dy))).color =
              color)) = true
        · rw [if_pos hm, if_pos hm]
          have ho1 : (g1 (cellCol (cx + dx) (cy + dy))
              (cellRow (cx + dx) (cy + dy))).occupied = true := by
            rw [Bool.and_eq_true] at hm
            exact hm.1
          apply optRel_map _ _ _ _ _ _ (ih _ _)
          intro l1 l2 hl
          exact List.Forall₂.cons
            ⟨_, hc, _, hr, entryAt_of_offsets g1 h.2.1 _ _ hc hr ho1,
              entryAt_of_offsets g2 h.2.2 _ _ hc hr (by rw [← ho]; exact ho1)⟩ hl
        · rw [if_neg hm, if_neg hm]
          exact Or.inr ⟨_, _, rfl, rfl, List.Forall₂.nil⟩
      · rw [if_neg hobj, if_neg hobj]
        exact Or.inl ⟨rfl, rfl⟩
    · rw [if_neg hin, if_neg hin]
      exact Or.inr ⟨_, _, rfl, rfl, List.Forall₂.nil⟩

theorem clearEntry_at (g : Grid) (e : Int × Int) (c r : Nat) (hc : c < 6) (hr : r < 14)
    (h : EntryAt e c r) : clearEntry g e = some (clearCell g (c, r)) := by
  obtain ⟨h1, h2, h3, h4⟩ := h
  simp only [clearEntry, h1, h2, and_self, if_true, h3, h4, modifyBlock,
    inObject_of_lt c r hc hr, cellCol_of_lt c r hr, cellRow_of_lt c r hr, clearCell]

theorem pixelRel_clearCell (g1 g2 : Grid) (h : PixelRel g1 g2) (p : Nat × Nat) :
    PixelRel (clearCell g1 p) (clearCell g2 p) := by
  obtain ⟨hs, h1, h2⟩ := h
  refine ⟨?_, ?_, ?_⟩
  · intro c hc r hr
    by_cases hp : (c, r) = p
    · subst hp
      simp only [clearCell, setCell_same, and_self]
    · rw [clearCell_other g1 p c r hp, clearCell_other g2 p c r hp]
      exact hs c hc r hr
  · intro c hc r hr ho
    obtain ⟨ho', hne⟩ := clearCell_occupied g1 p c r ho
    rw [clearCell_other g1 p c r hne]
    exact h1 c hc r hr ho'
  · intro c hc r hr ho
    obtain ⟨ho', hne⟩ := clearCell_occupied g2 p c r ho
    rw [clearCell_other g2 p c r hne]
    exact h2 c hc r hr ho'

theorem clearEntries_rel (l1 l2 : List (Int × Int)) (hl : List.Forall₂ SameEntry l1 l2) :
    ∀ g1 g2, PixelRel g1 g2 →
      ∃ g1' g2', clearEntries g1 l1 = some g1' ∧ clearEntries g2 l2 = some g2' ∧
        PixelRel g1' g2' := by
  induction hl with
  | nil => intro g1 g2 h; exact ⟨g1, g2, rfl, rfl, h⟩
  | cons he _ ih =>
    intro g1 g2 h
    obtain ⟨c, hc, r, hr, h1, h2⟩ := he
    simp only [clearEntries, clearEntry_at g1 _ c r hc hr h1, clearEntry_at g2 _ c r hc hr h2,
      Option.some_bind]
    exact ih _ _ (pixelRel_clearCell g1 g2 h (c, r))

theorem clearLine_rel (g1 g2 : Grid) (h : PixelRel g1 g2) (b1 b2 : Block)
    (hb : SameEntry (b1.x, b1.y) (b2.x, b2.y)) (f1 f2 : List (Int × Int))
    (hf : List.Forall₂ SameEntry f1 f2) :
    ∃ g1' g2', clearLine g1 b1 f1 = some g1' ∧ clearLine g2 b2 f2 = some g2' ∧
      PixelRel g1' g2' := by
  have hlen : f1.length = f2.length := hf.length_eq
  have hskip : ∀ g0 : Grid, clearEntry g0 (-1, -1) = some g0 := by
    intro g0
    simp [clearEntry]
  unfold clearLine
  simp only [List.length_cons, hlen]
  by_cases hm : BLOCKS_TO_MATCH ≤ f2.length + 1
  · rw [if_pos hm, if_pos hm]
    simp only [List.cons_append, clearEntries, hskip, Option.some_bind]
    exact clearEntries_rel _ _
      (List.rel_append hf (List.Forall₂.cons hb List.Forall₂.nil)) g1 g2 h
  · rw [if_neg hm, if_neg hm]
    exact ⟨g1, g2, rfl, rfl, h⟩

theorem clearLines_rel (g1 g2 : Grid) (h : PixelRel g1 g2) (b1 b2 : Block)
    (hb : SameEntry (b1.x, b1.y) (b2.x, b2.y))
    (w1 w2 : List (Int × Int) × List (Int × Int) × List (Int × Int) × List (Int × Int))
    (hw : List.Forall₂ SameEntry w1.1 w2.1 ∧ List.Forall₂ SameEntry w1.2.1 w2.2.1 ∧
      List.Forall₂ SameEntry w1.2.2.1 w2.2.2.1 ∧ List.Forall₂ SameEntry w1.2.2.2 w2.2.2.2) :
    ∃ g1' g2', clearLines g1 b1 w1 = some g1' ∧ clearLines g2 b2 w2 = some g2' ∧
      PixelRel g1' g2' := by
  unfold clearLines
  obtain ⟨a1, a2, e1, e2, ha⟩ := clearLine_rel g1 g2 h b1 b2 hb _ _ hw.1
  obtain ⟨c1, c2, e3, e4, hc⟩ := clearLine_rel a1 a2 ha b1 b2 hb _ _ hw.2.1
  obtain ⟨d1, d2, e5, e6, hd⟩ := clearLine_rel c1 c2 hc b1 b2 hb _ _ hw.2.2.1
  simp only [e1, e2, e3, e4, e5, e6, Option.some_bind]
  exact clearLine_rel d1 d2 hd b1 b2 hb _ _ hw.2.2.2

theorem originWalks_rel (g1 g2 : Grid) (h : PixelRel g1 g2) (b1 b2 : Block)
    (hcol : b1.color = b2.color) (hx : b1.x.tdiv BLOCK_WIDTH = b2.x.tdiv BLOCK_WIDTH)
    (hy : b1.y.tdiv BLOCK_HEIGHT = b2.y.tdiv BLOCK_HEIGHT) :
    OptRel (fun w1 w2 =>
        List.Forall₂ SameEntry w1.1 w2.1 ∧ List.Forall₂ SameEntry w1.2.1 w2.2.1 ∧
        List.Forall₂ SameEntry w1.2.2.1 w2.2.2.1 ∧ List.Forall₂ SameEntry w1.2.2.2 w2.2.2.2)
      (originWalks g1 b1) (originWalks g2 b2) := by
  unfold originWalks
  simp only [hcol, hx, hy]
  apply optRel_bind _ _ _ _ _ _ (matchWalk_rel g1 g2 h _ _ _ _ _ _ _)
  intro bl1 bl2 hbl
  apply optRel_bind _ _ _ _ _ _ (matchWalk_rel g1 g2 h _ _ _ _ _ _ _)
  intro ur1 ur2 hur
  apply optRel_bind _ _ _ _ _ _ (matchWalk_rel g1 g2 h _ _ _ _ _ _ _)
  intro lr1 lr2 hlr
  apply optRel_bind _ _ _ _ _ _ (matchWalk_rel g1 g2 h _ _ _ _ _ _ _)
  intro ul1 ul2 hul
  apply optRel_bind _ _ _ _ _ _ (matchWalk_rel g1 g2 h _ _ _ _ _ _ _)
  intro hr1 hr2 hhr
  apply optRel_bind _ _ _ _ _ _ (matchWalk_rel g1 g2 h _ _ _ _ _ _ _)
  intro hl1 hl2 hhl
  apply optRel_bind _ _ _ _ _ _ (matchWalk_rel g1 g2 h _ _ _ _ _ _ _)
  intro vu1 vu2 hvu
  apply optRel_map _ _ _ _ _ _ (matchWalk_rel g1 g2 h _ _ _ _ _ _ _)
  intro vd1 vd2 hvd
  exact ⟨List.rel_append hhr hhl, List.rel_append hvu hvd, List.rel_append hbl hur,
    List.rel_append hlr hul⟩

theorem offsets_rowGrid (n : Nat) : OffsetsUpTo n rowGrid := by
  intro c hc r hr ho
  have ha : Aligned rowGrid := by
    unfold Aligned
    decide
  exact ⟨(ha c hc r hr ho).1, 0, Nat.zero_le n, by rw [(ha c hc r hr ho).2]; omega⟩

theorem offsets_slidGrid (n p : Nat) (hp : p ≤ n) :
    OffsetsUpTo n (slidGrid (250 + 25 * (p : Int))) := by
  intro c hc r hr ho
  by_cases hcr : c = 0 ∧ r = 5
  · obtain ⟨rfl, rfl⟩ := hcr
    exact ⟨rfl, p, hp, rfl⟩
  · unfold slidGrid at ho ⊢
    rw [setCell_other _ _ _ _ _ _ (by tauto)] at ho ⊢
    exact offsets_rowGrid n c hc r hr ho

theorem blocksFrom_occupied (g : Grid) (x y n : Nat) (h : (g x y).occupied = true) :
    blocksFrom g x y (n + 1) = (y, (g x y).color) :: blocksFrom g x (y + 1) n := by
  simp only [blocksFrom, List.range'_succ, List.filterMap_cons, h, if_true]

theorem blocksFrom_free (g : Grid) (x y n : Nat) (h : (g x y).occupied = false) :
    blocksFrom g x y (n + 1) = blocksFrom g x (y + 1) n := by
  simp only [blocksFrom, List.range'_succ, List.filterMap_cons, h, Bool.false_eq_true, if_false]

theorem blocksFrom_congr (g1 g : Grid) (x y n : Nat) (h : ∀ r, y ≤ r → g1 x r = g x r) :
    blocksFrom g1 x y n = blocksFrom g x y n := by
  unfold blocksFrom
  apply List.filterMap_congr
  intro r hr
  rw [h r (List.mem_range'_1.mp hr).1]

theorem slid_same (l : List (Nat × Color)) : List.Forall₂ Slid l l := by
  induction l with
  | nil => exact List.Forall₂.nil
  | cons a l ih => exact List.Forall₂.cons ⟨rfl, Or.inl rfl⟩ ih

theorem columnOk_setCell (g : Grid) (x y : Nat) (b : Block) (hok : ColumnOk g x)
    (hb : b.occupied = true →
      b.x = 50 * (x : Int) ∧ ∃ p : Nat, p ≤ 2 ∧ b.y = 50 * (y : Int) + 25 * (p : Int)) :
    ColumnOk (setCell g x y b) x := by
  intro r hr ho
  by_cases hry : r = y
  · subst hry
    rw [setCell_same] at ho ⊢
    exact hb ho
  · rw [setCell_other _ _ _ _ _ _ (Or.inr hry)] at ho ⊢
    exact hok r hr ho

/-- The inner loop of the sliding pass, from row `y` on: it has a result, keeps the pixel
condition of column `x`, touches nothing outside the rows it visits, and the blocks of
those rows are afterwards the same blocks, each in its row or one row further down; a
block in row `y` that has not slid two half-steps stays in row `y`. -/
theorem compactRows_slide (x : Nat) (hx : x < 6) (n : Nat) :
    ∀ (y : Nat) (g : Grid), y + n = 14 → ColumnOk g x →
      ∃ g', (List.range' y n).foldlM (fun g' r => compactCell g' x r) g = some g' ∧
        ColumnOk g' x ∧
        (∀ x' r, (x' ≠ x ∨ r < y) → g' x' r = g x' r) ∧
        List.Forall₂ Slid (blocksFrom g x y n) (blocksFrom g' x y n) ∧
        ((g x y).occupied = true → (g x y).y ≠ 50 * (y : Int) + 50 →
          (g' x y).occupied = true ∧ (g' x y).color = (g x y).color) := by
  induction n with
  | zero =>
    intro y g _ hok
    exact ⟨g, rfl, hok, fun _ _ _ => rfl, List.Forall₂.nil, fun ho _ => ⟨ho, rfl⟩⟩
  | succ n ih =>
    intro y g hyn hok
    have hy : y < 14 := by omega
    simp only [List.range'_succ, List.foldlM_cons]
    -- the cell at row `y` is left alone
    have hskip : compactCell g x y = some g →
        ∃ g', (compactCell g x y).bind
              (fun g1 => (List.range' (y + 1) n).foldlM (fun g' r => compactCell g' x r) g1) =
            some g' ∧ ColumnOk g' x ∧
          (∀ x' r, (x' ≠ x ∨ r < y) → g' x' r = g x' r) ∧
          List.Forall₂ Slid (blocksFrom g x y (n + 1)) (blocksFrom g' x y (n + 1)) ∧
          ((g x y).occupied = true → (g x y).y ≠ 50 * (y : Int) + 50 →
            (g' x y).occupied = true ∧ (g' x y).color = (g x y).color) := by
      intro hc
      obtain ⟨g', hf, hok', hframe, hall, _⟩ := ih (y + 1) g (by omega) hok
      have hsame : g' x y = g x y := hframe x y (Or.inr (Nat.lt_succ_self y))
      refine ⟨g', by rw [hc]; exact hf, hok',
        fun x' r h => hframe x' r (h.imp id (fun h => by omega)), ?_,
        fun ho _ => by rw [hsame]; exact ⟨ho, rfl⟩⟩
      cases ho : (g x y).occupied with
      | false =>
        rw [blocksFrom_free g x y n ho, blocksFrom_free g' x y n (by rw [hsame]; exact ho)]
        exact hall
      | true =>
        rw [blocksFrom_occupied g x y n ho,
          blocksFrom_occupied g' x y n (by rw [hsame]; exact ho), hsame]
        exact List.Forall₂.cons ⟨rfl, Or.inl rfl⟩ hall
    by_cases ho : (g x y).occupied = true
    · by_cases hy1 : y + 1 < 14
      · by_cases hb : (g x (y + 1)).occupied = true
        · exact hskip (compactCell_skip g x y (Or.inr (Or.inr hb)))
        · have hb' : (g x (y + 1)).occupied = false := by simpa using hb
          obtain ⟨hpx, p, hp, hpy⟩ := hok y hy ho
          by_cases hp2 : p < 2
          · -- the block advances one half-step
            have hc := compactCell_advance g x y p hy1 ho hb' hpy hp2
            have hok1 : ColumnOk (setCell g x y { g x y with y := (g x y).y + 25 }) x :=
              columnOk_setCell g x y _ hok
                (fun _ => ⟨hpx, p + 1, by omega,
                  by show (g x y).y + 25 = _; rw [hpy]; push_cast; omega⟩)
            obtain ⟨g', hf, hok', hframe, hall, _⟩ := ih (y + 1) _ (by omega) hok1
            have hsame : g' x y = { g x y with y := (g x y).y + 25 } := by
              rw [hframe x y (Or.inr (Nat.lt_succ_self y)), setCell_same]
            have hrest : blocksFrom (setCell g x y { g x y with y := (g x y).y + 25 }) x
                (y + 1) n = blocksFrom g x (y + 1) n :=
              blocksFrom_congr _ g x (y + 1) n
                (fun r hr => setCell_other _ _ _ _ _ _ (Or.inr (by omega)))
            have ho' : (g' x y).occupied = true := by rw [hsame]; exact ho
            have hc' : (g' x y).color = (g x y).color := by rw [hsame]
            refine ⟨g', by rw [hc]; exact hf, hok', ?_, ?_, fun _ _ => ⟨ho', hc'⟩⟩
            · intro x' r h
              rw [hframe x' r (h.imp id (fun h => by omega))]
              exact setCell_other _ _ _ _ _ _ (by omega)
            · rw [blocksFrom_occupied g x y n ho, blocksFrom_occupied g' x y n ho', hc']
              rw [hrest] at hall
              exact List.Forall₂.cons ⟨rfl, Or.inl rfl⟩ hall
          · -- the block moves into the cell below
            have hp2' : p = 2 := by omega
            subst hp2'
            have hpy' : (g x y).y = 50 * (y : Int) + 50 := by rw [hpy]; push_cast; omega
            obtain ⟨m, hm⟩ : ∃ m, n = m + 1 := ⟨n - 1, by omega⟩
            subst hm
            have hc := compactCell_move g x y hx hy1 ho hb' hpx hpy'
            generalize hg1 : setCell
              (setCell g x (y + 1)
                { occupied := true, x := (g x y).x, y := 50 * ((y : Int) + 1),
                  color := (g x y).color })
              x y { occupied := false, x := (x : Int) * 50, y := (y : Int) * 50,
                    color := Color.black } = g1 at hc
            have h1y : g1 x y =
                Block.mk false ((x : Int) * 50) ((y : Int) * 50) Color.black := by
              rw [← hg1, setCell_same]
            have h1y1 : g1 x (y + 1) =
                Block.mk true (g x y).x (50 * ((y : Int) + 1)) (g x y).color := by
              rw [← hg1, setCell_other _ _ _ _ _ _ (Or.inr (by omega)), setCell_same]
            have h1o : ∀ x' r, (x' ≠ x ∨ (r ≠ y ∧ r ≠ y + 1)) → g1 x' r = g x' r := by
              intro x' r h
              rw [← hg1, setCell_other _ _ _ _ _ _ (by omega),
                setCell_other _ _ _ _ _ _ (by omega)]
            have hok1 : ColumnOk g1 x := by
              rw [← hg1]
              apply columnOk_setCell _ x y _ _
                (fun hcon => absurd (show false = true from hcon) Bool.false_ne_true)
              exact columnOk_setCell g x (y + 1) _ hok
                (fun _ => ⟨hpx, 0, by omega, by push_cast; omega⟩)
            obtain ⟨g', hf, hok', hframe, hall, hstay⟩ := ih (y + 1) g1 (by omega) hok1
            have hy' : g' x y = g1 x y := hframe x y (Or.inr (Nat.lt_succ_self y))
            obtain ⟨ho2, hc2⟩ := hstay (by rw [h1y1])
              (by rw [h1y1]; show ¬ _; push_cast; omega)
            refine ⟨g', by rw [hc]; exact hf, hok', ?_, ?_, fun _ hne => absurd hpy' hne⟩
            · intro x' r h
              rw [hframe x' r (h.imp id (fun h => by omega))]
              exact h1o x' r (by omega)
            · rw [blocksFrom_occupied g x y (m + 1) ho, blocksFrom_free g x (y + 1) m hb',
                blocksFrom_free g' x y (m + 1) (by rw [hy', h1y]),
                blocksFrom_occupied g' x (y + 1) m ho2]
              rw [blocksFrom_occupied g1 x (y + 1) m (by rw [h1y1]),
                blocksFrom_occupied g' x (y + 1) m ho2,
                blocksFrom_congr g1 g x (y + 1 + 1) m
                  (fun r hr => h1o x r (Or.inr ⟨by omega, by omega⟩))] at hall
              cases hall with
              | cons _ htail =>
                refine List.Forall₂.cons ⟨?_, Or.inr rfl⟩ htail
                show (g' x (y + 1)).color = (g x y).color
                rw [hc2, h1y1]
      · exact hskip (compactCell_skip g x y (Or.inr (Or.inl hy1)))
    · exact hskip (compactCell_skip g x y (Or.inl (by simpa using ho)))

theorem compactColumn_slide (g : Grid) (x : Nat) (hx : x < 6) (hok : ColumnOk g x) :
    ∃ g', compactColumn g x = some g' ∧ ColumnOk g' x ∧
      (∀ x' r, x' ≠ x → g' x' r = g x' r) ∧
      List.Forall₂ Slid (columnBlocksOf g x) (columnBlocksOf g' x) := by
  obtain ⟨g', hf, hok', hframe, hall, _⟩ := compactRows_slide x hx 14 0 g rfl hok
  refine ⟨g', ?_, hok', fun x' r hne => hframe x' r (Or.inl hne), hall⟩
  unfold compactColumn
  rw [List.range_eq_range']
  exact hf

theorem columnBlocksOf_congr (g1 g : Grid) (x : Nat) (h : ∀ r, g1 x r = g x r) :
    columnBlocksOf g1 x = columnBlocksOf g x :=
  blocksFrom_congr g1 g x 0 14 (fun r _ => h r)

theorem compactColumns_slide (n : Nat) :
    ∀ (x0 : Nat) (g : Grid), x0 + n = 6 → OffsetsUpTo 2 g →
      ∃ g', (List.range' x0 n).foldlM compactColumn g = some g' ∧ OffsetsUpTo 2 g' ∧
        (∀ x, x0 ≤ x → x < 6 →
          List.Forall₂ Slid (columnBlocksOf g x) (columnBlocksOf g' x)) ∧
        (∀ x r, x < x0 → g' x r = g x r) := by
  induction n with
  | zero =>
    intro x0 g h6 hok
    exact ⟨g, rfl, hok, fun x h1 h2 => absurd h2 (by omega), fun _ _ _ => rfl⟩
  | succ n ih =>
    intro x0 g h6 hok
    have hx0 : x0 < 6 := by omega
    obtain ⟨g1, hc, hok1, hf1, hs1⟩ := compactColumn_slide g x0 hx0 (hok x0 hx0)
    have hgok1 : OffsetsUpTo 2 g1 := by
      intro x hx
      by_cases hxe : x = x0
      · subst hxe
        exact hok1
      · exact columnOk_congr g1 g x (fun r => hf1 x r hxe) (hok x hx)
    obtain ⟨g', hf, hok', hs, hframe⟩ := ih (x0 + 1) g1 (by omega) hgok1
    refine ⟨g', ?_, hok', ?_, ?_⟩
    · rw [List.range'_succ, List.foldlM_cons, hc]
      exact hf
    · intro x hx1 hx2
      by_cases hxe : x = x0
      · subst hxe
        rw [columnBlocksOf_congr g' g1 x (fun r => hframe x r (Nat.lt_succ_self x))]
        exact hs1
      · rw [← columnBlocksOf_congr g1 g x (fun r => hf1 x r hxe)]
        exact hs x (by omega) hx2
    · intro x r hx
      rw [hframe x r (by omega), hf1 x r (by omega)]

theorem slid_colours (l1 l2 : List (Nat × Color)) (h : List.Forall₂ Slid l1 l2) :
    l2.map Prod.snd = l1.map Prod.snd := by
  induction h with
  | nil => rfl
  | cons hab _ ih => rw [List.map_cons, List.map_cons, ih, hab.1]

/-- C21. Compaction only slides blocks.  For every grid whose occupied cells at index
`(col, row)` have pixel `x = col * 50` and pixel `y` in
`{row * 50, row * 50 + 25, row * 50 + 50}`, the sliding pass of `compactBlocks` returns a
grid that satisfies the same pixel condition and in which, for each column, the occupied
cells taken top to bottom are the blocks of that column before the pass, in the same
order and with the same colours, each in the row it was in or in the next row down.  This
is the grid a call of `compactBlocks` that passes the rate limiter stores. -/
theorem compactGrid_slides (g : Grid) (h : OffsetsUpTo 2 g) :
    ∃ g', compactGrid g = some g' ∧ OffsetsUpTo 2 g' ∧
      (∀ x < 6, List.Forall₂ Slid (columnBlocksOf g x) (columnBlocksOf g' x)) ∧
      (∀ x < 6, (columnBlocksOf g' x).map Prod.snd = (columnBlocksOf g x).map Prod.snd) ∧
      (∀ x < 6, (columnBlocksOf g' x).length = (columnBlocksOf g x).length) ∧
      ∀ (t : ℚ) (s : GameState), s.placedBlocks = g → CompactFires t s →
        ∃ s', compactBlocks t s = some s' ∧ s'.placedBlocks = g' := by
  obtain ⟨g', hf, hok', hs, _⟩ := compactColumns_slide 6 0 g rfl h
  have hg : compactGrid g = some g' := by
    unfold compactGrid
    rw [List.range_eq_range']
    exact hf
  refine ⟨g', hg, hok', fun x hx => hs x (Nat.zero_le x) hx,
    fun x hx => slid_colours _ _ (hs x (Nat.zero_le x) hx),
    fun x hx => (hs x (Nat.zero_le x) hx).length_eq.symm, ?_⟩
  intro t s hsg hfire
  rw [compactBlocks_fires t s hfire]
  unfold compactBlocksFired
  rw [hsg, hg]
  exact ⟨_, rfl, rfl⟩

theorem compactGrid_slides_witness :
    OffsetsUpTo 2 (slidGrid 300) ∧
      columnBlocksOf (slidGrid 300) 0 = [(5, Color.red)] ∧
      ∃ g', compactGrid (slidGrid 300) = some g' ∧ OffsetsUpTo 2 g' ∧
        columnBlocksOf g' 0 = [(6, Color.red)] ∧ columnBlocksOf g' 1 = [(5, Color.red)] := by
  obtain ⟨g', hg, hok, _⟩ :=
    compactGrid_slides (slidGrid 300) (offsets_slidGrid 2 2 (le_refl 2))
  have he : ∃ g1, compactGrid (slidGrid 300) = some g1 ∧
      (columnBlocksOf g1 0 = [(6, Color.red)] ∧ columnBlocksOf g1 1 = [(5, Color.red)]) := by
    apply exists_of_optCheck
    decide
  obtain ⟨g1, hg1, h0, h1⟩ := he
  rw [hg, Option.some.injEq] at hg1
  subst hg1
  exact ⟨offsets_slidGrid 2 2 (le_refl 2), by decide, g', hg, hok, h0, h1⟩

/-! ### After `clearAndScore`: no line of three, a second call changes nothing -/

theorem clearedFrom_refl (g : Grid) : ClearedFrom g g := fun _ _ _ => rfl

theorem clearedFrom_trans (a b c : Grid) (hab : ClearedFrom a b) (hbc : ClearedFrom b c) :
    ClearedFrom a c := by
  intro x y ho
  have h1 := hbc x y ho
  rw [h1] at ho ⊢
  exact hab x y ho

theorem clearedFrom_occupied (g g' : Grid) (h : ClearedFrom g g') (c r : Nat)
    (ho : (g' c r).occupied = true) : (g c r).occupied = true := by
  rw [← h c r ho]
  exact ho

theorem aligned_clearedFrom (g g' : Grid) (ha : Aligned g) (h : ClearedFrom g g') :
    Aligned g' := by
  intro c hc r hr ho
  have he := h c r ho
  rw [he] at ho ⊢
  exact ha c hc r hr ho

theorem modifyBlock_cleared (g g' : Grid) (gx gy : Int)
    (h : modifyBlock g gx gy (fun b => { b with occupied := false, color := Color.black }) =
      some g') : ClearedFrom g g' := by
  unfold modifyBlock at h
  split at h
  · simp only [Option.some.injEq] at h
    subst h
    intro c r hcr
    unfold setCell at hcr ⊢
    split at hcr
    · simp at hcr
    · rename_i hne
      rw [if_neg hne]
  · simp at h

theorem clearEntry_cleared (g g' : Grid) (e : Int × Int) (h : clearEntry g e = some g') :
    ClearedFrom g g' := by
  unfold clearEntry at h
  split at h
  · exact modifyBlock_cleared g g' _ _ h
  · simp only [Option.some.injEq] at h
    subst h
    exact clearedFrom_refl g

theorem clearEntries_cleared (es : List (Int × Int)) :
    ∀ (g g' : Grid), clearEntries g es = some g' → ClearedFrom g g' := by
  induction es with
  | nil =>
    intro g g' h
    simp only [clearEntries, Option.some.injEq] at h
    subst h
    exact clearedFrom_refl g
  | cons e es ih =>
    intro g g' h
    simp only [clearEntries, Option.bind_eq_some] at h
    obtain ⟨g1, h1, h2⟩ := h
    exact clearedFrom_trans _ _ _ (clearEntry_cleared g g1 e h1) (ih g1 g' h2)

theorem clearLine_cleared (g g' : Grid) (block : Block) (found : List (Int × Int))
    (h : clearLine g block found = some g') : ClearedFrom g g' := by
  unfold clearLine at h
  split at h
  · exact clearEntries_cleared _ g g' h
  · simp only [Option.some.injEq] at h
    subst h
    exact clearedFrom_refl g

theorem scanOrigin_cleared (g g' : Grid) (x y : Nat) (h : scanOrigin g x y = some g') :
    ClearedFrom g g' := by
  unfold scanOrigin at h
  split at h
  · simp only [Option.some.injEq] at h
    subst h
    exact clearedFrom_refl g
  · rw [Option.bind_eq_some] at h
    obtain ⟨w, _, hw⟩ := h
    simp only [clearLines, Option.bind_eq_some] at hw
    obtain ⟨g1, h1, g2, h2, g3, h3, h4⟩ := hw
    exact clearedFrom_trans _ _ _ (clearLine_cleared _ _ _ _ h1)
      (clearedFrom_trans _ _ _ (clearLine_cleared _ _ _ _ h2)
        (clearedFrom_trans _ _ _ (clearLine_cleared _ _ _ _ h3) (clearLine_cleared _ _ _ _ h4)))

theorem matchWalk_cleared (g g' : Grid) (h : ClearedFrom g g') (color : Color)
    (inb : Int → Int → Bool) (dx dy : Int) :
    ∀ (fuel : Nat) (cx cy : Int) (l : List (Int × Int)),
      matchWalk g color inb dx dy fuel cx cy = some l →
      ∃ l', matchWalk g' color inb dx dy fuel cx cy = some l' ∧ l'.length ≤ l.length := by
  intro fuel
  induction fuel with
  | zero => intro cx cy l hl; simp [matchWalk] at hl
  | succ n ih =>
    intro cx cy l hl
    unfold matchWalk at hl ⊢
    by_cases hin : inb (cx + dx) (cy + dy) = true
    · rw [if_pos hin] at hl ⊢
      unfold readBlock at hl ⊢
      by_cases hobj : inObject (cx + dx) (cy + dy) = true
      · rw [if_pos hobj] at hl ⊢
        simp only at hl ⊢
        by_cases hm : ((g' (cellCol (cx + dx) (cy + dy)) (cellRow (cx + dx) (cy + dy))).occupied &&
            decide ((g' (cellCol (cx + dx) (cy + dy)) (cellRow (cx + dx) (cy + dy))).color =
              color)) = true
        · rw [if_pos hm]
          have ho : (g' (cellCol (cx + dx) (cy + dy))
              (cellRow (cx + dx) (cy + dy))).occupied = true := by
            rw [Bool.and_eq_true] at hm
            exact hm.1
          have he := h _ _ ho
          rw [he] at hm
          rw [if_pos hm, Option.map_eq_some'] at hl
          obtain ⟨l0, hl0, hl⟩ := hl
          obtain ⟨l0', hl0', hlen⟩ := ih _ _ _ hl0
          rw [hl0', Option.map_some']
          exact ⟨_, rfl, by rw [← hl]; simp only [List.length_cons]; omega⟩
        · rw [if_neg hm]
          exact ⟨[], rfl, Nat.zero_le _⟩
      · rw [if_neg hobj] at hl
        simp at hl
    · rw [if_neg hin]
      exact ⟨[], rfl, Nat.zero_le _⟩

theorem originWalks_cleared (g g' : Grid) (h : ClearedFrom g g') (block : Block)
    (w : List (Int × Int) × List (Int × Int) × List (Int × Int) × List (Int × Int))
    (hw : originWalks g block = some w) :
    ∃ w', originWalks g' block = some w' ∧ w'.1.length ≤ w.1.length ∧
      w'.2.1.length ≤ w.2.1.length ∧ w'.2.2.1.length ≤ w.2.2.1.length ∧
      w'.2.2.2.length ≤ w.2.2.2.length := by
  simp only [originWalks, Option.bind_eq_some, Option.map_eq_some'] at hw
  obtain ⟨bl, hbl, ur, hur, lr, hlr, ul, hul, hr, hhr, hl, hhl, vu, hvu, vd, hvd, hw⟩ := hw
  obtain ⟨bl', hbl', ebl⟩ := matchWalk_cleared g g' h _ _ _ _ _ _ _ _ hbl
  obtain ⟨ur', hur', eur⟩ := matchWalk_cleared g g' h _ _ _ _ _ _ _ _ hur
  obtain ⟨lr', hlr', elr⟩ := matchWalk_cleared g g' h _ _ _ _ _ _ _ _ hlr
  obtain ⟨ul', hul', eul⟩ := matchWalk_cleared g g' h _ _ _ _ _ _ _ _ hul
  obtain ⟨hr', hhr', ehr⟩ := matchWalk_cleared g g' h _ _ _ _ _ _ _ _ hhr
  obtain ⟨hl', hhl', ehl⟩ := matchWalk_cleared g g' h _ _ _ _ _ _ _ _ hhl
  obtain ⟨vu', hvu', evu⟩ := matchWalk_cleared g g' h _ _ _ _ _ _ _ _ hvu
  obtain ⟨vd', hvd', evd⟩ := matchWalk_cleared g g' h _ _ _ _ _ _ _ _ hvd
  refine ⟨(hr' ++ hl', vu' ++ vd', bl' ++ ur', lr' ++ ul'), ?_, ?_, ?_, ?_, ?_⟩
  · simp only [originWalks, hbl', hur', hlr', hul', hhr', hhl', hvu', hvd', Option.some_bind,
      Option.map_some']
  all_goals
    rw [← hw]
    simp only [List.length_append]
    omega

theorem quiet_cleared (g g' : Grid) (h : ClearedFrom g g') (x y : Nat) (hq : Quiet g x y) :
    Quiet g' x y := by
  intro ho
  have he := h x y ho
  obtain ⟨w, hw, h1, h2, h3, h4⟩ := hq (clearedFrom_occupied g g' h x y ho)
  obtain ⟨w', hw', e1, e2, e3, e4⟩ := originWalks_cleared g g' h _ w hw
  rw [he]
  simp only [List.length_cons] at h1 h2 h3 h4 ⊢
  exact ⟨w', hw', by omega, by omega, by omega, by omega⟩

theorem clearEntries_append (l1 l2 : List (Int × Int)) :
    ∀ g : Grid, clearEntries g (l1 ++ l2) =
      (clearEntries g l1).bind (fun g' => clearEntries g' l2) := by
  induction l1 with
  | nil => intro g; rfl
  | cons e l1 ih =>
    intro g
    simp only [List.cons_append, clearEntries]
    cases clearEntry g e with
    | none => rfl
    | some g1 => exact ih g1

theorem clearLine_long (g g2 : Grid) (block : Block) (found : List (Int × Int)) (x y : Nat)
    (hx : x < 6) (hy : y < 14) (hbx : block.x = 50 * (x : Int)) (hby : block.y = 50 * (y : Int))
    (hlong : BLOCKS_TO_MATCH ≤ ((-1, -1) :: found).length)
    (h : clearLine g block found = some g2) : (g2 x y).occupied = false := by
  unfold clearLine at h
  rw [if_pos hlong, clearEntries_append, Option.bind_eq_some] at h
  obtain ⟨g1, _, h1⟩ := h
  rw [hbx, hby] at h1
  simp only [clearEntries, clearEntry_cell g1 (x, y) hx hy, Option.some_bind,
    Option.some.injEq] at h1
  rw [← h1]
  simp only [clearCell, setCell_same]

theorem clearLine_short (g : Grid) (block : Block) (found : List (Int × Int))
    (hshort : ((-1, -1) :: found).length < BLOCKS_TO_MATCH) :
    clearLine g block found = some g := by
  unfold clearLine
  rw [if_neg (Nat.not_le.mpr hshort)]

/-- After the scan of an origin that is still occupied, the origin found no line to clear
and the scan changed nothing. -/
theorem scanOrigin_quiet (g g1 : Grid) (x y : Nat) (hx : x < 6) (hy : y < 14)
    (hal : (g x y).occupied = true → (g x y).x = 50 * (x : Int) ∧ (g x y).y = 50 * (y : Int))
    (h : scanOrigin g x y = some g1) : Quiet g1 x y := by
  intro ho1
  have hc := scanOrigin_cleared g g1 x y h
  have ho := clearedFrom_occupied g g1 hc x y ho1
  obtain ⟨hbx, hby⟩ := hal ho
  unfold scanOrigin at h
  simp only [ho, Bool.not_true, Bool.false_eq_true, if_false, Option.bind_eq_some] at h
  obtain ⟨w, hw, hcl⟩ := h
  simp only [clearLines, Option.bind_eq_some] at hcl
  obtain ⟨a1, h1, a2, h2, a3, h3, h4⟩ := hcl
  have c2 := clearLine_cleared _ _ _ _ h2
  have c3 := clearLine_cleared _ _ _ _ h3
  have c4 := clearLine_cleared _ _ _ _ h4
  have o3 := clearedFrom_occupied a3 g1 c4 x y ho1
  have o2 := clearedFrom_occupied a2 a3 c3 x y o3
  have o1 := clearedFrom_occupied a1 a2 c2 x y o2
  have s1 : ((-1, -1) :: w.1).length < BLOCKS_TO_MATCH := by
    by_contra hcon
    have := clearLine_long g a1 _ _ x y hx hy hbx hby (Nat.le_of_not_lt hcon) h1
    rw [this] at o1
    exact Bool.false_ne_true o1
  rw [clearLine_short g _ _ s1, Option.some.injEq] at h1
  subst h1
  have s2 : ((-1, -1) :: w.2.1).length < BLOCKS_TO_MATCH := by
    by_contra hcon
    have := clearLine_long g a2 _ _ x y hx hy hbx hby (Nat.le_of_not_lt hcon) h2
    rw [this] at o2
    exact Bool.false_ne_true o2
  rw [clearLine_short g _ _ s2, Option.some.injEq] at h2
  subst h2
  have s3 : ((-1, -1) :: w.2.2.1).length < BLOCKS_TO_MATCH := by
    by_contra hcon
    have := clearLine_long g a3 _ _ x y hx hy hbx hby (Nat.le_of_not_lt hcon) h3
    rw [this] at o3
    exact Bool.false_ne_true o3
  rw [clearLine_short g _ _ s3, Option.some.injEq] at h3
  subst h3
  have s4 : ((-1, -1) :: w.2.2.2).length < BLOCKS_TO_MATCH := by
    by_contra hcon
    have := clearLine_long g g1 _ _ x y hx hy hbx hby (Nat.le_of_not_lt hcon) h4
    rw [this] at ho1
    exact Bool.false_ne_true ho1
  rw [clearLine_short g _ _ s4, Option.some.injEq] at h4
  subst h4
  exact ⟨w, hw, s1, s2, s3, s4⟩

theorem scanOrigin_of_quiet (g : Grid) (x y : Nat) (hq : Quiet g x y) :
    scanOrigin g x y = some g := by
  unfold scanOrigin
  by_cases ho : (g x y).occupied = true
  · obtain ⟨w, hw, s1, s2, s3, s4⟩ := hq ho
    simp only [ho, Bool.not_true, Bool.false_eq_true, if_false, hw, Option.some_bind, clearLines,
      clearLine_short g _ _ s1, clearLine_short g _ _ s2, clearLine_short g _ _ s3,
      clearLine_short g _ _ s4]
  · have ho' : (g x y).occupied = false := by simpa using ho
    simp only [ho', Bool.not_false, if_true]

theorem foldlM_post {α β : Type} (R : β → β → Prop) (hrefl : ∀ b, R b b)
    (htrans : ∀ a b c, R a b → R b c → R a c) (I : β → Prop)
    (hI : ∀ b b', I b → R b b' → I b') (P : α → β → Prop)
    (hmono : ∀ a b b', P a b → R b b' → P a b') (f : β → α → Option β) (l : List α)
    (hf : ∀ a ∈ l, ∀ b b', I b → f b a = some b' → R b b' ∧ P a b') :
    ∀ b b', I b → l.foldlM f b = some b' → R b b' ∧ ∀ a ∈ l, P a b' := by
  induction l with
  | nil =>
    intro b b' _ h
    simp only [List.foldlM, pure, Option.some.injEq] at h
    subst h
    exact ⟨hrefl b, fun a ha => absurd ha (List.not_mem_nil a)⟩
  | cons a l ih =>
    intro b b' hb h
    rw [List.foldlM_cons] at h
    cases hfa : f b a with
    | none => rw [hfa] at h; simp at h
    | some b1 =>
      rw [hfa] at h
      obtain ⟨r1, p1⟩ := hf a (List.mem_cons_self a l) b b1 hb hfa
      obtain ⟨r2, p2⟩ := ih (fun a' ha' => hf a' (List.mem_cons_of_mem a ha')) b1 b'
        (hI b b1 hb r1) h
      refine ⟨htrans _ _ _ r1 r2, ?_⟩
      intro a' ha'
      rcases List.mem_cons.mp ha' with he | hm
      · rw [he]
        exact hmono a b1 b' p1 r2
      · exact p2 a' hm

/-- Every origin of the grid `clearAndScore` returns is quiet, and that grid is the
argument with some cells cleared. -/
theorem clearAndScore_quiet (g g' : Grid) (ha : Aligned g) (h : clearAndScore g = some g') :
    ClearedFrom g g' ∧ Aligned g' ∧ ∀ x < 6, ∀ y < 14, Quiet g' x y := by
  have hcol : ∀ x ∈ List.range 6, ∀ (b b' : Grid), Aligned b → scanColumn b x = some b' →
      ClearedFrom b b' ∧ ∀ y < 14, Quiet b' x y := by
    intro x hx b b' hb hs
    obtain ⟨hr, hp⟩ := foldlM_post ClearedFrom clearedFrom_refl clearedFrom_trans Aligned
      aligned_clearedFrom (fun (y : Nat) (b0 : Grid) => Quiet b0 x y)
      (fun y b0 b1 hq hc => quiet_cleared b0 b1 hc x y hq)
      (fun g0 y => scanOrigin g0 x y) (List.range 14)
      (fun y hy b0 b1 hb0 hs0 => ⟨scanOrigin_cleared b0 b1 x y hs0,
        scanOrigin_quiet b0 b1 x y (List.mem_range.mp hx) (List.mem_range.mp hy)
          (hb0 x (List.mem_range.mp hx) y (List.mem_range.mp hy)) hs0⟩)
      b b' hb hs
    exact ⟨hr, fun y hy => hp y (List.mem_range.mpr hy)⟩
  obtain ⟨hr, hp⟩ := foldlM_post ClearedFrom clearedFrom_refl clearedFrom_trans Aligned
    aligned_clearedFrom (fun (x : Nat) (b0 : Grid) => ∀ y < 14, Quiet b0 x y)
    (fun x b0 b1 hq hc y hy => quiet_cleared b0 b1 hc x y (hq y hy))
    scanColumn (List.range 6) hcol g g' ha h
  exact ⟨hr, aligned_clearedFrom g g' ha hr, fun x hx => hp x (List.mem_range.mpr hx)⟩

theorem clearAndScore_of_quiet (g : Grid) (hq : ∀ x < 6, ∀ y < 14, Quiet g x y) :
    clearAndScore g = some g := by
  unfold clearAndScore
  apply foldlM_fixed
  intro x hx
  unfold scanColumn
  apply foldlM_fixed
  intro y hy
  exact scanOrigin_of_quiet g x y (hq x (List.mem_range.mp hx) y (List.mem_range.mp hy))

theorem sameColourAt_cell (g : Grid) (col : Color) (a b : Int)
    (h : sameColourAt g col a b = true) :
    (0 ≤ a ∧ a < 6 ∧ 0 ≤ b ∧ b < 14) ∧ readBlock g a b = some (g a.toNat b.toNat) ∧
      (g a.toNat b.toNat).occupied = true ∧ (g a.toNat b.toNat).color = col := by
  simp only [sameColourAt, Bool.and_eq_true, decide_eq_true_eq] at h
  obtain ⟨⟨⟨⟨⟨h0, h1⟩, h2⟩, h3⟩, ho⟩, hc⟩ := h
  refine ⟨⟨h0, h1, h2, h3⟩, ?_, ho, hc⟩
  obtain ⟨a', rfl⟩ := Int.eq_ofNat_of_zero_le h0
  obtain ⟨b', rfl⟩ := Int.eq_ofNat_of_zero_le h2
  have ha : a' < 6 := by omega
  have hb : b' < 14 := by omega
  unfold readBlock
  rw [inObject_of_lt _ _ ha hb, cellCol_of_lt _ _ hb, cellRow_of_lt _ _ hb]
  rfl

theorem matchWalk_step (g : Grid) (col : Color) (inb : Int → Int → Bool) (dx dy : Int)
    (n : Nat) (cx cy : Int) (l : List (Int × Int))
    (h : matchWalk g col inb dx dy (n + 1) cx cy = some l)
    (hin : inb (cx + dx) (cy + dy) = true)
    (hs : sameColourAt g col (cx + dx) (cy + dy) = true) :
    ∃ l1, matchWalk g col inb dx dy n (cx + dx) (cy + dy) = some l1 ∧
      l.length = l1.length + 1 := by
  obtain ⟨_, hr, ho, hc⟩ := sameColourAt_cell g col _ _ hs
  unfold matchWalk at h
  rw [if_pos hin, hr] at h
  simp only [ho, hc, decide_True, Bool.and_self, if_true, Option.map_eq_some'] at h
  obtain ⟨l1, h1, hl⟩ := h
  exact ⟨l1, h1, by rw [← hl]; rfl⟩

theorem matchWalk_two (g : Grid) (col : Color) (inb : Int → Int → Bool) (dx dy : Int)
    (n : Nat) (cx cy : Int) (l : List (Int × Int))
    (h : matchWalk g col inb dx dy (n + 2) cx cy = some l)
    (hin1 : inb (cx + dx) (cy + dy) = true) (hin2 : inb (cx + dx + dx) (cy + dy + dy) = true)
    (hs1 : sameColourAt g col (cx + dx) (cy + dy) = true)
    (hs2 : sameColourAt g col (cx + dx + dx) (cy + dy + dy) = true) : 2 ≤ l.length := by
  obtain ⟨l1, h1, e1⟩ := matchWalk_step g col inb dx dy (n + 1) cx cy l h hin1 hs1
  obtain ⟨l2, _, e2⟩ := matchWalk_step g col inb dx dy n _ _ l1 h1 hin2 hs2
  omega

/-- No line of three starts at a cell of a grid-aligned grid whose origins are all quiet. -/
theorem quiet_noLine (g : Grid) (ha : Aligned g) (hq : ∀ x < 6, ∀ y < 14, Quiet g x y)
    (col : Color) (c r : Int) :
    ¬ Line3 g col c r 1 0 ∧ ¬ Line3 g col c r 0 1 ∧ ¬ Line3 g col c r 1 1 ∧
      ¬ Line3 g col c r 1 (-1) := by
  have key : ∀ dx dy : Int, Line3 g col c r dx dy →
      ∃ w, originWalks g (g c.toNat r.toNat) = some w ∧
        (g c.toNat r.toNat).color = col ∧
        (g c.toNat r.toNat).x.tdiv BLOCK_WIDTH = c ∧
        (g c.toNat r.toNat).y.tdiv BLOCK_HEIGHT = r ∧
        w.1.length + 1 < 3 ∧ w.2.1.length + 1 < 3 ∧ w.2.2.1.length + 1 < 3 ∧
        w.2.2.2.length + 1 < 3 := by
    intro dx dy hl
    obtain ⟨⟨h0, h1, h2, h3⟩, _, ho, hc⟩ := sameColourAt_cell g col c r hl.1
    obtain ⟨w, hw, s1, s2, s3, s4⟩ := hq c.toNat (by omega) r.toNat (by omega) ho
    obtain ⟨hpx, hpy⟩ := ha c.toNat (by omega) r.toNat (by omega) ho
    refine ⟨w, hw, hc, ?_, ?_, s1, s2, s3, s4⟩
    · rw [hpx, Int.mul_comm, Int.mul_tdiv_cancel _ (by decide)]
      exact Int.toNat_of_nonneg h0
    · rw [hpy, Int.mul_comm, Int.mul_tdiv_cancel _ (by decide)]
      exact Int.toNat_of_nonneg h2
  refine ⟨?_, ?_, ?_, ?_⟩
  · intro hl
    obtain ⟨w, hw, hc, hx, hy, s1, _, _, _⟩ := key _ _ hl
    obtain ⟨b1, _, _, _⟩ := sameColourAt_cell g col _ _ hl.2.1
    obtain ⟨b2, _, _, _⟩ := sameColourAt_cell g col _ _ hl.2.2
    simp only [originWalks, Option.bind_eq_some, Option.map_eq_some', hc, hx, hy, walkFuel]
      at hw
    obtain ⟨bl, _, ur, _, lr, _, ul, _, hr, hhr, hl', _, vu, _, vd, _, hw⟩ := hw
    have : 2 ≤ hr.length := by
      refine matchWalk_two g col _ 1 0 83 c r hr hhr ?_ ?_ hl.2.1 hl.2.2 <;>
      · simp only [decide_eq_true_eq, Bool.and_eq_true, GRID_BLOCK_WIDTH, GRID_BLOCK_HEIGHT,
          GRID_HEIGHT, BLOCK_HEIGHT]
        omega
    rw [← hw] at s1
    simp only [List.length_append] at s1
    omega
  · intro hl
    obtain ⟨w, hw, hc, hx, hy, _, s2, _, _⟩ := key _ _ hl
    obtain ⟨b1, _, _, _⟩ := sameColourAt_cell g col _ _ hl.2.1
    obtain ⟨b2, _, _, _⟩ := sameColourAt_cell g col _ _ hl.2.2
    simp only [originWalks, Option.bind_eq_some, Option.map_eq_some', hc, hx, hy, walkFuel]
      at hw
    obtain ⟨bl, _, ur, _, lr, _, ul, _, hr, _, hl', _, vu, _, vd, hvd, hw⟩ := hw
    have : 2 ≤ vd.length := by
      refine matchWalk_two g col _ 0 1 83 c r vd hvd ?_ ?_ hl.2.1 hl.2.2 <;>
      · simp only [decide_eq_true_eq, Bool.and_eq_true, GRID_BLOCK_WIDTH, GRID_BLOCK_HEIGHT,
          GRID_HEIGHT, BLOCK_HEIGHT]
        omega
    rw [← hw] at s2
    simp only [List.length_append] at s2
    omega
  · intro hl
    obtain ⟨w, hw, hc, hx, hy, _, _, _, s4⟩ := key _ _ hl
    obtain ⟨b1, _, _, _⟩ := sameColourAt_cell g col _ _ hl.2.1
    obtain ⟨b2, _, _, _⟩ := sameColourAt_cell g col _ _ hl.2.2
    simp only [originWalks, Option.bind_eq_some, Option.map_eq_some', hc, hx, hy, walkFuel]
      at hw
    obtain ⟨bl, _, ur, _, lr, hlr, ul, _, hr, _, hl', _, vu, _, vd, _, hw⟩ := hw
    have : 2 ≤ lr.length := by
      refine matchWalk_two g col _ 1 1 83 c r lr hlr ?_ ?_ hl.2.1 hl.2.2 <;>
      · simp only [decide_eq_true_eq, Bool.and_eq_true, GRID_BLOCK_WIDTH, GRID_BLOCK_HEIGHT,
          GRID_HEIGHT, BLOCK_HEIGHT]
        omega
    rw [← hw] at s4
    simp only [List.length_append] at s4
    omega
  · intro hl
    obtain ⟨w, hw, hc, hx, hy, _, _, s3, _⟩ := key _ _ hl
    obtain ⟨b1, _, _, _⟩ := sameColourAt_cell g col _ _ hl.2.1
    obtain ⟨b2, _, _, _⟩ := sameColourAt_cell g col _ _ hl.2.2
    simp only [originWalks, Option.bind_eq_some, Option.map_eq_some', hc, hx, hy, walkFuel]
      at hw
    obtain ⟨bl, _, ur, hur, lr, _, ul, _, hr, _, hl', _, vu, _, vd, _, hw⟩ := hw
    have : 2 ≤ ur.length := by
      refine matchWalk_two g col _ 1 (-1) 83 c r ur hur ?_ ?_ hl.2.1 hl.2.2 <;>
      · simp only [decide_eq_true_eq, Bool.and_eq_true, GRID_BLOCK_WIDTH, GRID_BLOCK_HEIGHT,
          GRID_HEIGHT, BLOCK_HEIGHT]
        omega
    rw [← hw] at s3
    simp only [List.length_append] at s3
    omega

theorem noLine3_of_quiet (g : Grid) (ha : Aligned g) (hq : ∀ x < 6, ∀ y < 14, Quiet g x y) :
    NoLine3 g := fun col c r => quiet_noLine g ha hq col c r

/-! ### Where `clearAndScore` has a result -/

theorem matchWalk_defined (g : Grid) (col : Color) (inb : Int → Int → Bool) (dx dy : Int)
    (J : Int → Int → Prop) (m : Int → Int → Nat)
    (hstep : ∀ cx cy, J cx cy → inb (cx + dx) (cy + dy) = true →
      inObject (cx + dx) (cy + dy) = true ∧
        ((g (cellCol (cx + dx) (cy + dy)) (cellRow (cx + dx) (cy + dy))).occupied = true →
          J (cx + dx) (cy + dy) ∧ m (cx + dx) (cy + dy) < m cx cy)) :
    ∀ (fuel : Nat) (cx cy : Int), J cx cy → m cx cy < fuel →
      ∃ l, matchWalk g col inb dx dy fuel cx cy = some l := by
  intro fuel
  induction fuel with
  | zero => intro cx cy _ hm; exact absurd hm (Nat.not_lt_zero _)
  | succ n ih =>
    intro cx cy hj hm
    unfold matchWalk
    by_cases hin : inb (cx + dx) (cy + dy) = true
    · obtain ⟨hobj, hnext⟩ := hstep cx cy hj hin
      rw [if_pos hin]
      unfold readBlock
      rw [if_pos hobj]
      simp only
      by_cases hmatch : ((g (cellCol (cx + dx) (cy + dy)) (cellRow (cx + dx) (cy + dy))).occupied &&
          decide ((g (cellCol (cx + dx) (cy + dy)) (cellRow (cx + dx) (cy + dy))).color = col)) =
          true
      · rw [if_pos hmatch]
        rw [Bool.and_eq_true] at hmatch
        obtain ⟨hj', hm'⟩ := hnext hmatch.1
        obtain ⟨l, hl⟩ := ih _ _ hj' (by omega)
        rw [hl]
        exact ⟨_, rfl⟩
      · rw [if_neg hmatch]
        exact ⟨[], rfl⟩
    · rw [if_neg hin]
      exact ⟨[], rfl⟩

theorem inObject_inGrid (a b : Int) (h : InGrid (a, b)) : inObject a b = true := by
  simp only [InGrid, GRID_BLOCK_WIDTH, GRID_BLOCK_HEIGHT] at h
  simp only [inObject, flatIndex, Bool.and_eq_true, decide_eq_true_eq, GRID_BLOCK_HEIGHT,
    GRID_BLOCK_WIDTH]
  omega

/-- A walk that stays inside the grid and moves strictly along the x axis, or strictly up,
has a result within 15 steps. -/
theorem matchWalk_inGrid_defined (g : Grid) (col : Color) (inb : Int → Int → Bool)
    (dx dy : Int) (m : Int → Int → Nat)
    (hstep : ∀ cx cy, InGrid (cx, cy) → inb (cx + dx) (cy + dy) = true →
      InGrid (cx + dx, cy + dy) ∧ m (cx + dx) (cy + dy) < m cx cy)
    (fuel : Nat) (cx cy : Int) (h : InGrid (cx, cy)) (hm : m cx cy < fuel) :
    ∃ l, matchWalk g col inb dx dy fuel cx cy = some l :=
  matchWalk_defined g col inb dx dy (fun a b => InGrid (a, b)) m
    (fun a b hab hin => ⟨inObject_inGrid _ _ (hstep a b hab hin).1, fun _ => hstep a b hab hin⟩)
    fuel cx cy h hm

/-- With cell `(5, 13)` free, the downward walk stops at the latest there: it has a result. -/
theorem matchWalk_down_defined (g : Grid) (col : Color) (h513 : (g 5 13).occupied = false)
    (cx cy : Int) (h0 : 0 ≤ flatIndex cx cy) (h1 : flatIndex cx cy ≤ 82) :
    ∃ l, matchWalk g col (fun _ cy => decide (cy < GRID_HEIGHT)) 0 1 walkFuel cx cy = some l := by
  apply matchWalk_defined g col _ 0 1 (fun a b => 0 ≤ flatIndex a b ∧ flatIndex a b ≤ 82)
    (fun a b => (83 - flatIndex a b).toNat) _ walkFuel cx cy ⟨h0, h1⟩
  · unfold walkFuel
    omega
  · intro a b hab _
    have hf : flatIndex (a + 0) (b + 1) = flatIndex a b + 1 := by
      simp only [flatIndex, Int.add_zero, GRID_BLOCK_HEIGHT]
      omega
    obtain ⟨ha0, ha1⟩ := hab
    refine ⟨?_, ?_⟩
    · simp only [inObject, hf, Bool.and_eq_true, decide_eq_true_eq, GRID_BLOCK_HEIGHT,
        GRID_BLOCK_WIDTH]
      omega
    · intro ho
      simp only [cellCol, cellRow, hf, GRID_BLOCK_HEIGHT] at ho
      have hne : flatIndex a b + 1 ≠ 83 := by
        intro he
        rw [he] at ho
        have e1 : ((83 : Int) / 14).toNat = 5 := by decide
        have e2 : ((83 : Int) % 14).toNat = 13 := by decide
        rw [e1, e2, h513] at ho
        exact Bool.false_ne_true ho
      show (0 ≤ flatIndex (a + 0) (b + 1) ∧ flatIndex (a + 0) (b + 1) ≤ 82) ∧
        (83 - flatIndex (a + 0) (b + 1)).toNat < (83 - flatIndex a b).toNat
      rw [hf]
      omega

theorem originWalks_defined (g : Grid) (ha : Aligned g) (h513 : (g 5 13).occupied = false)
    (x y : Nat) (hx : x < 6) (hy : y < 14) (ho : (g x y).occupied = true) :
    ∃ w, originWalks g (g x y) = some w := by
  obtain ⟨hpx, hpy⟩ := ha x hx y hy ho
  have ex : (g x y).x.tdiv BLOCK_WIDTH = (x : Int) := by
    rw [hpx, Int.mul_comm, Int.mul_tdiv_cancel _ (by decide)]
  have ey : (g x y).y.tdiv BLOCK_HEIGHT = (y : Int) := by
    rw [hpy, Int.mul_comm, Int.mul_tdiv_cancel _ (by decide)]
  have hin : InGrid ((x : Int), (y : Int)) := by
    simp only [InGrid, GRID_BLOCK_WIDTH, GRID_BLOCK_HEIGHT]
    omega
  have hne : ¬ (x = 5 ∧ y = 13) := by
    rintro ⟨rfl, rfl⟩
    rw [h513] at ho
    exact Bool.false_ne_true ho
  obtain ⟨bl, hbl⟩ := matchWalk_inGrid_defined g (g x y).color
    (fun cx cy => decide (0 ≤ cx) && decide (cy < GRID_BLOCK_HEIGHT)) (-1) 1
    (fun a _ => a.toNat)
    (by
      intro a b hab hi
      simp only [InGrid, GRID_BLOCK_WIDTH, GRID_BLOCK_HEIGHT] at hab ⊢
      simp only [Bool.and_eq_true, decide_eq_true_eq, GRID_BLOCK_HEIGHT] at hi
      omega)
    walkFuel x y hin (by unfold walkFuel; dsimp only; omega)
  obtain ⟨ur, hur⟩ := matchWalk_inGrid_defined g (g x y).color
    (fun cx cy => decide (cx < GRID_BLOCK_WIDTH) && decide (0 ≤ cy)) 1 (-1)
    (fun _ b => b.toNat)
    (by
      intro a b hab hi
      simp only [InGrid, GRID_BLOCK_WIDTH, GRID_BLOCK_HEIGHT] at hab ⊢
      simp only [Bool.and_eq_true, decide_eq_true_eq, GRID_BLOCK_WIDTH] at hi
      omega)
    walkFuel x y hin (by unfold walkFuel; dsimp only; omega)
  obtain ⟨lr, hlr⟩ := matchWalk_inGrid_defined g (g x y).color
    (fun cx cy => decide (cx < GRID_BLOCK_WIDTH) && decide (cy < GRID_BLOCK_HEIGHT)) 1 1
    (fun a _ => (6 - a).toNat)
    (by
      intro a b hab hi
      simp only [InGrid, GRID_BLOCK_WIDTH, GRID_BLOCK_HEIGHT] at hab ⊢
      simp only [Bool.and_eq_true, decide_eq_true_eq, GRID_BLOCK_WIDTH,
        GRID_BLOCK_HEIGHT] at hi
      omega)
    walkFuel x y hin (by unfold walkFuel; dsimp only; omega)
  obtain ⟨ul, hul⟩ := matchWalk_inGrid_defined g (g x y).color
    (fun cx cy => decide (0 ≤ cx) && decide (0 ≤ cy)) (-1) (-1)
    (fun a _ => a.toNat)
    (by
      intro a b hab hi
      simp only [InGrid, GRID_BLOCK_WIDTH, GRID_BLOCK_HEIGHT] at hab ⊢
      simp only [Bool.and_eq_true, decide_eq_true_eq] at hi
      omega)
    walkFuel x y hin (by unfold walkFuel; dsimp only; omega)
  obtain ⟨hr, hhr⟩ := matchWalk_inGrid_defined g (g x y).color
    (fun cx _ => decide (cx < GRID_BLOCK_WIDTH)) 1 0
    (fun a _ => (6 - a).toNat)
    (by
      intro a b hab hi
      simp only [InGrid, GRID_BLOCK_WIDTH, GRID_BLOCK_HEIGHT] at hab ⊢
      simp only [decide_eq_true_eq, GRID_BLOCK_WIDTH] at hi
      omega)
    walkFuel x y hin (by unfold walkFuel; dsimp only; omega)
  obtain ⟨hl, hhl⟩ := matchWalk_inGrid_defined g (g x y).color
    (fun cx _ => decide (0 ≤ cx)) (-1) 0
    (fun a _ => a.toNat)
    (by
      intro a b hab hi
      simp only [InGrid, GRID_BLOCK_WIDTH, GRID_BLOCK_HEIGHT] at hab ⊢
      simp only [decide_eq_true_eq] at hi
      omega)
    walkFuel x y hin (by unfold walkFuel; dsimp only; omega)
  obtain ⟨vu, hvu⟩ := matchWalk_inGrid_defined g (g x y).color
    (fun _ cy => decide (0 ≤ cy)) 0 (-1)
    (fun _ b => b.toNat)
    (by
      intro a b hab hi
      simp only [InGrid, GRID_BLOCK_WIDTH, GRID_BLOCK_HEIGHT] at hab ⊢
      simp only [decide_eq_true_eq] at hi
      omega)
    walkFuel x y hin (by unfold walkFuel; dsimp only; omega)
  obtain ⟨vd, hvd⟩ := matchWalk_down_defined g (g x y).color h513 x y
    (by simp only [flatIndex, GRID_BLOCK_HEIGHT]; omega)
    (by simp only [flatIndex, GRID_BLOCK_HEIGHT]; omega)
  refine ⟨(hr ++ hl, vu ++ vd, bl ++ ur, lr ++ ul), ?_⟩
  simp only [originWalks, ex, ey, hbl, hur, hlr, hul, hhr, hhl, hvu, hvd, Option.some_bind,
    Option.map_some']

theorem pixelRel_self (g : Grid) (ha : Aligned g) : PixelRel g g := by
  have ho : OffsetsUpTo 1 g := fun c hc r hr ho =>
    ⟨(ha c hc r hr ho).1, 0, Nat.zero_le 1, by rw [(ha c hc r hr ho).2]; omega⟩
  exact ⟨fun _ _ _ _ => ⟨rfl, rfl⟩, ho, ho⟩

theorem scanOrigin_defined (g : Grid) (ha : Aligned g) (h513 : (g 5 13).occupied = false)
    (x y : Nat) (hx : x < 6) (hy : y < 14) : ∃ g1, scanOrigin g x y = some g1 := by
  by_cases ho : (g x y).occupied = true
  · obtain ⟨w, hw⟩ := originWalks_defined g ha h513 x y hx hy ho
    have hp := pixelRel_self g ha
    have he := entryAt_of_offsets g hp.2.1 x y hx hy ho
    have hrel := originWalks_rel g g hp (g x y) (g x y) rfl rfl rfl
    rw [hw] at hrel
    rcases hrel with ⟨hn, _⟩ | ⟨a, b, e1, e2, hab⟩
    · exact absurd hn (by simp)
    · rw [Option.some.injEq] at e1 e2
      subst e1
      subst e2
      obtain ⟨g1, _, h1, _, _⟩ :=
        clearLines_rel g g hp (g x y) (g x y) ⟨x, hx, y, hy, he, he⟩ _ _ hab
      refine ⟨g1, ?_⟩
      unfold scanOrigin
      simp only [ho, Bool.not_true, Bool.false_eq_true, if_false, hw, Option.some_bind]
      exact h1
  · have ho' : (g x y).occupied = false := by simpa using ho
    exact ⟨g, by unfold scanOrigin; simp only [ho', Bool.not_false, if_true]⟩

theorem foldlM_defined {α β : Type} (R : β → β → Prop) (hrefl : ∀ b, R b b)
    (htrans : ∀ a b c, R a b → R b c → R a c) (I : β → Prop)
    (hI : ∀ b b', I b → R b b' → I b') (f : β → α → Option β) (l : List α)
    (hf : ∀ a ∈ l, ∀ b, I b → ∃ b', f b a = some b' ∧ R b b') :
    ∀ b, I b → ∃ b', l.foldlM f b = some b' ∧ R b b' := by
  induction l with
  | nil => intro b _; exact ⟨b, rfl, hrefl b⟩
  | cons a l ih =>
    intro b hb
    obtain ⟨b1, h1, r1⟩ := hf a (List.mem_cons_self a l) b hb
    obtain ⟨b', h2, r2⟩ := ih (fun a' ha' => hf a' (List.mem_cons_of_mem a ha')) b1
      (hI b b1 hb r1)
    exact ⟨b', by rw [List.foldlM_cons, h1]; exact h2, htrans _ _ _ r1 r2⟩

/-- On a grid-aligned grid whose cell `(5, 13)` is free, `clearAndScore` has a result. -/
theorem clearAndScore_defined (g : Grid) (ha : Aligned g) (h513 : (g 5 13).occupied = false) :
    ∃ g', clearAndScore g = some g' := by
  have hI : ∀ b b' : Grid, (Aligned b ∧ (b 5 13).occupied = false) → ClearedFrom b b' →
      (Aligned b' ∧ (b' 5 13).occupied = false) := by
    intro b b' hb hc
    refine ⟨aligned_clearedFrom b b' hb.1 hc, ?_⟩
    by_contra hcon
    have := clearedFrom_occupied b b' hc 5 13 (by simpa using hcon)
    rw [hb.2] at this
    exact Bool.false_ne_true this
  have hcol : ∀ x ∈ List.range 6, ∀ b : Grid, (Aligned b ∧ (b 5 13).occupied = false) →
      ∃ b', scanColumn b x = some b' ∧ ClearedFrom b b' := by
    intro x hx b hb
    exact foldlM_defined ClearedFrom clearedFrom_refl clearedFrom_trans _ hI
      (fun g0 y => scanOrigin g0 x y) (List.range 14)
      (fun y hy b0 hb0 => by
        obtain ⟨b1, h1⟩ := scanOrigin_defined b0 hb0.1 hb0.2 x y (List.mem_range.mp hx)
          (List.mem_range.mp hy)
        exact ⟨b1, h1, scanOrigin_cleared b0 b1 x y h1⟩) b hb
  obtain ⟨g', hg', _⟩ := foldlM_defined ClearedFrom clearedFrom_refl clearedFrom_trans _ hI
    scanColumn (List.range 6) hcol g ⟨ha, h513⟩
  exact ⟨g', hg'⟩

theorem clearAndScore_fixed (g g' : Grid) (ha : Aligned g) (h : clearAndScore g = some g') :
    NoLine3 g' ∧ clearAndScore g' = some g' ∧ ClearedFrom g g' := by
  obtain ⟨hc, ha', hq⟩ := clearAndScore_quiet g g' ha h
  exact ⟨noLine3_of_quiet g' ha' hq, clearAndScore_of_quiet g' hq, hc⟩

theorem aligned_gridOf_last : Aligned (gridOf [(5, 13, Color.red)]) := by
  unfold Aligned
  decide

/-- C22 at its failing input, and where it holds.  The grid whose only block rests in the
bottom right cell `(5, 13)` is grid-aligned; the scan of that origin sends the downward
walk to `placedBlocks[5][14]`, past the end of the array, so `clearAndScore` has no defined
result on it (same defect as C1, C2, C17: the bound `GRID_HEIGHT` of the downward walk).
On every grid-aligned grid whose cell `(5, 13)` is free `clearAndScore` has a result, and
whenever it has a result on a grid-aligned grid, that result holds no straight line of 3
adjacent occupied cells of one colour along any of the four axes, and a second call
returns it unchanged. -/
theorem clearAndScore_last_cell_undefined :
    Aligned (gridOf [(5, 13, Color.red)]) ∧
      ((5 : Int), (14 : Int)) ∈ downReads (gridOf [(5, 13, Color.red)])
        (gridOf [(5, 13, Color.red)] 5 13) ∧
      readBlock (gridOf [(5, 13, Color.red)]) 5 14 = none ∧
      clearAndScore (gridOf [(5, 13, Color.red)]) = none ∧
      (∀ g : Grid, Aligned g → (g 5 13).occupied = false →
        ∃ g', clearAndScore g = some g' ∧ NoLine3 g' ∧ clearAndScore g' = some g') ∧
      (∀ g g' : Grid, Aligned g → clearAndScore g = some g' →
        NoLine3 g' ∧ clearAndScore g' = some g') := by
  refine ⟨aligned_gridOf_last, by decide, by decide, Option.isNone_iff_eq_none.mp (by decide),
    ?_, ?_⟩
  · intro g ha h513
    obtain ⟨g', hg'⟩ := clearAndScore_defined g ha h513
    obtain ⟨h1, h2, _⟩ := clearAndScore_fixed g g' ha hg'
    exact ⟨g', hg', h1, h2⟩
  · intro g g' ha hg'
    obtain ⟨h1, h2, _⟩ := clearAndScore_fixed g g' ha hg'
    exact ⟨h1, h2⟩

theorem clearAndScore_no_line_witness :
    Aligned crossGrid ∧ (crossGrid 5 13).occupied = false ∧
      ∃ g', clearAndScore crossGrid = some g' ∧ NoLine3 g' ∧ clearAndScore g' = some g' :=
  ⟨aligned_crossGrid, rfl,
    clearAndScore_last_cell_undefined.2.2.2.2.1 crossGrid aligned_crossGrid rfl⟩

/-! ### The spawn column -/

theorem spawnColumn_leftOfLast (d : Draws) (s : GameState) :
    ColumnLeftOfLast (spawnColumn d s).columnBlocks := by
  have hx : (0 : Int) ≤ ((d.rx % 5 : Nat) : Int) * 50 ∧
      ((d.rx % 5 : Nat) : Int) * 50 < GRID_WIDTH - BLOCK_WIDTH := by
    simp only [GRID_WIDTH, GRID_BLOCK_WIDTH, BLOCK_WIDTH]
    omega
  exact ⟨hx, hx, hx⟩

theorem shiftBlockLeft_leftOfLast (slots : Nat → Int) (y2 : Int) (b b' : Block)
    (h : LeftOfLast b) (hs : shiftBlockLeft slots y2 b = some b') : LeftOfLast b' := by
  obtain ⟨h0, h1⟩ := h
  simp only [GRID_WIDTH, GRID_BLOCK_WIDTH, BLOCK_WIDTH] at h1
  unfold shiftBlockLeft at hs
  simp only [BLOCK_WIDTH] at hs
  split at hs
  · simp only [Option.some.injEq] at hs
    rw [← hs]
    exact ⟨show (0 : Int) ≤ 0 by decide, show (0 : Int) < GRID_WIDTH - BLOCK_WIDTH by decide⟩
  · rw [Option.map_eq_some'] at hs
    obtain ⟨v, _, hv⟩ := hs
    rw [← hv]
    split
    · exact ⟨h0, by simp only [GRID_WIDTH, GRID_BLOCK_WIDTH, BLOCK_WIDTH]; omega⟩
    · exact ⟨by show 0 ≤ b.x - 50; omega,
        by show b.x - 50 < GRID_WIDTH - BLOCK_WIDTH
           simp only [GRID_WIDTH, GRID_BLOCK_WIDTH, BLOCK_WIDTH]; omega⟩

theorem moveColumnLeft_leftOfLast (s s' : GameState) (h : ColumnLeftOfLast s.columnBlocks)
    (hs : moveColumnLeft s = some s') : ColumnLeftOfLast s'.columnBlocks := by
  unfold moveColumnLeft at hs
  split at hs
  · simp only [Option.some.injEq] at hs
    rw [← hs]
    exact h
  · simp only [Option.bind_eq_some, Option.map_eq_some'] at hs
    obtain ⟨c0, h0, c1, h1, c2, h2, hs⟩ := hs
    rw [← hs]
    exact ⟨shiftBlockLeft_leftOfLast _ _ _ _ h.1 h0, shiftBlockLeft_leftOfLast _ _ _ _ h.2.1 h1,
      shiftBlockLeft_leftOfLast _ _ _ _ h.2.2 h2⟩

theorem moveColumnDown_leftOfLast (d : Draws) (t : ℚ) (s s' : GameState)
    (h : ColumnLeftOfLast s.columnBlocks) (hs : moveColumnDown d t s = some s') :
    ColumnLeftOfLast s'.columnBlocks := by
  have key : ∀ s1 : GameState, s1.columnBlocks = s.columnBlocks →
      (if t - s1.lastColumnDownMove < columnDownInterval then some s1
        else moveColumnDownFired d t s1) = some s' → ColumnLeftOfLast s'.columnBlocks := by
    intro s1 h1 h2
    split at h2
    · simp only [Option.some.injEq] at h2
      rw [← h2, h1]
      exact h
    · unfold moveColumnDownFired at h2
      simp only [Option.bind_eq_some] at h2
      obtain ⟨slot, _, h2⟩ := h2
      split at h2
      · simp only [Option.bind_eq_some, Option.map_eq_some'] at h2
        obtain ⟨r, hr, g, _, h2⟩ := h2
        have hal := landColumn_aligned _ _ _ _ _ _ hr
        split at h2
        · rw [← h2]
          simp only [hal, h1]
          exact h
        · rw [← h2]
          exact spawnColumn_leftOfLast d _
      · simp only [Option.some.injEq] at h2
        rw [← h2, h1]
        exact h
  unfold moveColumnDown at hs
  split at hs
  · simp only [Option.some.injEq] at hs
    rw [← hs]
    exact h
  · exact key _ (by split <;> rfl) hs

/-- C23. `spawnColumn` never places the new column in the rightmost grid column: for every
value `rand()` returns, `getRandomX` is in `[0, GRID_BLOCK_WIDTH - 2]` = `[0, 4]`, and the
three spawned cells have the x-offset `getRandomX * BLOCK_WIDTH`, at most 200, so each is
in a grid column 0 to 4.  The same holds after `initGameState`.  A falling column whose
cells are in grid columns 0 to 4 is still in grid columns 0 to 4 after `moveColumnLeft`,
`shiftColumnColors`, `moveColumnDown` (which may land and spawn) and `compactBlocks`: of the
calls of the main loop only `moveColumnRight` can bring it to column 5, and from column 4
it does when the destination is free. -/
theorem spawnColumn_never_last_column (d : Draws) (s : GameState) :
    (0 ≤ getRandomX d.rx ∧ getRandomX d.rx ≤ GRID_BLOCK_WIDTH - 2) ∧
      (spawnColumn d s).columnBlocks.b0.x = getRandomX d.rx * BLOCK_WIDTH ∧
      (spawnColumn d s).columnBlocks.b1.x = getRandomX d.rx * BLOCK_WIDTH ∧
      (spawnColumn d s).columnBlocks.b2.x = getRandomX d.rx * BLOCK_WIDTH ∧
      (spawnColumn d s).columnBlocks.b2.x ≤ 200 ∧
      (spawnColumn d s).columnBlocks.b2.x.tdiv BLOCK_WIDTH ≤ 4 ∧
      ColumnLeftOfLast (spawnColumn d s).columnBlocks ∧
      ColumnLeftOfLast initGameState.columnBlocks ∧
      (∀ (e : Event) (s0 s' : GameState), e ≠ Event.right →
        ColumnLeftOfLast s0.columnBlocks → step e s0 = some s' →
        ColumnLeftOfLast s'.columnBlocks) ∧
      ∃ s', moveColumnRight (columnState (columnOf 200 0 Color.red Color.green Color.blue)) =
        some s' ∧ s'.columnBlocks.b2.x = 250 := by
  have hr : getRandomX d.rx = ((d.rx % 5 : Nat) : Int) := rfl
  have hx : (spawnColumn d s).columnBlocks.b2.x = ((d.rx % 5 : Nat) : Int) * 50 := rfl
  refine ⟨⟨by rw [hr]; omega, by rw [hr]; simp only [GRID_BLOCK_WIDTH]; omega⟩, rfl, rfl, rfl,
    by rw [hx]; omega, ?_, spawnColumn_leftOfLast d s, ?_, ?_, ⟨_, rfl, rfl⟩⟩
  · rw [hx, Int.mul_tdiv_cancel _ (by decide)]
    omega
  · exact ⟨⟨by decide, by decide⟩, ⟨by decide, by decide⟩, ⟨by decide, by decide⟩⟩
  · intro e s0 s' hne h hs
    cases e with
    | left => exact moveColumnLeft_leftOfLast s0 s' h hs
    | right => exact absurd rfl hne
    | rotate =>
      simp only [step, Option.some.injEq] at hs
      rw [← hs]
      unfold shiftColumnColors
      split <;> exact h
    | down d' t => exact moveColumnDown_leftOfLast d' t s0 s' h hs
    | compact t =>
      rw [compactBlocks_column t s0 s' hs]
      exact h

end Blocks
